import Mathlib

/-!
# devsecops-platform / dast-backend: task lifecycle and dual-store protocol

A shallow embedding of the task lifecycle handlers (`task/task.go`), of the
target handler `Add` and the target compensator (`target/target.go`,
`target/worker.go`), of the scan orchestrator with its target normalisation,
liveness prober and result callback (`scanner/scanner.go`, `scanner/http.go`,
`scanner/nuclei.go`), of the reconciliation workers (`task/worker.go`,
`target/worker.go`) and the result pager `target.Result`, and of the two stores
they talk to: the durable relational store (MySQL through gorm) and the fast
store (Redis).

Conventions of the embedding.

* Every handler is a function from the system state (and its request) to the
  new system state and the HTTP response.
* A store call that the environment makes fail is described by a fault value
  handed to the handler: `none` lets the call reach the store, `some e` makes it
  return the error `e` without touching the store. A call that reaches the
  store can still fail there (a Redis command on a key of another type, a
  duplicate primary key).
* Clock readings are inputs (`Time`).
* `id = ?` in a SQL `WHERE` clause is string equality.
* The stages of a scan (port discovery, liveness probe, vulnerability engine)
  and the network are oracles: records of functions that give the result of
  each call.
* Of the Go library, `strings.TrimSpace`, `net/url.Parse`, `net.SplitHostPort`
  and the way `encoding/json` writes a string are modelled where a statement
  depends on them.
-/

namespace Dast

/-! ## Durable store -/

/-- A clock reading together with its rendering in the layout
`2006-01-02 15:04:05`. -/
structure Time where
  unix : Nat
  text : String
deriving DecidableEq, Repr

/-- The row type `models.Task`. The columns `Config`, `Creator`, `StartedAt`
and `FinishedAt` are never written by the code and are left out. -/
structure Task where
  ID : String
  Name : String
  Status : String
  CreatedAt : Time
  UpdatedAt : Time
deriving DecidableEq, Repr

set_option linter.dupNamespace false in
/-- The row type `models.Target` (without its two timestamps, which nothing
reads). `ID` is the auto-increment primary key. -/
structure Target where
  ID : Nat
  TaskID : String
  Target : String
deriving DecidableEq, Repr

/-- The durable store: the `tasks` and `targets` tables and the auto-increment
counter of `targets`. -/
structure DB where
  tasks : List Task
  targets : List Target
  nextTargetID : Nat
deriving DecidableEq, Repr

/-- Apply a fault to a store call. -/
def withFault {α : Type} (flt : Option String) (call : Except String α) : Except String α :=
  match flt with
  | some e => .error e
  | none => call

/-- Query `DB.First(&t, "id = ?", taskId)`: the row with that primary key, or
the error `record not found`. -/
def DB.First (db : DB) (taskId : String) : Except String Task :=
  match db.tasks.find? (fun t => t.ID == taskId) with
  | some t => .ok t
  | none => .error "record not found"

/-- Statement `UPDATE tasks SET status = ?, updated_at = ? WHERE <cond>`:
the new table and the number of rows affected. -/
def DB.UpdateStatus (db : DB) (cond : Task → Bool) (status : String) (now : Time) : DB × Nat :=
  ({ db with tasks := db.tasks.map (fun t =>
      if cond t then { t with Status := status, UpdatedAt := now } else t) },
   db.tasks.countP cond)

/-! ## Fast store -/

/-- A value held under a Redis key. -/
inductive RVal where
  | str (v : String)
  | list (xs : List String)
  | hash (fs : List (String × String))
deriving DecidableEq, Repr

/-- The fast store: keys with their values. -/
abbrev Redis := List (String × RVal)

/-- The error Redis answers when a command meets a key of another type. -/
def wrongType : String := "WRONGTYPE Operation against a key holding the wrong kind of value"

/-- Remove a key. -/
def Redis.erase (r : Redis) (k : String) : Redis := r.filter (fun p => !(p.1 == k))

/-- Bind a key to a value, replacing what it held. -/
def Redis.put (r : Redis) (k : String) (v : RVal) : Redis := (k, v) :: Redis.erase r k

/-- Command `LRANGE key 0 -1`. -/
def Redis.LRange (r : Redis) (k : String) : Except String (List String) :=
  match r.lookup k with
  | none => .ok []
  | some (.list xs) => .ok xs
  | some _ => .error wrongType

/-- Command `RPUSH key v1 v2 ...`. -/
def Redis.RPush (r : Redis) (k : String) (vs : List String) : Except String Redis :=
  if vs.isEmpty then .error "ERR wrong number of arguments for 'rpush' command" else
  match r.lookup k with
  | none => .ok (Redis.put r k (.list vs))
  | some (.list xs) => .ok (Redis.put r k (.list (xs ++ vs)))
  | some _ => .error wrongType

/-- Command `SET key value NX EX ttl`: the store and whether the key was set.
Expiry is a separate step of the environment (`Redis.erase`). -/
def Redis.SetNX (r : Redis) (k v : String) : Except String (Redis × Bool) :=
  match r.lookup k with
  | none => .ok (Redis.put r k (.str v), true)
  | some _ => .ok (r, false)

/-- Command `DEL k1 k2 ...`. -/
def Redis.Del (r : Redis) (ks : List String) : Except String Redis :=
  .ok (ks.foldl Redis.erase r)

/-- Set one field of a hash value: the field is overwritten where it stands, or
added. -/
def hashSet : List (String × String) → String × String → List (String × String)
  | [], fv => [fv]
  | p :: l, fv => if p.1 == fv.1 then fv :: l else p :: hashSet l fv

/-- Command `HSET key f1 v1 f2 v2 ...` (and `HMSET`). -/
def Redis.HSet (r : Redis) (k : String) (fvs : List (String × String)) : Except String Redis :=
  match r.lookup k with
  | none => .ok (Redis.put r k (.hash (fvs.foldl hashSet [])))
  | some (.hash h) => .ok (Redis.put r k (.hash (fvs.foldl hashSet h)))
  | some _ => .error wrongType

/-- Command `HGETALL key`. -/
def Redis.HGetAll (r : Redis) (k : String) : Except String (List (String × String)) :=
  match r.lookup k with
  | none => .ok []
  | some (.hash h) => .ok h
  | some _ => .error wrongType

/-- Command `LREM key 0 value`: every occurrence is removed, and a list that
becomes empty is deleted. The number of removed elements is returned. -/
def Redis.LRem (r : Redis) (k v : String) : Except String (Redis × Nat) :=
  match r.lookup k with
  | none => .ok (r, 0)
  | some (.list xs) =>
    let ys := xs.filter (fun x => !(x == v))
    .ok (if ys.isEmpty then Redis.erase r k else Redis.put r k (.list ys), xs.length - ys.length)
  | some _ => .error wrongType

/-- A best-effort write: the store after the call, or the old store when the
call failed and its error is dropped. -/
def bestEffort (old : Redis) (res : Except String Redis) : Redis :=
  match res with
  | .ok r => r
  | .error _ => old

/-! ## Scan orchestrator executions and the cancellation registry -/

/-- Where an execution of `scanner.Run` stands. -/
inductive Phase where
  | launched
  | active
  | exited
deriving DecidableEq, Repr

/-- One goroutine executing `scanner.Run(taskId, rawTargets, infoKey)`;
`cancelled` is the state of its context. -/
structure Exec where
  taskId : String
  rawTargets : List String
  infoKey : String
  phase : Phase
  cancelled : Bool
deriving DecidableEq, Repr

/-- The whole system: both stores, the process-wide map `taskCancels`
(task identifier to the execution whose cancel function is stored) and the
executions launched so far (an execution is named by its position). -/
structure Sys where
  db : DB
  redis : Redis
  taskCancels : List (String × Nat)
  execs : List Exec
deriving DecidableEq, Repr

/-- The system before anything happened. -/
def Sys.empty : Sys := ⟨⟨[], [], 1⟩, [], [], []⟩

/-- A JSON value of a response body. -/
inductive Val where
  | str (s : String)
  | strs (xs : List String)
deriving DecidableEq, Repr

/-- An HTTP response: status code and the fields of its JSON body. -/
structure Resp where
  code : Nat
  body : List (String × Val)
deriving DecidableEq, Repr

/-- The response `c.JSON(code, gin.H{"error": msg})`. -/
def errResp (code : Nat) (msg : String) : Resp := ⟨code, [("error", .str msg)]⟩

/-- Function `scanner.Cancel`: call the cancel function stored for the task, if
any. -/
def Cancel (s : Sys) (taskId : String) : Sys :=
  match s.taskCancels.lookup taskId with
  | some run => { s with execs := s.execs.modify (fun e => { e with cancelled := true }) run }
  | none => s

/-- Function `scanner.setStatus`: write status, time and (when non-empty) the
error message into the info hash; the error of the write is dropped. -/
def setStatus (flt : Option String) (r : Redis) (infoKey status errMsg : String) (now : Time) : Redis :=
  let data := [("status", status), ("updated_at", now.text)]
  let data := if errMsg != "" then data ++ [("error_msg", errMsg)] else data
  bestEffort r (withFault flt (Redis.HSet r infoKey data))

/-- Entry of `scanner.Run` (lines 40 to 45): the cancel function of execution
`run` is stored under the task identifier, replacing whatever was stored, and
the info hash is set to `running`. -/
def runBegin (s : Sys) (run : Nat) (now : Time) (flt : Option String) : Sys :=
  match s.execs.get? run with
  | none => s
  | some e =>
    if e.phase != Phase.launched then s else
    { s with
      taskCancels := (e.taskId, run) :: s.taskCancels.filter (fun p => !(p.1 == e.taskId)),
      execs := s.execs.modify (fun e => { e with phase := Phase.active }) run,
      redis := setStatus flt s.redis e.infoKey "running" "" now }

/-- The return points of `scanner.Run` after its entry, in program order. -/
inductive RunPath where
  | portScanStopped
  | portScanError (err : String)
  | noHostPort
  | probeStopped
  | probeError (err : String)
  | noNucleiTargets
  | nucleiStopped
  | nucleiError (err : String)
  | finished
deriving DecidableEq, Repr

/-- The arguments `status, errMsg` of the `setStatus` call that precedes each
return point of `scanner.Run`. -/
def RunPath.terminal : RunPath → String × String
  | .portScanStopped => ("stopped", "")
  | .portScanError err => ("error", "port scan error: " ++ err)
  | .noHostPort => ("finished", "")
  | .probeStopped => ("stopped", "")
  | .probeError err => ("error", "http probe error: " ++ err)
  | .noNucleiTargets => ("finished", "")
  | .nucleiStopped => ("stopped", "")
  | .nucleiError err => ("error", "nuclei error: " ++ err)
  | .finished => ("finished", "")

/-- Exit of `scanner.Run` through the return point `path`: the `setStatus` call
of that path, followed by the deferred `taskCancels.Delete(taskId)`. -/
def runExit (s : Sys) (run : Nat) (path : RunPath) (now : Time) (flt : Option String) : Sys :=
  match s.execs.get? run with
  | none => s
  | some e =>
    if e.phase != Phase.active then s else
    { s with
      redis := setStatus flt s.redis e.infoKey path.terminal.1 path.terminal.2 now,
      taskCancels := s.taskCancels.filter (fun p => !(p.1 == e.taskId)),
      execs := s.execs.modify (fun e => { e with phase := Phase.exited }) run }

/-! ## Lifecycle handlers of `task/task.go` -/

/-- Faults of the store calls of `Start`, in program order. The errors of
`hset` and of the two lock releases are dropped by the handler. -/
structure StartFaults where
  lrange : Option String := none
  setnx : Option String := none
  update : Option String := none
  first : Option String := none
  release : Option String := none
  hset : Option String := none
  deferredRelease : Option String := none
deriving DecidableEq, Repr

/-- The closure `releaseLock` of `Start`: delete the lock key, dropping the
error. -/
def releaseLock (flt : Option String) (r : Redis) (lockKey : String) : Redis :=
  bestEffort r (withFault flt (Redis.Del r [lockKey]))

/-- The conditional update of `Start`:
`WHERE id = ? AND status != 'running'` sets `status = 'running'`. -/
def startUpdate (db : DB) (taskId : String) (now : Time) : DB × Nat :=
  DB.UpdateStatus db (fun t => t.ID == taskId && t.Status != "running") "running" now

/-- Handler `task.Start` for the query parameter `taskId`. -/
def Start (s : Sys) (taskId : String) (now : Time) (f : StartFaults) : Sys × Resp :=
  if taskId == "" then (s, errResp 400 "missing taskId") else
  let taskKey := "task:" ++ taskId ++ ":targets"
  let infoKey := "task:" ++ taskId ++ ":info"
  match withFault f.lrange (Redis.LRange s.redis taskKey) with
  | .error e => (s, errResp 500 ("redis error: " ++ e))
  | .ok targets =>
  if targets.length == 0 then (s, errResp 404 "task not found or empty") else
  let lockKey := "task:lock:" ++ taskId
  match withFault f.setnx (Redis.SetNX s.redis lockKey "1") with
  | .error e => (s, errResp 500 ("redis lock error: " ++ e))
  | .ok (r1, acquired) =>
  if !acquired then ({ s with redis := r1 }, errResp 400 "task start already in progress") else
  match withFault f.update (.ok (startUpdate s.db taskId now)) with
  | .error e =>
    ({ s with redis := releaseLock f.deferredRelease r1 lockKey },
      errResp 500 ("db update failed: " ++ e))
  | .ok (db1, rowsAffected) =>
  if rowsAffected == 0 then
    let resp :=
      match withFault f.first (DB.First db1 taskId) with
      | .error _ => errResp 404 "task not found"
      | .ok t =>
        if t.Status == "running" then errResp 400 "task already running"
        else errResp 400 ("task cannot be started (status=" ++ t.Status ++ ")")
    ({ s with db := db1, redis := releaseLock f.deferredRelease r1 lockKey }, resp)
  else
    let r2 := releaseLock f.release r1 lockKey
    let r3 := bestEffort r2 (withFault f.hset
      (Redis.HSet r2 infoKey [("status", "running"), ("updated_at", now.text)]))
    let execs := s.execs ++ [⟨taskId, targets, infoKey, Phase.launched, false⟩]
    ({ s with db := db1, redis := releaseLock f.deferredRelease r3 lockKey, execs := execs },
      ⟨200, [("message", .str "任务已开始扫描"), ("taskId", .str taskId)]⟩)

/-- Faults of the store calls of `Stop`, in program order; the error of `hset`
is dropped by the handler. -/
structure StopFaults where
  first : Option String := none
  update : Option String := none
  hset : Option String := none
deriving DecidableEq, Repr

/-- The conditional update of `Stop`:
`WHERE id = ? AND status = 'running'` sets `status = 'stopped'`. -/
def stopUpdate (db : DB) (taskId : String) (now : Time) : DB × Nat :=
  DB.UpdateStatus db (fun t => t.ID == taskId && t.Status == "running") "stopped" now

/-- Handler `task.Stop` for the query parameter `taskId`. -/
def Stop (s : Sys) (taskId : String) (now : Time) (f : StopFaults) : Sys × Resp :=
  if taskId == "" then (s, errResp 400 "missing taskId") else
  match withFault f.first (DB.First s.db taskId) with
  | .error _ => (s, errResp 404 "task not found")
  | .ok t =>
  if t.Status != "running" then
    ({ s with redis := bestEffort s.redis (withFault f.hset
        (Redis.HSet s.redis ("task:" ++ taskId ++ ":info")
          [("status", t.Status), ("updated_at", now.text)])) },
      ⟨400, [("error", .str "task not running"), ("status", .str t.Status)]⟩)
  else
  match withFault f.update (.ok (stopUpdate s.db taskId now)) with
  | .error e => (s, errResp 500 ("db update failed: " ++ e))
  | .ok (db1, rowsAffected) =>
  if rowsAffected == 0 then
    ({ s with db := db1 }, errResp 409 "task state changed concurrently, please retry")
  else
    let infoKey := "task:" ++ taskId ++ ":info"
    let r1 := bestEffort s.redis (withFault f.hset
      (Redis.HSet s.redis infoKey [("status", "stopped"), ("updated_at", now.text)]))
    (Cancel { s with db := db1, redis := r1 } taskId,
      ⟨200, [("message", .str "任务停止成功"), ("taskId", .str taskId), ("status", .str "stopped")]⟩)

/-- Faults of the store calls of `Delete`, in program order; the errors of
`del` and `lrem` are dropped by the handler. -/
structure DeleteFaults where
  first : Option String := none
  update : Option String := none
  del : Option String := none
  lrem : Option String := none
  rpush : Option String := none
deriving DecidableEq, Repr

/-- The four fast-store keys of a task that `Delete` clears. -/
def taskKeys (taskId : String) : List String :=
  ["task:" ++ taskId ++ ":info", "task:" ++ taskId ++ ":targets",
   "task:" ++ taskId ++ ":result", "task:" ++ taskId ++ ":log"]

/-- Handler `task.Delete` for the query parameter `taskId`. -/
def Delete (s : Sys) (taskId : String) (now : Time) (f : DeleteFaults) : Sys × Resp :=
  if taskId == "" then (s, errResp 400 "缺少 taskId") else
  match withFault f.first (DB.First s.db taskId) with
  | .error _ => (s, errResp 404 "任务不存在")
  | .ok t =>
  if t.Status == "running" then (s, errResp 400 "任务正在运行中，无法删除") else
  match withFault f.update
      (.ok (DB.UpdateStatus s.db (fun t => t.ID == taskId) "deleted" now)) with
  | .error e => (s, errResp 500 e)
  | .ok (db1, _) =>
  let s1 := Cancel { s with db := db1 } taskId
  let r1 := bestEffort s1.redis (withFault f.del (Redis.Del s1.redis (taskKeys taskId)))
  let r2 := bestEffort r1 ((withFault f.lrem (Redis.LRem r1 "tasks:list" taskId)).map Prod.fst)
  match withFault f.rpush (Redis.RPush r2 "task:delete:queue" [taskId]) with
  | .error e => ({ s1 with redis := r2 }, errResp 500 ("加入删除队列失败: " ++ e))
  | .ok r3 =>
    ({ s1 with redis := r3 },
      ⟨200, [("message", .str "任务已标记删除（后台正在清理）"), ("taskId", .str taskId)]⟩)

/-- Predicate `unicode.IsSpace`. -/
def isSpace (c : Char) : Bool :=
  let n := c.toNat
  n == 0x09 || n == 0x0A || n == 0x0B || n == 0x0C || n == 0x0D || n == 0x20 ||
  n == 0x85 || n == 0xA0 || n == 0x1680 || (0x2000 ≤ n && n ≤ 0x200A) ||
  n == 0x2028 || n == 0x2029 || n == 0x202F || n == 0x205F || n == 0x3000

/-- Function `strings.TrimSpace`. -/
def TrimSpace (t : String) : String :=
  ⟨((t.data.dropWhile isSpace).reverse.dropWhile isSpace).reverse⟩

/-- One lower-case hexadecimal digit. -/
def hexDigit (n : Nat) : Char :=
  match n with
  | 0 => '0' | 1 => '1' | 2 => '2' | 3 => '3' | 4 => '4' | 5 => '5' | 6 => '6' | 7 => '7'
  | 8 => '8' | 9 => '9' | 10 => 'a' | 11 => 'b' | 12 => 'c' | 13 => 'd' | 14 => 'e' | _ => 'f'

/-- Function `generateTaskID`, given the 16 bytes that `rand.Read` produced:
their hexadecimal encoding. -/
def generateTaskID (b : List (Fin 256)) : String :=
  ⟨b.flatMap (fun x => [hexDigit (x.val / 16), hexDigit (x.val % 16)])⟩

/-- The bound JSON request of `Create`. -/
structure CreateReq where
  TaskName : String
  Targets : List String
deriving DecidableEq, Repr

/-- Faults of the store calls of `Create`, in program order. The handler does
not look at the results of `begin` and `commit`; a failed `begin` makes the
first statement of the transaction fail, a failed `commit` leaves the
transaction unapplied. -/
structure CreateFaults where
  begin : Option String := none
  create : Option String := none
  batch : Option String := none
  commit : Option String := none
  rpush : Option String := none
  hset : Option String := none
  listPush : Option String := none
deriving DecidableEq, Repr

/-- Statement `INSERT INTO tasks`: refused when the primary key exists. -/
def DB.insertTask (db : DB) (t : Task) : Except String DB :=
  if db.tasks.any (fun x => x.ID == t.ID) then
    .error "Error 1062: Duplicate entry for key 'PRIMARY'"
  else .ok { db with tasks := db.tasks ++ [t] }

/-- The rows built for a batch of targets, numbered from `next`. -/
def mkTargets (next : Nat) (taskId : String) : List String → List Target
  | [] => []
  | t :: ts => ⟨next, taskId, t⟩ :: mkTargets (next + 1) taskId ts

/-- Statement `INSERT INTO targets` for a batch of targets of one task. -/
def DB.insertTargets (db : DB) (taskId : String) (targets : List String) : DB :=
  { db with
    targets := db.targets ++ mkTargets db.nextTargetID taskId targets,
    nextTargetID := db.nextTargetID + targets.length }

/-- Handler `task.Create` for a bound request, the random bytes of the
identifier and the clock reading. The transaction is applied at `tx.Commit()`;
when the commit fails only the auto-increment counter stays advanced. -/
def Create (s : Sys) (b : List (Fin 256)) (req : CreateReq) (now : Time) (f : CreateFaults) :
    Sys × Resp :=
  if req.Targets.length == 0 then (s, errResp 400 "missing targets") else
  if TrimSpace req.TaskName == "" then (s, errResp 400 "missing taskName") else
  let taskId := generateTaskID b
  let taskModel : Task := ⟨taskId, req.TaskName, "pending", now, now⟩
  match withFault f.begin (withFault f.create (DB.insertTask s.db taskModel)) with
  | .error e => (s, errResp 500 ("db create task failed: " ++ e))
  | .ok tx1 =>
  match withFault f.batch (.ok (DB.insertTargets tx1 taskId req.Targets)) with
  | .error e => (s, errResp 500 ("db insert targets failed: " ++ e))
  | .ok tx2 =>
  let db1 : DB :=
    match f.commit with
    | none => tx2
    | some _ => { s.db with nextTargetID := tx2.nextTargetID }
  let s1 := { s with db := db1 }
  let key := "task:" ++ taskId ++ ":targets"
  match withFault f.rpush (Redis.RPush s1.redis key req.Targets) with
  | .error e => (s1, errResp 500 ("redis push failed: " ++ e))
  | .ok r1 =>
  let taskInfo := [("taskId", taskId), ("taskName", req.TaskName), ("created_at", now.text),
    ("updated_at", now.text), ("status", "pending")]
  match withFault f.hset (Redis.HSet r1 ("task:" ++ taskId ++ ":info") taskInfo) with
  | .error e => ({ s1 with redis := r1 }, errResp 500 e)
  | .ok r2 =>
  match withFault f.listPush (Redis.RPush r2 "tasks:list" [taskId]) with
  | .error e => ({ s1 with redis := r2 }, errResp 500 e)
  | .ok r3 =>
    ({ s1 with redis := r3 },
      ⟨200, [("message", .str "任务创建成功"), ("taskId", .str taskId),
        ("taskName", .str req.TaskName), ("created", .str now.text),
        ("targets", .strs req.Targets)]⟩)

/-- One entry of the task listing. -/
structure TaskView where
  taskId : String
  taskName : String
  status : String
  created_at : String
  updated_at : String
deriving DecidableEq, Repr

/-- The response of the task listing. -/
structure ListResp where
  code : Nat
  tasks : List TaskView
  error : Option String
deriving DecidableEq, Repr

/-- Faults of the store calls of the task listing; `hgetall` is asked per key
and its error is dropped by the handler. -/
structure ListFaults where
  find : Option String := none
  hgetall : String → Option String := fun _ => none
  lrange : Option String := none

/-- The result of `info, _ := HGetAll(key).Result()`: the hash, empty when the
call failed. -/
def infoOf (flt : Option String) (r : Redis) (key : String) : List (String × String) :=
  match withFault flt (Redis.HGetAll r key) with
  | .ok info => info
  | .error _ => []

/-- Handler `task.List`. The rows come ordered by `created_at desc`. -/
def TaskList (s : Sys) (f : ListFaults) : ListResp :=
  let dbTasks : Except String (List Task) := withFault f.find
    (.ok (s.db.tasks.insertionSort (fun a b => b.CreatedAt.unix ≤ a.CreatedAt.unix)))
  let fromRedis : ListResp :=
    match withFault f.lrange (Redis.LRange s.redis "tasks:list") with
    | .error e => ⟨500, [], some e⟩
    | .ok taskIds =>
      ⟨200, taskIds.filterMap (fun id =>
        let info := infoOf (f.hgetall ("task:" ++ id ++ ":info")) s.redis ("task:" ++ id ++ ":info")
        if info.length == 0 then none else
        some ⟨(info.lookup "taskId").getD "", (info.lookup "taskName").getD "",
          (info.lookup "status").getD "", (info.lookup "created_at").getD "",
          (info.lookup "updated_at").getD ""⟩), none⟩
  match dbTasks with
  | .ok (t :: ts) =>
    ⟨200, (t :: ts).map (fun t =>
      let info := infoOf (f.hgetall ("task:" ++ t.ID ++ ":info")) s.redis ("task:" ++ t.ID ++ ":info")
      let status := if info.length > 0 then (info.lookup "status").getD t.Status else t.Status
      ⟨t.ID, t.Name, status, t.CreatedAt.text, t.UpdatedAt.text⟩), none⟩
  | _ => fromRedis

/-! ## Targets: `target/target.go` and the target compensator of `target/worker.go` -/

/-- Function `target.GetTaskTargetsKey`. -/
def GetTaskTargetsKey (taskId : String) : String := "task:" ++ taskId ++ ":targets"

/-- The bound JSON request of `target.Add`. -/
structure AddReq where
  Targets : List String
  TaskId : String
deriving DecidableEq, Repr

/-- Faults of the store calls of `target.Add`, in program order; the errors of
`queuePush` and `update` are dropped by the handler. -/
structure AddFaults where
  insert : Option String := none
  rpush : Option String := none
  queuePush : Option String := none
  update : Option String := none
deriving DecidableEq, Repr

/-- A best-effort durable write: the store after the statement, or the old
store when the statement failed and its error is dropped. -/
def bestEffortDB (old : DB) (res : Except String (DB × Nat)) : DB :=
  match res with
  | .ok p => p.1
  | .error _ => old

/-- Handler `target.Add` (AddTargets) for a bound request. -/
def Add (s : Sys) (req : AddReq) (now : Time) (f : AddFaults) : Sys × Resp :=
  if req.Targets.length == 0 then (s, errResp 400 "invalid targets") else
  let taskId := req.TaskId
  if taskId == "" then (s, errResp 400 "missing taskId") else
  match withFault f.insert (.ok (DB.insertTargets s.db taskId req.Targets)) with
  | .error e => (s, errResp 500 ("db insert targets failed: " ++ e))
  | .ok db1 =>
  let key := GetTaskTargetsKey taskId
  match withFault f.rpush (Redis.RPush s.redis key req.Targets) with
  | .error _ =>
    let r1 := bestEffort s.redis (withFault f.queuePush
      (Redis.RPush s.redis "task:sync:targets:queue" [taskId]))
    let db2 := bestEffortDB db1 (withFault f.update
      (.ok (DB.UpdateStatus db1 (fun t => t.ID == taskId) "pending_sync" now)))
    ({ s with db := db2, redis := r1 },
      ⟨202, [("message", .str "targets stored in DB, but redis push failed; queued for retry"),
        ("taskId", .str taskId), ("targets", .strs req.Targets)]⟩)
  | .ok r1 =>
    ({ s with db := db1, redis := r1 },
      ⟨200, [("message", .str "添加成功"), ("taskId", .str taskId),
        ("targets", .strs req.Targets)]⟩)

/-- Command `BLPOP key timeout`: the first element of the list, which is removed
(the list is deleted when it becomes empty), or nothing when the wait times
out on a missing list. -/
def Redis.BLPop (r : Redis) (k : String) : Except String (Redis × Option String) :=
  match r.lookup k with
  | none => .ok (r, none)
  | some (.list []) => .ok (r, none)
  | some (.list (x :: xs)) =>
    .ok (if xs.isEmpty then Redis.erase r k else Redis.put r k (.list xs), some x)
  | some _ => .error wrongType

/-- Faults of the store calls of one round of the target compensator, in
program order; only the errors of `blpop`, `find` and `rpush` are looked at. -/
structure CompFaults where
  blpop : Option String := none
  find : Option String := none
  requeue : Option String := none
  rpush : Option String := none
  failedPush : Option String := none
  update : Option String := none
deriving DecidableEq, Repr

/-- Query `DB.Where("task_id = ?", taskId).Find(&dbTargets)`: the Target rows of
the task, in primary-key order. -/
def DB.FindTargets (db : DB) (taskId : String) : List Target :=
  db.targets.filter (fun t => t.TaskID == taskId)

/-- One round of the loop of `target.compensatorWorker`: pop a task identifier
from `task:sync:targets:queue` and push the task's durable targets to its
fast-store list. -/
def compensatorStep (s : Sys) (now : Time) (f : CompFaults) : Sys :=
  match withFault f.blpop (Redis.BLPop s.redis "task:sync:targets:queue") with
  | .error _ => s
  | .ok (_, none) => s
  | .ok (r0, some taskId) =>
  match withFault f.find (.ok (DB.FindTargets s.db taskId)) with
  | .error _ =>
    { s with redis := bestEffort r0 (withFault f.requeue
        (Redis.RPush r0 "task:sync:targets:queue" [taskId])) }
  | .ok dbTargets =>
  if dbTargets.length == 0 then { s with redis := r0 } else
  let redisKey := GetTaskTargetsKey taskId
  match withFault f.rpush (Redis.RPush r0 redisKey (dbTargets.map (fun t => t.Target))) with
  | .error _ =>
    { s with redis := bestEffort r0 (withFault f.failedPush
        (Redis.RPush r0 "task:sync:targets:failed" [taskId])) }
  | .ok r1 =>
    { s with redis := r1,
             db := bestEffortDB s.db (withFault f.update
               (.ok (DB.UpdateStatus s.db (fun t => t.ID == taskId) "pending" now))) }

/-- The keys of the compensation queue, of the two delete queues and of their
dead-letter lists. -/
def repairKeys : List String :=
  ["task:sync:targets:queue", "task:sync:targets:failed", "target:delete:queue",
   "target:delete:failed", "task:delete:queue", "task:delete:failed"]

/-- What the fast store holds under the six keys of `repairKeys`, in their
order. -/
def repairEntries (r : Redis) : List (Option RVal) := repairKeys.map (fun k => r.lookup k)

/-- The primary key of `tasks`: no two rows share an identifier. -/
def DB.keyed (db : DB) : Prop := db.tasks.Pairwise (fun a b => a.ID ≠ b.ID)

instance (db : DB) : Decidable (DB.keyed db) := by unfold DB.keyed; infer_instance

/-- The status shown by the fast-store mirror of a task: field `status` of the
hash under `infoKey`. -/
def mirrorStatus (r : Redis) (infoKey : String) : Option String :=
  match r.lookup infoKey with
  | some (.hash h) => h.lookup "status"
  | _ => none

/-! ## The system as a transition system -/

/-- The steps of the system: the lifecycle requests, the addition of targets, a
round of the target compensator, and the entry and exit of a launched
orchestrator execution. -/
inductive Action where
  | create (b : List (Fin 256)) (req : CreateReq) (now : Time) (f : CreateFaults)
  | start (taskId : String) (now : Time) (f : StartFaults)
  | stop (taskId : String) (now : Time) (f : StopFaults)
  | delete (taskId : String) (now : Time) (f : DeleteFaults)
  | add (req : AddReq) (now : Time) (f : AddFaults)
  | compensate (now : Time) (f : CompFaults)
  | runBegin (run : Nat) (now : Time) (flt : Option String)
  | runExit (run : Nat) (path : RunPath) (now : Time) (flt : Option String)
deriving DecidableEq, Repr

/-- One step of the system. -/
def step (s : Sys) : Action → Sys
  | .create b req now f => (Create s b req now f).1
  | .start taskId now f => (Start s taskId now f).1
  | .stop taskId now f => (Stop s taskId now f).1
  | .delete taskId now f => (Delete s taskId now f).1
  | .add req now f => (Add s req now f).1
  | .compensate now f => compensatorStep s now f
  | .runBegin run now flt => runBegin s run now flt
  | .runExit run path now flt => runExit s run path now flt

/-- The state reached from `s` by a sequence of steps. -/
def reach (s : Sys) (trace : List Action) : Sys := trace.foldl step s

/-- The executions of `scanner.Run` for a task that have started and not yet
returned, by position. -/
def activeRuns (s : Sys) (taskId : String) : List Nat :=
  (List.range s.execs.length).filter (fun i =>
    match s.execs.get? i with
    | some e => e.taskId == taskId && e.phase == Phase.active
    | none => false)

/-! ## Concurrent `Start` calls

A `Start` call is cut at its store calls: each store call is one atomic step,
and concurrent calls interleave at these steps. -/

/-- Where a `Start` call stands: before which store call, and what it holds. -/
inductive StartPC where
  | entry
  | haveTargets (targets : List String)
  | locked (targets : List String)
  | zeroRows
  | updated (targets : List String)
  | released (targets : List String)
  | mirrored (targets : List String)
  | returning (resp : Resp)
  | done (resp : Resp)
deriving DecidableEq, Repr

/-- One step of a `Start` call: the code of `task.Start` from one store call to
the next. `entry` runs to the `LRANGE`, `haveTargets` the `SETNX`, `locked` the
conditional `UPDATE`, `zeroRows` the re-read of the row, `updated` the explicit
`releaseLock()`, `released` the `HSET` of the mirror, `mirrored` the
`go scanner.Run(...)` and the response, `returning` the deferred
`releaseLock()`. -/
def startStep (s : Sys) (taskId : String) (now : Time) (f : StartFaults) : StartPC → Sys × StartPC
  | .entry =>
    if taskId == "" then (s, .done (errResp 400 "missing taskId")) else
    match withFault f.lrange (Redis.LRange s.redis ("task:" ++ taskId ++ ":targets")) with
    | .error e => (s, .done (errResp 500 ("redis error: " ++ e)))
    | .ok targets =>
      if targets.length == 0 then (s, .done (errResp 404 "task not found or empty"))
      else (s, .haveTargets targets)
  | .haveTargets targets =>
    match withFault f.setnx (Redis.SetNX s.redis ("task:lock:" ++ taskId) "1") with
    | .error e => (s, .done (errResp 500 ("redis lock error: " ++ e)))
    | .ok (r1, acquired) =>
      if !acquired then
        ({ s with redis := r1 }, .done (errResp 400 "task start already in progress"))
      else ({ s with redis := r1 }, .locked targets)
  | .locked targets =>
    match withFault f.update (.ok (startUpdate s.db taskId now)) with
    | .error e => (s, .returning (errResp 500 ("db update failed: " ++ e)))
    | .ok (db1, rowsAffected) =>
      if rowsAffected == 0 then ({ s with db := db1 }, .zeroRows)
      else ({ s with db := db1 }, .updated targets)
  | .zeroRows =>
    (s, .returning
      (match withFault f.first (DB.First s.db taskId) with
      | .error _ => errResp 404 "task not found"
      | .ok t =>
        if t.Status == "running" then errResp 400 "task already running"
        else errResp 400 ("task cannot be started (status=" ++ t.Status ++ ")")))
  | .updated targets =>
    ({ s with redis := releaseLock f.release s.redis ("task:lock:" ++ taskId) }, .released targets)
  | .released targets =>
    ({ s with redis := bestEffort s.redis (withFault f.hset
        (Redis.HSet s.redis ("task:" ++ taskId ++ ":info")
          [("status", "running"), ("updated_at", now.text)])) }, .mirrored targets)
  | .mirrored targets =>
    ({ s with execs := s.execs ++
        [⟨taskId, targets, "task:" ++ taskId ++ ":info", Phase.launched, false⟩] },
      .returning ⟨200, [("message", .str "任务已开始扫描"), ("taskId", .str taskId)]⟩)
  | .returning resp =>
    ({ s with redis := releaseLock f.deferredRelease s.redis ("task:lock:" ++ taskId) },
      .done resp)
  | .done resp => (s, .done resp)

/-- A `Start` call run alone for `n` steps. -/
def startSteps (taskId : String) (now : Time) (f : StartFaults) : Nat → Sys × StartPC → Sys × StartPC
  | 0, c => c
  | n + 1, c => startSteps taskId now f n (startStep c.1 taskId now f c.2)

/-- Several concurrent `Start` calls for one task: the shared system, where
each call stands, how many conditional updates have changed the row so far
and how many orchestrators have been launched so far. -/
structure Conc where
  sys : Sys
  pcs : List StartPC
  transitions : Nat
  launches : Nat
deriving DecidableEq, Repr

/-- What the scheduler picks next: a step of call `i`, or the expiry of the
lock key (its TTL of 30 seconds). -/
inductive Sched where
  | call (i : Nat)
  | lockExpires
deriving DecidableEq, Repr

/-- Whether a step of a call changed the row to `running`. -/
def isTransition : StartPC → StartPC → Bool
  | .locked _, .updated _ => true
  | _, _ => false

/-- Whether a step of a call launched an orchestrator. -/
def isLaunch : StartPC → StartPC → Bool
  | .mirrored _, .returning _ => true
  | _, _ => false

/-- One scheduled step of the concurrent calls (no store call fails); call `i`
reads the clock as `now i`. -/
def concStep (taskId : String) (now : Nat → Time) (c : Conc) : Sched → Conc
  | .call i =>
    match c.pcs.get? i with
    | none => c
    | some pc =>
      let r := startStep c.sys taskId (now i) {} pc
      { sys := r.1, pcs := c.pcs.set i r.2,
        transitions := c.transitions + (if isTransition pc r.2 then 1 else 0),
        launches := c.launches + (if isLaunch pc r.2 then 1 else 0) }
  | .lockExpires =>
    { c with sys := { c.sys with redis := Redis.erase c.sys.redis ("task:lock:" ++ taskId) } }

/-- The configuration with `n` calls that have just arrived. -/
def concInit (s : Sys) (n : Nat) : Conc := ⟨s, List.replicate n StartPC.entry, 0, 0⟩

/-- The configuration reached under a schedule. -/
def concRun (taskId : String) (now : Nat → Time) (c : Conc) (sched : List Sched) : Conc :=
  sched.foldl (concStep taskId now) c

/-- The response of a call that has returned. -/
def StartPC.answer : StartPC → Option Resp
  | .done resp => some resp
  | _ => none

/-- Some row of the task can still be moved to `running` by the conditional
update of `Start`. -/
def startable (db : DB) (taskId : String) : Prop :=
  ∃ x ∈ db.tasks, x.ID = taskId ∧ x.Status ≠ "running"

/-- The call has changed the row and has not yet launched the orchestrator. -/
def StartPC.inFlight : StartPC → Bool
  | .updated _ | .released _ | .mirrored _ => true
  | _ => false

/-- The call holds the lock and has not yet tried the update. -/
def StartPC.isLocked : StartPC → Bool
  | .locked _ => true
  | _ => false

/-- The call has not yet tried to take the lock. -/
def StartPC.early : StartPC → Bool
  | .entry | .haveTargets _ => true
  | _ => false

/-- The call has written the response 200. -/
def StartPC.ok200 : StartPC → Bool
  | .returning r | .done r => r.code == 200
  | _ => false

/-- The target list the call read, while it holds it. -/
def StartPC.carried : StartPC → Option (List String)
  | .haveTargets t | .locked t | .updated t | .released t | .mirrored t => some t
  | _ => none

/-- The invariant of concurrent `Start` calls on one task, started in `s0` with
the fast-store target list `targets`. -/
structure ConcInv (s0 : Sys) (taskId : String) (targets : List String) (n : Nat) (c : Conc) :
    Prop where
  calls : c.pcs.length = n
  targetsKept : Redis.LRange c.sys.redis ("task:" ++ taskId ++ ":targets") = .ok targets
  row : ∃ t, DB.First c.sys.db taskId = .ok t
  status : (c.transitions = 0 ∧ startable c.sys.db taskId) ∨
    (c.transitions = 1 ∧ ¬ startable c.sys.db taskId)
  flight : c.transitions = c.launches + c.pcs.countP StartPC.inFlight
  progress : c.transitions = 1 ∨ (∃ pc ∈ c.pcs, pc.isLocked = true) ∨
    (c.sys.redis.lookup ("task:lock:" ++ taskId) = none ∧ ∀ pc ∈ c.pcs, pc.early = true)
  carried : ∀ pc ∈ c.pcs, ∀ t, pc.carried = some t → t = targets
  execs : c.sys.execs = s0.execs ++ List.replicate c.launches
    ⟨taskId, targets, "task:" ++ taskId ++ ":info", Phase.launched, false⟩
  answers : c.pcs.countP StartPC.ok200 = c.launches

/-! ## Example data -/

/-- A clock reading. -/
def exTime : Time := ⟨1700000000, "2023-11-14 22:13:20"⟩

/-- Sixteen random bytes. -/
def exBytes : List (Fin 256) :=
  [0x3a, 0x91, 0x0c, 0x5e, 0xd2, 0x77, 0x48, 0x10, 0xfe, 0x6b, 0x29, 0x83, 0xc4, 0x05, 0xb7, 0xe9]

/-- The identifier made from `exBytes`. -/
def exId : String := generateTaskID exBytes

/-- A create request. -/
def exReq : CreateReq := ⟨"nightly", ["10.0.0.1:8080", "example.internal"]⟩

/-- The system after one successful `Create` from the empty system. -/
def exCreated : Sys := reach Sys.empty [.create exBytes exReq exTime {}]

/-- The system after `Create` and `Start`, with the orchestrator entered. -/
def exRunning : Sys :=
  reach exCreated [.start exId exTime {}, .runBegin 0 exTime none]

/-- The system after a `Create` whose fast-store push failed: the task is
stored (pending) but has no fast-store target list. -/
def exUnmirrored : Sys :=
  (Create Sys.empty exBytes exReq exTime { rpush := some "dial tcp: connection refused" }).1

/-! ## Library functions used by the scanner

`net/url.Parse` and `net.SplitHostPort` are modelled on the characters of the
string. The Go functions work on bytes; every byte they look for is ASCII, and
in UTF-8 no byte of a longer character is ASCII, so positions and cuts agree.
Of the parsed URL only the scheme and the host are kept, and of the other parts
only whether they make `Parse` fail. The model follows the library as of
Go 1.22 (before the stricter check of bracketed IPv6 literals). -/

/-- Function `strings.HasPrefix`. -/
def HasPrefix (s p : String) : Bool := p.data.isPrefixOf s.data

/-- ASCII letter. -/
def isLetter (c : Char) : Bool :=
  (0x61 ≤ c.toNat && c.toNat ≤ 0x7A) || (0x41 ≤ c.toNat && c.toNat ≤ 0x5A)

/-- ASCII digit. -/
def isDigit (c : Char) : Bool := 0x30 ≤ c.toNat && c.toNat ≤ 0x39

/-- Function `ishex` of `net/url`. -/
def ishex (c : Char) : Bool :=
  isDigit c || (0x61 ≤ c.toNat && c.toNat ≤ 0x66) || (0x41 ≤ c.toNat && c.toNat ≤ 0x46)

/-- Function `unhex` of `net/url`. -/
def unhex (c : Char) : Nat :=
  if isDigit c then c.toNat - 0x30
  else if 0x61 ≤ c.toNat && c.toNat ≤ 0x66 then c.toNat - 0x61 + 10
  else if 0x41 ≤ c.toNat && c.toNat ≤ 0x46 then c.toNat - 0x41 + 10
  else 0

/-- Function `stringContainsCTLByte`: a byte below 0x20 or the byte 0x7f. -/
def stringContainsCTLByte (s : List Char) : Bool :=
  s.any (fun c => c.toNat < 0x20 || c.toNat == 0x7F)

/-- Loop of `getScheme` from position `i`. -/
def getSchemeFrom (rawURL : List Char) : Nat → List Char → Except String (List Char × List Char)
  | _, [] => .ok ([], rawURL)
  | i, c :: cs =>
    if isLetter c then getSchemeFrom rawURL (i + 1) cs
    else if isDigit c || c == '+' || c == '-' || c == '.' then
      if i == 0 then .ok ([], rawURL) else getSchemeFrom rawURL (i + 1) cs
    else if c == ':' then
      if i == 0 then .error "missing protocol scheme" else .ok (rawURL.take i, cs)
    else .ok ([], rawURL)

/-- Function `getScheme`: the scheme and what follows its colon. -/
def getScheme (rawURL : List Char) : Except String (List Char × List Char) :=
  getSchemeFrom rawURL 0 rawURL

/-- Function `shouldEscape(c, encodeHost)` on an ASCII character: everything
but letters, digits and ``!$&'()*+,;=:[]<>"-_.~``. -/
def shouldEscapeHost (c : Char) : Bool :=
  !(isLetter c || isDigit c || "!$&()*+,;=:[]<>-_.~".data.contains c ||
    c.toNat == 0x27 || c.toNat == 0x22)

/-- The check of `unescape` in the modes `encodePath`, `encodeUserPassword` and
`encodeFragment`, where it fails only on a `%` that is not followed by two
hexadecimal digits; `n` is the number of digits still owed. -/
def escapesOkFrom : Nat → List Char → Bool
  | n, [] => n == 0
  | 0, c :: cs => if c == '%' then escapesOkFrom 2 cs else escapesOkFrom 0 cs
  | n + 1, c :: cs => ishex c && escapesOkFrom n cs

/-- Whether `unescape` succeeds in a mode other than host and zone. -/
def escapesOk (s : List Char) : Bool := escapesOkFrom 0 s

/-- Function `unescape` in the modes `encodeHost` (`zone = false`) and
`encodeZone` (`zone = true`). In a host only `%25` and escapes of bytes from
0x80 are accepted; the latter decode to raw bytes, which a `String` cannot hold
in general, and are answered here with an error of their own: hosts with such
escapes are outside the model. -/
def unescapeHost (zone : Bool) : List Char → Except String (List Char)
  | [] => .ok []
  | c :: cs =>
    if c == '%' then
      match cs with
      | a :: b :: rest =>
        if !(ishex a && ishex b) then .error "invalid URL escape"
        else if !zone && unhex a < 8 && !(a == '2' && b == '5') then .error "invalid URL escape"
        else if zone && !(a == '2' && b == '5') && unhex a * 16 + unhex b != 0x20 &&
            (unhex a * 16 + unhex b ≥ 0x80 || shouldEscapeHost (Char.ofNat (unhex a * 16 + unhex b)))
          then .error "invalid URL escape"
        else if unhex a * 16 + unhex b ≥ 0x80 then .error "escaped byte outside the model"
        else (unescapeHost zone rest).map (fun r => Char.ofNat (unhex a * 16 + unhex b) :: r)
      | _ => .error "invalid URL escape"
    else if c.toNat < 0x80 && shouldEscapeHost c then .error "invalid character in host name"
    else (unescapeHost zone cs).map (fun r => c :: r)

/-- Function `validOptionalPort`: empty, or a colon followed by digits. -/
def validOptionalPort (port : List Char) : Bool :=
  match port with
  | [] => true
  | c :: ds => c == ':' && ds.all isDigit

/-- What follows the last occurrence of `c`. -/
def afterLast (c : Char) (s : List Char) : List Char :=
  (s.reverse.takeWhile (fun x => x != c)).reverse

/-- What precedes the last occurrence of `c`. -/
def beforeLast (c : Char) (s : List Char) : List Char :=
  ((s.reverse.dropWhile (fun x => x != c)).drop 1).reverse

/-- Cut at the first occurrence of the text `pat`: what precedes it, and the
rest from `pat` on. -/
def cutBefore (pat : List Char) : List Char → Option (List Char × List Char)
  | [] => none
  | c :: cs =>
    if pat.isPrefixOf (c :: cs) then some ([], c :: cs)
    else (cutBefore pat cs).map (fun p => (c :: p.1, p.2))

/-- Function `parseHost` of `net/url`. -/
def parseHost (host : List Char) : Except String (List Char) :=
  if host.head? == some '[' then
    if !host.contains ']' then .error "missing ']' in host" else
    let colonPort := afterLast ']' host
    if !validOptionalPort colonPort then .error "invalid port after host" else
    match cutBefore "%25".data (beforeLast ']' host) with
    | some (h1, h2) =>
      match unescapeHost false h1 with
      | .error e => .error e
      | .ok host1 =>
      match unescapeHost true h2 with
      | .error e => .error e
      | .ok host2 =>
      match unescapeHost false (']' :: colonPort) with
      | .error e => .error e
      | .ok host3 => .ok (host1 ++ host2 ++ host3)
    | none => unescapeHost false host
  else if host.contains ':' && !validOptionalPort (':' :: afterLast ':' host) then
    .error "invalid port after host"
  else unescapeHost false host

/-- Function `validUserinfo` of `net/url`. -/
def validUserinfo (s : List Char) : Bool :=
  s.all (fun c => isLetter c || isDigit c || "-._:~!$&()*+,;=%@".data.contains c ||
    c.toNat == 0x27)

/-- Function `parseAuthority` of `net/url`, as far as the host and the error
go. -/
def parseAuthority (authority : List Char) : Except String (List Char) :=
  if !authority.contains '@' then parseHost authority else
  match parseHost (afterLast '@' authority) with
  | .error e => .error e
  | .ok host =>
    let userinfo := beforeLast '@' authority
    if !validUserinfo userinfo then .error "net/url: invalid userinfo" else
    if !userinfo.contains ':' then
      if escapesOk userinfo then .ok host else .error "invalid URL escape"
    else
      if escapesOk (userinfo.takeWhile (fun x => x != ':')) &&
          escapesOk ((userinfo.dropWhile (fun x => x != ':')).drop 1)
      then .ok host else .error "invalid URL escape"

/-- The fields of `url.URL` that the scanner reads. -/
structure URL where
  Scheme : String
  Host : String
deriving DecidableEq, Repr

/-- Function `parse(rawURL, false)` of `net/url`. -/
def parse (rawURL : List Char) : Except String URL :=
  if stringContainsCTLByte rawURL then .error "net/url: invalid control character in URL" else
  if rawURL == ['*'] then .ok ⟨"", ""⟩ else
  match getScheme rawURL with
  | .error e => .error e
  | .ok (scheme0, rest0) =>
  let scheme := scheme0.map Char.toLower
  let rest :=
    if rest0.getLast? == some '?' && rest0.count '?' == 1 then rest0.dropLast
    else rest0.takeWhile (fun x => x != '?')
  if !(rest.head? == some '/') && !scheme.isEmpty then .ok ⟨⟨scheme⟩, ""⟩ else
  if !(rest.head? == some '/') && (rest.takeWhile (fun x => x != '/')).contains ':' then
    .error "first path segment in URL cannot contain colon" else
  if (!scheme.isEmpty || !"///".data.isPrefixOf rest) && "//".data.isPrefixOf rest then
    let authority := (rest.drop 2).takeWhile (fun x => x != '/')
    let rest1 := (rest.drop 2).dropWhile (fun x => x != '/')
    match parseAuthority authority with
    | .error e => .error e
    | .ok host =>
      if escapesOk rest1 then .ok ⟨⟨scheme⟩, ⟨host⟩⟩ else .error "invalid URL escape"
  else
    if escapesOk rest then .ok ⟨⟨scheme⟩, ""⟩ else .error "invalid URL escape"

/-- Function `url.Parse`. -/
def Parse (rawURL : String) : Except String URL :=
  let u := rawURL.data.takeWhile (fun x => x != '#')
  let frag := (rawURL.data.dropWhile (fun x => x != '#')).drop 1
  match parse u with
  | .error e => .error e
  | .ok url =>
    if frag.isEmpty then .ok url
    else if escapesOk frag then .ok url else .error "invalid URL escape"

/-- Function `net.SplitHostPort`. -/
def SplitHostPort (hostport : String) : Except String (String × String) :=
  let s := hostport.data
  if !s.contains ':' then .error "missing port in address" else
  let port := afterLast ':' s
  if s.head? == some '[' then
    if !s.contains ']' then .error "missing ']' in address" else
    let host := (s.drop 1).takeWhile (fun x => x != ']')
    let behind := ((s.drop 1).dropWhile (fun x => x != ']')).drop 1
    if behind.isEmpty then .error "missing port in address" else
    if behind.head? == some ':' && !(behind.drop 1).contains ':' then
      if (s.drop 1).contains '[' then .error "unexpected '[' in address" else
      if behind.contains ']' then .error "unexpected ']' in address" else
      .ok (⟨host⟩, ⟨port⟩)
    else if behind.head? == some ':' then .error "too many colons in address"
    else .error "missing port in address"
  else
    let host := beforeLast ':' s
    if host.contains ':' then .error "too many colons in address" else
    if s.contains '[' then .error "unexpected '[' in address" else
    if s.contains ']' then .error "unexpected ']' in address" else
    .ok (⟨host⟩, ⟨port⟩)

/-- Function `net.JoinHostPort`. -/
def JoinHostPort (host port : String) : String :=
  if host.data.contains ':' then "[" ++ host ++ "]:" ++ port else host ++ ":" ++ port

/-! ## Target normalisation and splitting (`scanner/scanner.go`) -/

/-- Function `normalizeTarget`. -/
def normalizeTarget (t : String) : String :=
  let t := TrimSpace t
  if t == "" then "" else
  if HasPrefix t "http://" || HasPrefix t "https://" then
    match Parse t with
    | .ok u => if u.Host != "" then u.Host else t
    | .error _ => t
  else t

/-- A character of a plain host name: a letter, a digit, or one of `-._~`. -/
def isHostChar (c : Char) : Bool :=
  isLetter c || isDigit c || c == '-' || c == '.' || c == '_' || c == '~'

/-- A plain `host[:port]`: a non-empty host of host characters, alone or
followed by a colon and digits. -/
def plainHostPort (hp : String) : Bool :=
  !(hp.data.takeWhile (fun x => x != ':')).isEmpty &&
  (hp.data.takeWhile (fun x => x != ':')).all isHostChar &&
  validOptionalPort (hp.data.dropWhile (fun x => x != ':'))

/-- What follows the authority in a plain URL: nothing, or a path, a query or
a fragment, without control characters and without `%`. -/
def plainTail (rest : String) : Bool :=
  (rest.data.head? == none || rest.data.head? == some '/' || rest.data.head? == some '?' ||
    rest.data.head? == some '#') &&
  rest.data.all (fun c => c != '%' && !(c.toNat < 0x20 || c.toNat == 0x7F))

/-- Function `isHostPort`. -/
def isHostPort (s : String) : Bool :=
  if !s.data.contains ':' then false else
  match SplitHostPort s with
  | .ok _ => true
  | .error _ => false

/-- Function `splitTargets`: the loop appends each normalised non-empty target
to `withPort` or to `hostOnly`. -/
def splitTargets (targets : List String) : List String × List String :=
  targets.foldl (fun acc raw =>
    let t := normalizeTarget raw
    if t == "" then acc
    else if isHostPort t then (acc.1 ++ [t], acc.2)
    else (acc.1, acc.2 ++ [t])) ([], [])

/-! ## The stages of `scanner.Run` -/

/-- A Go error as far as `Run` looks at it: its message (`%v`) and whether
`errors.Is(err, context.Canceled)` holds. -/
structure GoErr where
  msg : String
  isCanceled : Bool
deriving DecidableEq, Repr

/-- Whether `errors.Is(err, context.Canceled)` holds for an error that may be
nil. -/
def errIsCanceled (err : Option GoErr) : Bool :=
  match err with
  | some e => e.isCanceled
  | none => false

/-- The alive map of the liveness stage: keys with their recorded value. -/
abbrev AliveMap := List (String × String)

/-- Assignment `aliveMap[key] = cand`. -/
def AliveMap.set (m : AliveMap) (key cand : String) : AliveMap :=
  (key, cand) :: m.filter (fun p => !(p.1 == key))

/-- The environment of one execution of `Run`: what each stage returns for its
input, and whether `ctx.Err() == context.Canceled` holds when `Run` evaluates
it after the stage has returned. -/
structure StageOracles where
  portScan : List String → List String × Option GoErr
  cancelledAfterPortScan : Bool
  probe : List String → AliveMap × Option GoErr
  cancelledAfterProbe : Bool
  nuclei : List String → Option GoErr
  cancelledAfterNuclei : Bool

/-- A call of a stage by `Run`, with its argument. -/
inductive StageCall where
  | portScan (hosts : List String)
  | probe (targets : List String)
  | nuclei (targets : List String)
deriving DecidableEq, Repr

/-- The loop of `Run` (lines 89 to 96) that builds `nucleiTargets`. -/
def assembleTargets (hostPortTargets : List String) (aliveMap : AliveMap) : List String :=
  hostPortTargets.foldl (fun nucleiTargets hp =>
    match aliveMap.lookup hp with
    | some urlStr => if urlStr != "" then nucleiTargets ++ [urlStr] else nucleiTargets ++ [hp]
    | none => nucleiTargets ++ [hp]) []

/-- Whether a stage that returned `err`, with the context cancelled or not, makes
`Run` return with `stopped` or `error` (lines 56 to 63 and 77 to 84). -/
def stageFailed (err : Option GoErr) (cancelled : Bool) : Bool :=
  errIsCanceled err || cancelled || err.isSome

/-- The value of `hostPortTargets` of `Run` at line 68: the targets with a port,
followed by what port discovery returned when it was called. -/
def hostPortTargets (o : StageOracles) (rawTargets : List String) : List String :=
  (splitTargets rawTargets).1 ++
    (if (splitTargets rawTargets).2.length > 0 then (o.portScan (splitTargets rawTargets).2).1
     else [])

/-- The body of `scanner.Run` between its entry and its exit (lines 47 to 116):
the stage calls made, in order, and the return point taken. -/
def pipeline (o : StageOracles) (rawTargets : List String) : List StageCall × RunPath :=
  let withPort := (splitTargets rawTargets).1
  let hostOnly := (splitTargets rawTargets).2
  let scanned : List StageCall × Except RunPath (List String) :=
    if hostOnly.length > 0 then
      if errIsCanceled (o.portScan hostOnly).2 || o.cancelledAfterPortScan then
        ([.portScan hostOnly], .error .portScanStopped)
      else
        match (o.portScan hostOnly).2 with
        | some err => ([.portScan hostOnly], .error (.portScanError err.msg))
        | none => ([.portScan hostOnly], .ok (withPort ++ (o.portScan hostOnly).1))
    else ([], .ok withPort)
  match scanned with
  | (calls, .error path) => (calls, path)
  | (calls, .ok hostPortTargets) =>
  if hostPortTargets.length == 0 then (calls, .noHostPort) else
  if errIsCanceled (o.probe hostPortTargets).2 || o.cancelledAfterProbe then
    (calls ++ [.probe hostPortTargets], .probeStopped)
  else
  match (o.probe hostPortTargets).2 with
  | some err => (calls ++ [.probe hostPortTargets], .probeError err.msg)
  | none =>
  let nucleiTargets := assembleTargets hostPortTargets (o.probe hostPortTargets).1
  if nucleiTargets.length == 0 then (calls ++ [.probe hostPortTargets], .noNucleiTargets) else
  match o.nuclei nucleiTargets with
  | some err =>
    if err.isCanceled || o.cancelledAfterNuclei then
      (calls ++ [.probe hostPortTargets, .nuclei nucleiTargets], .nucleiStopped)
    else (calls ++ [.probe hostPortTargets, .nuclei nucleiTargets], .nucleiError err.msg)
  | none => (calls ++ [.probe hostPortTargets, .nuclei nucleiTargets], .finished)

/-! ## The liveness prober (`scanner/http.go`) -/

/-- The network as the prober sees it. `isHTTPPort hostport` and
`isHTTPSPort host port` are the results of the two HEAD probes, `httpGet url`
the status code of a GET (or nothing when the request fails), and
`tcpDial hostport` whether a TCP connection is made. `cancelled` says whether
the context is done; it is taken to be the same during the whole stage. -/
structure NetOracles where
  isHTTPPort : String → Bool
  isHTTPSPort : String → String → Bool
  httpGet : String → Option Nat
  tcpDial : String → Bool
  cancelled : Bool

/-- Function `buildURLCandidates`. -/
def buildURLCandidates (o : NetOracles) (target : String) : List String :=
  let target := TrimSpace target
  if target == "" then [] else
  if HasPrefix target "http://" || HasPrefix target "https://" then [target] else
  match SplitHostPort target with
  | .error _ => ["http://" ++ target, "https://" ++ target]
  | .ok (host, port) =>
    let hp := JoinHostPort host port
    if o.isHTTPPort hp then ["http://" ++ hp]
    else if o.isHTTPSPort host port then ["https://" ++ hp]
    else [hp]

/-- The loop over the candidates in a goroutine of `HttpAliveProbe` (lines 74 to
116): the candidate recorded, if any. -/
def tryCandidates (o : NetOracles) : List String → Option String
  | [] => none
  | cand :: rest =>
    if o.cancelled then none else
    if HasPrefix cand "http://" || HasPrefix cand "https://" then
      match o.httpGet cand with
      | none => tryCandidates o rest
      | some code => if 200 ≤ code && code < 400 then some cand else tryCandidates o rest
    else if o.tcpDial cand then some cand else tryCandidates o rest

/-- The goroutine of `HttpAliveProbe` for one target: the entry it writes to the
alive map, if any. -/
def probeTarget (o : NetOracles) (target : String) : Option (String × String) :=
  if o.cancelled then none else
  let key := normalizeTarget target
  if key == "" then none else
  (tryCandidates o (buildURLCandidates o target)).map (fun cand => (key, cand))

/-- Function `HttpAliveProbe`. Each goroutine writes at most one entry; they are
run here one after the other in the order of the targets, so that of two
targets with the same key the later one wins. -/
def HttpAliveProbe (o : NetOracles) (targets : List String) : AliveMap × Option GoErr :=
  if targets.length == 0 then ([], none) else
  let aliveMap := targets.foldl (fun (m : AliveMap) raw =>
    if TrimSpace raw == "" then m else
    match probeTarget o (TrimSpace raw) with
    | some (key, cand) => m.set key cand
    | none => m) []
  if o.cancelled then (aliveMap, some ⟨"context canceled", true⟩) else (aliveMap, none)

/-- A host:port endpoint as the liveness stage receives it: free of surrounding
whitespace and of a scheme, and equal to the joined form of its host and
port. -/
def isEndpoint (t : String) : Bool :=
  TrimSpace t == t && !HasPrefix t "http://" && !HasPrefix t "https://" &&
  (match SplitHostPort t with
   | .ok (host, port) => JoinHostPort host port == t
   | .error _ => false)

/-- Whether a GET of `url` is answered with a status from 200 to 399. -/
def getAlive (o : NetOracles) (url : String) : Bool :=
  match o.httpGet url with
  | some code => 200 ≤ code && code < 400
  | none => false

/-- The classification of an endpoint `host:port` in words: over HTTP when the
plaintext HEAD probe succeeds, else over HTTPS when the TLS HEAD probe
succeeds, in both cases recorded only when the GET of the URL is alive; else
without a scheme when a TCP connection is made; else not recorded. -/
def aliveEntry (o : NetOracles) (host port : String) : Option String :=
  if o.isHTTPPort (JoinHostPort host port) then
    if getAlive o ("http://" ++ JoinHostPort host port) then
      some ("http://" ++ JoinHostPort host port) else none
  else if o.isHTTPSPort host port then
    if getAlive o ("https://" ++ JoinHostPort host port) then
      some ("https://" ++ JoinHostPort host port) else none
  else if o.tcpDial (JoinHostPort host port) then some (JoinHostPort host port)
  else none

/-! ## The result callback of the vulnerability engine (`scanner/nuclei.go`) -/

/-- An `output.ResultEvent`: the two fields the callback reads, and the
remaining fields as one value. `Response` is the byte string of the field. -/
structure ResultEvent where
  MatcherStatus : Bool
  Response : List (Fin 256)
  Rest : String
deriving DecidableEq, Repr

/-- Faults of the two pushes of the callback; both errors are dropped. -/
structure CallbackFaults where
  result : Option String := none
  log : Option String := none
deriving DecidableEq, Repr

/-- The closure `writeCallback` of `NucleiScan`, for the encoder `marshal`
(`json.Marshal`) and a possibly nil event. -/
def writeCallback (marshal : ResultEvent → Except String String) (r : Redis) (taskId : String)
    (ev : Option ResultEvent) (f : CallbackFaults) : Redis :=
  match ev with
  | none => r
  | some ev =>
    if !ev.MatcherStatus then r else
    let ev1 : ResultEvent :=
      if ev.Response.length > 10240 then { ev with Response := ev.Response.take 10240 } else ev
    match marshal ev1 with
    | .error _ => r
    | .ok jsonStr =>
      let r1 := bestEffort r (withFault f.result
        (Redis.RPush r ("task:" ++ taskId ++ ":result") [jsonStr]))
      bestEffort r1 (withFault f.log (Redis.RPush r1 ("task:" ++ taskId ++ ":log") [jsonStr]))

/-! ## Example data of the scanner -/

/-- Stage results in which port discovery finds one port of
`example.internal`, the first endpoint answers over HTTP, and every stage
returns without an error. -/
def exOracles : StageOracles where
  portScan := fun _ => (["example.internal:443"], none)
  cancelledAfterPortScan := false
  probe := fun _ => ([("10.0.0.1:8080", "http://10.0.0.1:8080")], none)
  cancelledAfterProbe := false
  nuclei := fun _ => none
  cancelledAfterNuclei := false

/-- The stage results of `exOracles`, with the context cancelled while the
vulnerability engine runs and the engine returning no error. -/
def exCancelledLate : StageOracles := { exOracles with cancelledAfterNuclei := true }

/-- A network in which every endpoint answers the plaintext HEAD probe and
accepts TCP connections, and every GET is answered with 404. -/
def exNotFound : NetOracles :=
  ⟨fun _ => true, fun _ _ => false, fun _ => some 404, fun _ => true, false⟩

/-- A network in which every endpoint answers the plaintext HEAD probe and
every GET is answered with 200. -/
def exHttp : NetOracles :=
  ⟨fun _ => true, fun _ _ => false, fun _ => some 200, fun _ => true, false⟩

/-- A confirmed match. -/
def exEvent : ResultEvent := ⟨true, [0x48, 0x54, 0x54, 0x50], "finding-1"⟩

/-- An encoder that renders an event by its remaining fields. -/
def exMarshal (ev : ResultEvent) : Except String String := .ok ev.Rest

/-! ## The reconciliation workers (`task/worker.go`, `target/worker.go`)

One round of the loop of each worker is a function on the system state. The
sleeps between rounds are left out. -/

/-- Statement `DELETE FROM targets WHERE task_id = ?`. -/
def DB.deleteTargets (db : DB) (taskId : String) : DB :=
  { db with targets := db.targets.filter (fun t => !(t.TaskID == taskId)) }

/-- Statement `DELETE FROM targets WHERE task_id = ? AND target IN ?`. -/
def DB.deleteTargetsIn (db : DB) (taskId : String) (targets : List String) : DB :=
  { db with
    targets := db.targets.filter (fun t => !(t.TaskID == taskId && targets.contains t.Target)) }

/-- Statement `DELETE FROM tasks WHERE id = ?`. -/
def DB.deleteTask (db : DB) (taskId : String) : DB :=
  { db with tasks := db.tasks.filter (fun t => !(t.ID == taskId)) }

/-- Faults of the store calls of one round of the task delete worker, in
program order. The results of `begin` and `commit` are not looked at by the
worker: a failed `begin` makes the first statement of the transaction fail, a
failed `commit` leaves the durable store as it was. `failedPush` is the push to
the dead-letter list, whose error is dropped. -/
structure TaskDeleteFaults where
  blpop : Option String := none
  first : Option String := none
  begin : Option String := none
  deleteTargets : Option String := none
  deleteTask : Option String := none
  commit : Option String := none
  del : Option String := none
  lrem : Option String := none
  failedPush : Option String := none
deriving DecidableEq, Repr

/-- One round of the loop of `task.deleteWorker`: pop a task identifier from
`task:delete:queue`, delete its rows in a transaction, then its fast-store keys
and its entry of `tasks:list`. -/
def taskDeleteStep (s : Sys) (f : TaskDeleteFaults) : Sys :=
  match withFault f.blpop (Redis.BLPop s.redis "task:delete:queue") with
  | .error _ => s
  | .ok (_, none) => s
  | .ok (r0, some taskId) =>
  match withFault f.first (DB.First s.db taskId) with
  | .error _ => { s with redis := r0 }
  | .ok _ =>
  match withFault f.begin (withFault f.deleteTargets (.ok (DB.deleteTargets s.db taskId))) with
  | .error _ =>
    { s with redis := bestEffort r0 (withFault f.failedPush
        (Redis.RPush r0 "task:delete:failed" [taskId])) }
  | .ok tx1 =>
  match withFault f.deleteTask (.ok (DB.deleteTask tx1 taskId)) with
  | .error _ =>
    { s with redis := bestEffort r0 (withFault f.failedPush
        (Redis.RPush r0 "task:delete:failed" [taskId])) }
  | .ok tx2 =>
  let db1 : DB :=
    match f.commit with
    | none => tx2
    | some _ => s.db
  match withFault f.del (Redis.Del r0 (taskKeys taskId)) with
  | .error _ =>
    { s with db := db1,
             redis := bestEffort r0 (withFault f.failedPush
               (Redis.RPush r0 "task:delete:failed" [taskId])) }
  | .ok r1 =>
  match withFault f.lrem (Redis.LRem r1 "tasks:list" taskId) with
  | .error _ =>
    { s with db := db1,
             redis := bestEffort r1 (withFault f.failedPush
               (Redis.RPush r1 "task:delete:failed" [taskId])) }
  | .ok (r2, _) => { s with db := db1, redis := r2 }

/-- The payload of the target delete worker. -/
structure Payload where
  TaskId : String
  Targets : List String
deriving DecidableEq, Repr

/-- Faults of the store calls of one round of the target delete worker, in
program order. `lrem` holds the faults of the `LREM` calls of the loop over the
named targets, by position; `push` is the one push back to the queue or to the
dead-letter list, whose error is dropped; the error of `listRem` is dropped
too. -/
structure TargetDeleteFaults where
  blpop : Option String := none
  begin : Option String := none
  delete : Option String := none
  commit : Option String := none
  lrem : List (Option String) := []
  del : Option String := none
  listRem : Option String := none
  push : Option String := none
deriving DecidableEq, Repr

/-- The loop of `LREM key 0 t` over the named targets (lines 92 to 96): the
store afterwards and the errors collected. -/
def lremAll (r : Redis) (key : String) : List String → List (Option String) → Redis × List String
  | [], _ => (r, [])
  | t :: ts, fs =>
    match withFault fs.head?.join (Redis.LRem r key t) with
    | .error e => ((lremAll r key ts fs.tail).1, e :: (lremAll r key ts fs.tail).2)
    | .ok (r1, _) => lremAll r1 key ts fs.tail

/-- The payload that the target delete worker reads from a queue entry (lines
49 to 54), for the decoder `decode` (`json.Unmarshal` into the payload
structure, nothing when it fails): the decoded payload when it names a task,
else the entry itself as the task identifier. -/
def payloadOf (decode : String → Option Payload) (raw : String) : Payload :=
  match decode raw with
  | some p => if p.TaskId != "" then p else ⟨raw, []⟩
  | none => ⟨raw, []⟩

/-- One round of the loop of `target.deleteWorker`, for the decoder `decode`. -/
def targetDeleteStep (decode : String → Option Payload) (s : Sys) (f : TargetDeleteFaults) : Sys :=
  match withFault f.blpop (Redis.BLPop s.redis "target:delete:queue") with
  | .error _ => s
  | .ok (_, none) => s
  | .ok (r0, some raw) =>
  let p : Payload := payloadOf decode raw
  if p.TaskId == "" then
    { s with redis := bestEffort r0 (withFault f.push
        (Redis.RPush r0 "target:delete:failed" [raw])) } else
  if p.Targets.length > 0 then
    match withFault f.begin (.ok ()) with
    | .error _ =>
      { s with redis := bestEffort r0 (withFault f.push
          (Redis.RPush r0 "target:delete:queue" [raw])) }
    | .ok _ =>
    match withFault f.delete (.ok (DB.deleteTargetsIn s.db p.TaskId p.Targets)) with
    | .error _ =>
      { s with redis := bestEffort r0 (withFault f.push
          (Redis.RPush r0 "target:delete:failed" [raw])) }
    | .ok tx1 =>
    match withFault f.commit (.ok ()) with
    | .error _ =>
      { s with redis := bestEffort r0 (withFault f.push
          (Redis.RPush r0 "target:delete:queue" [raw])) }
    | .ok _ =>
    let res := lremAll r0 (GetTaskTargetsKey p.TaskId) p.Targets f.lrem
    if res.2.length > 0 then
      { s with db := tx1,
               redis := bestEffort res.1 (withFault f.push
                 (Redis.RPush res.1 "target:delete:failed" [raw])) }
    else { s with db := tx1, redis := res.1 }
  else
    match withFault f.begin (.ok ()) with
    | .error _ =>
      { s with redis := bestEffort r0 (withFault f.push
          (Redis.RPush r0 "target:delete:queue" [raw])) }
    | .ok _ =>
    match withFault f.delete (.ok (DB.deleteTargets s.db p.TaskId)) with
    | .error _ =>
      { s with redis := bestEffort r0 (withFault f.push
          (Redis.RPush r0 "target:delete:failed" [raw])) }
    | .ok tx1 =>
    match withFault f.commit (.ok ()) with
    | .error _ =>
      { s with redis := bestEffort r0 (withFault f.push
          (Redis.RPush r0 "target:delete:queue" [raw])) }
    | .ok _ =>
    match withFault f.del (Redis.Del r0 [GetTaskTargetsKey p.TaskId]) with
    | .error _ =>
      { s with db := tx1,
               redis := bestEffort r0 (withFault f.push
                 (Redis.RPush r0 "target:delete:failed" [raw])) }
    | .ok r1 =>
      { s with db := tx1,
               redis := bestEffort r1
                 ((withFault f.listRem (Redis.LRem r1 "tasks:list" p.TaskId)).map Prod.fst) }

/-- Command `EXISTS key`: the number of keys that exist. -/
def Redis.Exists (r : Redis) (k : String) : Except String Nat :=
  .ok (if (r.lookup k).isSome then 1 else 0)

/-- Faults of the store calls that the task compensator makes for one row, in
program order. -/
structure RowFaults where
  existsCheck : Option String := none
  hset : Option String := none
  lrange : Option String := none
  rpush : Option String := none
deriving DecidableEq, Repr

/-- Faults of one pass of the task compensator: of the query, and of the calls
made for the row of each task identifier. -/
structure TaskCompFaults where
  find : Option String := none
  row : String → RowFaults := fun _ => {}

/-- The info hash that the task compensator writes for a row. -/
def infoOfTask (t : Task) : List (String × String) :=
  [("taskId", t.ID), ("taskName", t.Name), ("status", t.Status),
   ("created_at", t.CreatedAt.text), ("updated_at", t.UpdatedAt.text)]

/-- The body of the loop of `taskCompensatorWorker` over the rows (lines 32 to
77), for one row. -/
def taskCompensatorRow (r : Redis) (t : Task) (f : RowFaults) : Redis :=
  match withFault f.existsCheck (Redis.Exists r ("task:" ++ t.ID ++ ":info")) with
  | .error _ => r
  | .ok n =>
  let restored : Except String Redis :=
    if n == 0 then withFault f.hset (Redis.HSet r ("task:" ++ t.ID ++ ":info") (infoOfTask t))
    else .ok r
  match restored with
  | .error _ => r
  | .ok r1 =>
  match withFault f.lrange (Redis.LRange r1 "tasks:list") with
  | .error _ => r1
  | .ok taskList =>
    if taskList.contains t.ID then r1
    else bestEffort r1 (withFault f.rpush (Redis.RPush r1 "tasks:list" [t.ID]))

/-- One pass of `taskCompensatorWorker`: the rows with a status other than
`deleted` are read and handled one after the other. -/
def taskCompensatorPass (s : Sys) (f : TaskCompFaults) : Sys :=
  match withFault f.find (.ok (s.db.tasks.filter (fun t => t.Status != "deleted"))) with
  | .error _ => s
  | .ok dbTasks =>
    { s with redis := dbTasks.foldl (fun r t => taskCompensatorRow r t (f.row t.ID)) s.redis }

/-! ## Handler `target.Result` -/

/-- Command `LLEN key`. -/
def Redis.LLen (r : Redis) (k : String) : Except String Nat :=
  match r.lookup k with
  | none => .ok 0
  | some (.list xs) => .ok xs.length
  | some _ => .error wrongType

/-- Command `LRANGE key start stop` for signed indices: a negative index counts
from the end of the list, a start before the list is the start of the list,
and a stop behind the list is its end. -/
def Redis.LRangeIdx (r : Redis) (k : String) (start stop : Int) : Except String (List String) :=
  match r.lookup k with
  | none => .ok []
  | some (.list xs) =>
    let llen : Int := xs.length
    let start1 := if start < 0 then llen + start else start
    let stop1 := if stop < 0 then llen + stop else stop
    let start2 := if start1 < 0 then 0 else start1
    if start2 > stop1 || start2 ≥ llen then .ok []
    else
      let stop2 := if stop1 ≥ llen then llen - 1 else stop1
      .ok ((xs.drop start2.toNat).take (stop2 - start2 + 1).toNat)
  | some _ => .error wrongType

/-- The value of a Go `int` or `int64` expression whose exact value is `x`, on
a platform where `int` has 64 bits: arithmetic wraps around. -/
def wrapInt64 (x : Int) : Int := (x + 2 ^ 63) % 2 ^ 64 - 2 ^ 63

/-- Function `strconv.Atoi`: an optional sign followed by decimal digits, within
the range of a 64-bit `int`. -/
def Atoi (s : String) : Except String Int :=
  let ds := if s.data.head? == some '-' || s.data.head? == some '+' then s.data.drop 1 else s.data
  if ds.isEmpty || !ds.all isDigit then .error "invalid syntax" else
  let n : Nat := ds.foldl (fun acc c => acc * 10 + (c.toNat - 0x30)) 0
  let v : Int := if s.data.head? == some '-' then -(n : Int) else (n : Int)
  if v < -(2 ^ 63) || v > 2 ^ 63 - 1 then .error "value out of range" else .ok v

/-- The query parameters of a `Result` request; `none` is a missing
parameter. -/
structure ResultReq where
  taskId : String
  page : Option String
  pageSize : Option String
deriving DecidableEq, Repr

/-- The response of `Result`: the status code and, for an error, its message,
else the fields `total`, `page`, `pageSize` and `results` (`count` is the
length of `results`). -/
structure ResultResp where
  code : Nat
  error : String
  total : Int
  page : Int
  pageSize : Int
  results : List ResultEvent
deriving DecidableEq, Repr

/-- Faults of the two store calls of `Result`. -/
structure ResultFaults where
  llen : Option String := none
  lrange : Option String := none
deriving DecidableEq, Repr

/-- Handler `target.Result`, for the decoder `unmarshal` (`json.Unmarshal` into
a result event, nothing when it fails). -/
def Result (unmarshal : String → Option ResultEvent) (s : Sys) (req : ResultReq)
    (f : ResultFaults) : ResultResp :=
  if req.taskId == "" then ⟨400, "missing taskId", 0, 0, 0, []⟩ else
  let page : Int :=
    match Atoi (req.page.getD "1") with
    | .ok p => if p ≤ 0 then 1 else p
    | .error _ => 1
  let pageSize : Int :=
    match Atoi (req.pageSize.getD "20") with
    | .ok p => if p ≤ 0 then 20 else p
    | .error _ => 20
  match withFault f.llen (Redis.LLen s.redis ("task:" ++ req.taskId ++ ":result")) with
  | .error e => ⟨500, e, 0, 0, 0, []⟩
  | .ok total =>
  if total == 0 then ⟨200, "", 0, page, pageSize, []⟩ else
  let start := wrapInt64 ((page - 1) * pageSize)
  let stop := wrapInt64 (start + pageSize - 1)
  if start ≥ (total : Int) then ⟨200, "", total, page, pageSize, []⟩ else
  match withFault f.lrange
      (Redis.LRangeIdx s.redis ("task:" ++ req.taskId ++ ":result") start stop) with
  | .error e => ⟨500, e, 0, 0, 0, []⟩
  | .ok rawResults => ⟨200, "", total, page, pageSize, rawResults.filterMap unmarshal⟩

/-! ## Example data of the workers -/

/-- The example task after an `Add` whose enqueue failed: its durable status is
`pending_sync` and its identifier is in the compensation queue. -/
def exPendingSync : Sys :=
  reach exCreated [.add ⟨["c.example"], exId⟩ exTime { rpush := some "i/o timeout" }]

/-- The example task after a `Delete` whose key deletion and list removal
failed: the row is marked `deleted`, the identifier is in the delete queue, and
the fast-store keys of the task are still there. -/
def exDeleteQueued : Sys :=
  reach exCreated [.delete exId exTime { del := some "i/o timeout", lrem := some "i/o timeout" }]

/-- A decoder that knows one structured payload. -/
def exDecode (raw : String) : Option Payload :=
  if raw == "payload-1" then some ⟨exId, ["example.internal"]⟩ else none

/-- The example task with a structured delete payload in the queue of the
target delete worker. -/
def exTargetQueued : Sys :=
  { exCreated with redis := Redis.put exCreated.redis "target:delete:queue" (.list ["payload-1"]) }

/-- A decoder of result entries that knows the entries `a` to `e`. -/
def exUnmarshal (item : String) : Option ResultEvent :=
  if item.length == 1 then some ⟨true, [], item⟩ else none

/-- A system whose example task has five stored results. -/
def exResults : Sys :=
  { Sys.empty with redis := [("task:t1:result", .list ["a", "b", "c", "d", "e"])] }

/-! ## `Delete` and a concurrent request

`task.Delete` reads the row, tests its status, and then issues its `UPDATE` as
a second statement, outside of a transaction. The handler is cut between the
two, so that a step of another request can be placed there. -/

/-- Where a `Delete` call stands: before the read of the row, between the
status test and the `UPDATE`, or returned. -/
inductive DeletePC where
  | entry
  | checked
  | done (resp : Resp)
deriving DecidableEq, Repr

/-- One step of a `Delete` call: `entry` runs the handler up to and including
the test of the status of the row read (lines 329 to 347); `checked` runs the
rest of the handler, from the `UPDATE` to the response (lines 349 to 381). -/
def deleteStep (s : Sys) (taskId : String) (now : Time) (f : DeleteFaults) :
    DeletePC → Sys × DeletePC
  | .entry =>
    if taskId == "" then (s, .done (errResp 400 "缺少 taskId")) else
    match withFault f.first (DB.First s.db taskId) with
    | .error _ => (s, .done (errResp 404 "任务不存在"))
    | .ok t =>
      if t.Status == "running" then (s, .done (errResp 400 "任务正在运行中，无法删除"))
      else (s, .checked)
  | .checked =>
    match withFault f.update
        (.ok (DB.UpdateStatus s.db (fun t => t.ID == taskId) "deleted" now)) with
    | .error e => (s, .done (errResp 500 e))
    | .ok (db1, _) =>
    let s1 := Cancel { s with db := db1 } taskId
    let r1 := bestEffort s1.redis (withFault f.del (Redis.Del s1.redis (taskKeys taskId)))
    let r2 := bestEffort r1 ((withFault f.lrem (Redis.LRem r1 "tasks:list" taskId)).map Prod.fst)
    match withFault f.rpush (Redis.RPush r2 "task:delete:queue" [taskId]) with
    | .error e => ({ s1 with redis := r2 }, .done (errResp 500 ("加入删除队列失败: " ++ e)))
    | .ok r3 =>
      ({ s1 with redis := r3 },
        .done ⟨200, [("message", .str "任务已标记删除（后台正在清理）"), ("taskId", .str taskId)]⟩)
  | .done resp => (s, .done resp)

/-! ## `encoding/json` on a string that is not valid UTF-8

`json.Marshal` writes a Go string through the encoder's `appendString`, which
walks the string with `utf8.DecodeRuneInString` and writes the replacement
character U+FFFD for every byte at which no valid character begins. The JSON
escapes that it writes besides denote the characters themselves, so the text
that the stored entry denotes is the string with these bytes replaced. -/

theorem withFault_none {α : Type} (c : Except String α) : withFault none c = c := rfl

theorem UpdateStatus_of_no_match (db : DB) (cond : Task → Bool) (st : String) (now : Time)
    (h : ∀ x ∈ db.tasks, cond x = false) : DB.UpdateStatus db cond st now = (db, 0) := by
  unfold DB.UpdateStatus
  have h1 : db.tasks.map (fun t => if cond t then { t with Status := st, UpdatedAt := now } else t)
      = db.tasks := by
    conv => rhs; rw [← List.map_id db.tasks]
    apply List.map_congr_left
    intro x hx
    simp [h x hx]
  have h2 : db.tasks.countP cond = 0 := by
    rw [List.countP_eq_zero]
    intro x hx
    simp [h x hx]
  rw [h1, h2]

theorem First_eq_ok {db : DB} {taskId : String} {t : Task} (h : DB.First db taskId = .ok t) :
    db.tasks.find? (fun x => x.ID == taskId) = some t := by
  unfold DB.First at h
  split at h
  · injection h with h; subst h; assumption
  · cases h

theorem First_ok_of_find {db : DB} {taskId : String} {t : Task}
    (h : db.tasks.find? (fun x => x.ID == taskId) = some t) : DB.First db taskId = .ok t := by
  unfold DB.First; rw [h]

theorem First_ID {db : DB} {taskId : String} {t : Task} (h : DB.First db taskId = .ok t) :
    t.ID = taskId := by
  have := List.find?_some (First_eq_ok h)
  simpa using this

theorem First_mem {db : DB} {taskId : String} {t : Task} (h : DB.First db taskId = .ok t) :
    t ∈ db.tasks := List.mem_of_find?_eq_some (First_eq_ok h)

theorem First_error_iff {db : DB} {taskId : String} :
    (∃ e, DB.First db taskId = .error e) ↔ ∀ x ∈ db.tasks, x.ID ≠ taskId := by
  unfold DB.First
  constructor
  · rintro ⟨e, h⟩
    split at h
    · cases h
    · rename_i hn
      rw [List.find?_eq_none] at hn
      intro x hx
      simpa using hn x hx
  · intro h
    have : db.tasks.find? (fun x => x.ID == taskId) = none := by
      rw [List.find?_eq_none]
      intro x hx
      simpa using h x hx
    rw [this]
    exact ⟨_, rfl⟩

/-- The row found after an update is the old row, updated when it met the
condition. -/
theorem find_UpdateStatus (tasks : List Task) (taskId : String) (cond : Task → Bool) (st : String)
    (now : Time) :
    (tasks.map (fun t => if cond t then { t with Status := st, UpdatedAt := now } else t)).find?
        (fun x => x.ID == taskId)
      = (tasks.find? (fun x => x.ID == taskId)).map
          (fun t => if cond t then { t with Status := st, UpdatedAt := now } else t) := by
  induction tasks with
  | nil => rfl
  | cons a l ih =>
    simp only [List.map_cons, List.find?_cons]
    by_cases hc : cond a <;> by_cases ha : a.ID == taskId <;> simp [hc, ha, ih]

theorem pairwise_ID_unique : ∀ (l : List Task), l.Pairwise (fun a b => a.ID ≠ b.ID) →
    ∀ {a b : Task}, a ∈ l → b ∈ l → a.ID = b.ID → a = b
  | [], _, _, _, ha, _, _ => by cases ha
  | x :: l, hk, a, b, ha, hb, h => by
    rw [List.pairwise_cons] at hk
    rcases List.mem_cons.1 ha with rfl | ha' <;> rcases List.mem_cons.1 hb with rfl | hb'
    · rfl
    · exact absurd h (hk.1 b hb')
    · exact absurd h.symm (hk.1 a ha')
    · exact pairwise_ID_unique l hk.2 ha' hb' h

theorem keyed_unique {db : DB} (hk : DB.keyed db) {a b : Task} (ha : a ∈ db.tasks)
    (hb : b ∈ db.tasks) (h : a.ID = b.ID) : a = b :=
  pairwise_ID_unique db.tasks hk ha hb h

theorem First_UpdateStatus_self {db : DB} {taskId : String} {t : Task} (cond : Task → Bool)
    (st : String) (now : Time) (h : DB.First db taskId = .ok t) (hc : cond t = true) :
    DB.First (DB.UpdateStatus db cond st now).1 taskId
      = .ok { t with Status := st, UpdatedAt := now } := by
  apply First_ok_of_find
  unfold DB.UpdateStatus
  simp only
  rw [find_UpdateStatus, First_eq_ok h]
  simp [hc]

theorem First_UpdateStatus_ne (db : DB) {taskId id' : String} (cond : Task → Bool)
    (st : String) (now : Time) (hc : ∀ x, cond x = true → x.ID = taskId) (hne : id' ≠ taskId) :
    DB.First (DB.UpdateStatus db cond st now).1 id' = DB.First db id' := by
  unfold DB.First DB.UpdateStatus
  simp only
  rw [find_UpdateStatus]
  cases hf : db.tasks.find? (fun x => x.ID == id') with
  | none => rfl
  | some x =>
    have hx : x.ID = id' := by simpa using List.find?_some hf
    have : cond x = false := by
      cases hcx : cond x with
      | false => rfl
      | true => exact absurd ((hc x hcx).symm.trans hx).symm hne
    simp [this]

theorem UpdateStatus_rows_pos {db : DB} {taskId : String} {t : Task} (cond : Task → Bool)
    (st : String) (now : Time) (h : DB.First db taskId = .ok t) (hc : cond t = true) :
    (DB.UpdateStatus db cond st now).2 ≠ 0 := by
  unfold DB.UpdateStatus
  simp only [ne_eq, List.countP_eq_zero, not_forall]
  exact ⟨t, First_mem h, by simp [hc]⟩

theorem startUpdate_rows_pos {db : DB} {taskId : String} {t : Task} (now : Time)
    (h : DB.First db taskId = .ok t) (hst : t.Status ≠ "running") :
    (startUpdate db taskId now).2 ≠ 0 := by
  unfold startUpdate DB.UpdateStatus
  simp only [ne_eq, List.countP_eq_zero, not_forall]
  exact ⟨t, First_mem h, by simp [First_ID h, hst]⟩

theorem startUpdate_First {db : DB} {taskId : String} {t : Task} (now : Time)
    (h : DB.First db taskId = .ok t) (hst : t.Status ≠ "running") :
    DB.First (startUpdate db taskId now).1 taskId
      = .ok { t with Status := "running", UpdatedAt := now } := by
  apply First_ok_of_find
  unfold startUpdate DB.UpdateStatus
  simp only
  rw [find_UpdateStatus, First_eq_ok h]
  simp [First_ID h, hst]

theorem startUpdate_of_running {db : DB} {taskId : String} {t : Task} (now : Time)
    (hk : DB.keyed db) (h : DB.First db taskId = .ok t) (hst : t.Status = "running") :
    startUpdate db taskId now = (db, 0) := by
  apply UpdateStatus_of_no_match
  intro x hx
  by_cases hid : x.ID = taskId
  · have : x = t := keyed_unique hk hx (First_mem h) (hid.trans (First_ID h).symm)
    subst this
    simp [hst]
  · simp [hid]

theorem startUpdate_of_absent {db : DB} {taskId : String} (now : Time)
    (h : ∀ x ∈ db.tasks, x.ID ≠ taskId) : startUpdate db taskId now = (db, 0) := by
  apply UpdateStatus_of_no_match
  intro x hx
  simp [h x hx]

theorem startUpdate_rows_zero_iff (db : DB) (taskId : String) (now : Time) :
    (startUpdate db taskId now).2 = 0 ↔ ¬ startable db taskId := by
  unfold startUpdate DB.UpdateStatus startable
  simp only [List.countP_eq_zero]
  constructor
  · rintro h ⟨x, hx, hid, hst⟩
    exact h x hx (by simp [hid, hst])
  · intro h x hx hc
    simp only [Bool.and_eq_true, beq_iff_eq, bne_iff_ne, ne_eq] at hc
    exact h ⟨x, hx, hc.1, hc.2⟩

theorem startUpdate_not_startable (db : DB) (taskId : String) (now : Time) :
    ¬ startable (startUpdate db taskId now).1 taskId := by
  unfold startUpdate DB.UpdateStatus startable
  rintro ⟨x, hx, hid, hst⟩
  simp only [List.mem_map] at hx
  obtain ⟨y, hy, rfl⟩ := hx
  by_cases hc : (y.ID == taskId && y.Status != "running") = true
  · simp [hc] at hst
  · simp only [hc, Bool.false_eq_true, if_false] at hid hst
    apply hc
    simp [hid, hst]

theorem startUpdate_row {db : DB} {taskId : String} (now : Time)
    (h : ∃ t, DB.First db taskId = .ok t) : ∃ t, DB.First (startUpdate db taskId now).1 taskId = .ok t := by
  obtain ⟨t, ht⟩ := h
  refine ⟨if (t.ID == taskId && t.Status != "running") = true
    then { t with Status := "running", UpdatedAt := now } else t, First_ok_of_find ?_⟩
  unfold startUpdate DB.UpdateStatus
  simp only
  rw [find_UpdateStatus, First_eq_ok ht]
  rfl

theorem mkTargets_TaskID (n : Nat) (id : String) (ts : List String) :
    ∀ x ∈ mkTargets n id ts, x.TaskID = id := by
  induction ts generalizing n with
  | nil => intro x hx; cases hx
  | cons a l ih =>
    intro x hx
    rcases List.mem_cons.1 hx with rfl | hx'
    · rfl
    · exact ih _ x hx'

theorem mkTargets_map (n : Nat) (id : String) (ts : List String) :
    (mkTargets n id ts).map (fun x => x.Target) = ts := by
  induction ts generalizing n with
  | nil => rfl
  | cons a l ih => simp [mkTargets, ih]

theorem insertTask_fresh {db : DB} {t : Task} (h : ∀ x ∈ db.tasks, x.ID ≠ t.ID) :
    DB.insertTask db t = .ok { db with tasks := db.tasks ++ [t] } := by
  unfold DB.insertTask
  have : db.tasks.any (fun x => x.ID == t.ID) = false := by
    rw [List.any_eq_false]
    intro x hx
    simpa using h x hx
  simp [this]

theorem First_append_fresh {db : DB} {t : Task} (h : ∀ x ∈ db.tasks, x.ID ≠ t.ID)
    (targets : List Target) (n : Nat) :
    DB.First ⟨db.tasks ++ [t], targets, n⟩ t.ID = .ok t := by
  apply First_ok_of_find
  simp only [List.find?_append]
  have : db.tasks.find? (fun x => x.ID == t.ID) = none := by
    rw [List.find?_eq_none]
    intro x hx
    simpa using h x hx
  simp [this]

theorem filter_targets_fresh {targets : List Target} {id : String}
    (h : ∀ x ∈ targets, x.TaskID ≠ id) (n : Nat) (ts : List String) :
    (targets ++ mkTargets n id ts).filter (fun x => x.TaskID == id) = mkTargets n id ts := by
  rw [List.filter_append]
  have h1 : targets.filter (fun x => x.TaskID == id) = [] := by
    rw [List.filter_eq_nil_iff]
    intro x hx
    simpa using h x hx
  have h2 : (mkTargets n id ts).filter (fun x => x.TaskID == id) = mkTargets n id ts := by
    rw [List.filter_eq_self]
    intro x hx
    simpa using mkTargets_TaskID n id ts x hx
  rw [h1, h2, List.nil_append]

/-! ## Lemmas on the fast store -/

theorem lookup_erase_self (r : Redis) (k : String) : (Redis.erase r k).lookup k = none := by
  unfold Redis.erase
  induction r with
  | nil => rfl
  | cons p l ih =>
    obtain ⟨a, v⟩ := p
    by_cases h : a = k
    · subst h; simpa [List.filter_cons] using ih
    · have h' : (k == a) = false := by simpa using fun e : k = a => h e.symm
      simp [List.filter_cons, h, List.lookup_cons, h', ih]

theorem lookup_erase_ne (r : Redis) {k k' : String} (h : k' ≠ k) :
    (Redis.erase r k).lookup k' = r.lookup k' := by
  unfold Redis.erase
  induction r with
  | nil => rfl
  | cons p l ih =>
    obtain ⟨a, v⟩ := p
    by_cases ha : a = k
    · subst ha
      have h' : (k' == a) = false := by simpa using h
      simp [List.filter_cons, List.lookup_cons, h', ih]
    · by_cases hb : k' = a
      · subst hb; simp [List.filter_cons, ha, List.lookup_cons]
      · have h' : (k' == a) = false := by simpa using hb
        simp [List.filter_cons, ha, List.lookup_cons, h', ih]

theorem lookup_put_self (r : Redis) (k : String) (v : RVal) : (Redis.put r k v).lookup k = some v := by
  simp [Redis.put, List.lookup_cons]

theorem lookup_put_ne (r : Redis) {k k' : String} (v : RVal) (h : k' ≠ k) :
    (Redis.put r k v).lookup k' = r.lookup k' := by
  have h' : (k' == k) = false := by simpa using h
  simp [Redis.put, List.lookup_cons, h', lookup_erase_ne r h]

theorem lookup_hashSet_self (h : List (String × String)) (k v : String) :
    (hashSet h (k, v)).lookup k = some v := by
  induction h with
  | nil => simp [hashSet, List.lookup]
  | cons p l ih =>
    obtain ⟨a, w⟩ := p
    by_cases ha : a = k
    · subst ha; simp [hashSet, List.lookup_cons]
    · have h' : (k == a) = false := by simpa using fun e : k = a => ha e.symm
      simp [hashSet, ha, List.lookup_cons, h', ih]

theorem lookup_hashSet_ne (h : List (String × String)) {k k' : String} (v : String) (hne : k' ≠ k) :
    (hashSet h (k, v)).lookup k' = h.lookup k' := by
  have h' : (k' == k) = false := by simpa using hne
  induction h with
  | nil => simp [hashSet, List.lookup, h']
  | cons p l ih =>
    obtain ⟨a, w⟩ := p
    by_cases ha : a = k
    · subst ha; simp [hashSet, List.lookup_cons, h']
    · by_cases hb : k' = a
      · subst hb; simp [hashSet, ha, List.lookup_cons]
      · have h'' : (k' == a) = false := by simpa using hb
        simp [hashSet, ha, List.lookup_cons, h'', ih]

/-- A successful status write shows in the mirror. -/
theorem mirrorStatus_HSet {r r' : Redis} {k st u : String}
    (h : Redis.HSet r k [("status", st), ("updated_at", u)] = .ok r') :
    mirrorStatus r' k = some st := by
  unfold Redis.HSet at h
  split at h
  · injection h with h; subst h
    simp only [mirrorStatus, lookup_put_self, List.foldl]
    rw [lookup_hashSet_ne _ _ (by decide), lookup_hashSet_self]
  · injection h with h; subst h
    simp only [mirrorStatus, lookup_put_self, List.foldl]
    rw [lookup_hashSet_ne _ _ (by decide), lookup_hashSet_self]
  · cases h

/-- A status write touches no other key. -/
theorem lookup_HSet_ne {r r' : Redis} {k k' : String} {fvs : List (String × String)}
    (h : Redis.HSet r k fvs = .ok r') (hne : k' ≠ k) : r'.lookup k' = r.lookup k' := by
  unfold Redis.HSet at h
  split at h
  · injection h with h; subst h; exact lookup_put_ne _ _ hne
  · injection h with h; subst h; exact lookup_put_ne _ _ hne
  · cases h

theorem lookup_bestEffort_HSet_ne (r : Redis) (flt : Option String) {k k' : String}
    (fvs : List (String × String)) (hne : k' ≠ k) :
    (bestEffort r (withFault flt (Redis.HSet r k fvs))).lookup k' = r.lookup k' := by
  cases flt with
  | some e => rfl
  | none =>
    simp only [withFault]
    cases h : Redis.HSet r k fvs with
    | error e => rfl
    | ok r' => exact lookup_HSet_ne h hne

/-- The keys after a `DEL`. -/
theorem lookup_foldl_erase (ks : List String) (r : Redis) (k : String) :
    (ks.foldl Redis.erase r).lookup k = if k ∈ ks then none else r.lookup k := by
  induction ks generalizing r with
  | nil => simp
  | cons a l ih =>
    simp only [List.foldl_cons, ih, List.mem_cons]
    by_cases hl : k ∈ l
    · simp [hl]
    · by_cases ha : k = a
      · subst ha; simp [hl, lookup_erase_self]
      · simp [hl, ha, lookup_erase_ne r ha]

theorem LRange_congr {r r' : Redis} {k : String} (h : r'.lookup k = r.lookup k) :
    Redis.LRange r' k = Redis.LRange r k := by
  unfold Redis.LRange; rw [h]

theorem LRange_erase_ne (r : Redis) {k k' : String} (h : k' ≠ k) :
    Redis.LRange (Redis.erase r k) k' = Redis.LRange r k' :=
  LRange_congr (lookup_erase_ne r h)

theorem LRange_put_ne (r : Redis) {k k' : String} (v : RVal) (h : k' ≠ k) :
    Redis.LRange (Redis.put r k v) k' = Redis.LRange r k' :=
  LRange_congr (lookup_put_ne r v h)

theorem LRange_bestEffort_HSet_ne (r : Redis) (flt : Option String) {k k' : String}
    (fvs : List (String × String)) (h : k' ≠ k) :
    Redis.LRange (bestEffort r (withFault flt (Redis.HSet r k fvs))) k' = Redis.LRange r k' :=
  LRange_congr (lookup_bestEffort_HSet_ne r flt fvs h)

/-- The best-effort `LREM key 0 v`: no other key changes, and `v` does not
occur in the list afterwards. -/
theorem bestEffort_LRem (r : Redis) (flt : Option String) (k v : String) :
    (∀ k', k' ≠ k →
      (bestEffort r ((withFault flt (Redis.LRem r k v)).map Prod.fst)).lookup k' = r.lookup k') ∧
    (flt = none → ∀ xs,
      Redis.LRange (bestEffort r ((withFault flt (Redis.LRem r k v)).map Prod.fst)) k = .ok xs →
      v ∉ xs) := by
  cases flt with
  | some e => exact ⟨fun _ _ => rfl, fun h => by cases h⟩
  | none =>
    simp only [withFault]
    unfold Redis.LRem
    cases hl : r.lookup k with
    | none =>
      refine ⟨fun _ _ => rfl, fun _ xs hxs => ?_⟩
      simp only [Except.map, bestEffort, Redis.LRange, hl] at hxs
      injection hxs with hxs
      subst hxs
      simp
    | some val =>
      cases val with
      | str x =>
        refine ⟨fun _ _ => rfl, fun _ xs hxs => ?_⟩
        simp [Except.map, bestEffort, Redis.LRange, hl] at hxs
      | hash x =>
        refine ⟨fun _ _ => rfl, fun _ xs hxs => ?_⟩
        simp [Except.map, bestEffort, Redis.LRange, hl] at hxs
      | list ys =>
        simp only [Except.map, bestEffort]
        by_cases he : (ys.filter (fun x => !(x == v))).isEmpty = true
        · simp only [he, if_true]
          refine ⟨fun k' hk' => lookup_erase_ne r hk', fun _ xs hxs => ?_⟩
          simp only [Redis.LRange, lookup_erase_self] at hxs
          injection hxs with hxs
          subst hxs
          simp
        · have he' : (ys.filter (fun x => !(x == v))).isEmpty = false := by simpa using he
          simp only [he', Bool.false_eq_true, if_false]
          refine ⟨fun k' hk' => lookup_put_ne r _ hk', fun _ xs hxs => ?_⟩
          simp only [Redis.LRange, lookup_put_self] at hxs
          injection hxs with hxs
          subst hxs
          simp [List.mem_filter]

/-- A successful `RPUSH key v`: the list under the key grows by `v` at its end,
and no other key changes. -/
theorem RPush_one_ok {r r' : Redis} {k v : String} (flt : Option String)
    (h : withFault flt (Redis.RPush r k [v]) = .ok r') :
    (∃ q, Redis.LRange r k = .ok q ∧ Redis.LRange r' k = .ok (q ++ [v])) ∧
    (∀ k', k' ≠ k → r'.lookup k' = r.lookup k') := by
  cases flt with
  | some e => cases h
  | none =>
    simp only [withFault, Redis.RPush, List.isEmpty_cons, Bool.false_eq_true, if_false] at h
    cases hl : r.lookup k with
    | none =>
      simp only [hl] at h
      injection h with h
      subst h
      exact ⟨⟨[], by simp [Redis.LRange, hl], by simp [Redis.LRange, lookup_put_self]⟩,
        fun k' hk' => lookup_put_ne r _ hk'⟩
    | some val =>
      cases val with
      | str x => simp [hl] at h
      | hash x => simp [hl] at h
      | list ys =>
        simp only [hl] at h
        injection h with h
        subst h
        exact ⟨⟨ys, by simp [Redis.LRange, hl], by simp [Redis.LRange, lookup_put_self]⟩,
          fun k' hk' => lookup_put_ne r _ hk'⟩

theorem releaseLock_none (r : Redis) (k : String) : releaseLock none r k = Redis.erase r k := rfl

/-- A successful `setStatus` shows in the mirror. -/
theorem mirrorStatus_setStatus (r : Redis) (infoKey status errMsg : String) (now : Time)
    (h : ∃ r', Redis.HSet r infoKey
      (if errMsg != "" then [("status", status), ("updated_at", now.text), ("error_msg", errMsg)]
        else [("status", status), ("updated_at", now.text)]) = .ok r') :
    mirrorStatus (setStatus none r infoKey status errMsg now) infoKey = some status := by
  obtain ⟨r', hr'⟩ := h
  have hs : setStatus none r infoKey status errMsg now = r' := by
    unfold setStatus
    simp only [withFault, bestEffort]
    split <;> simp_all
  rw [hs]
  unfold Redis.HSet at hr'
  split at hr'
  · injection hr' with hr'; subst hr'
    simp only [mirrorStatus, lookup_put_self]
    split
    · simp only [List.foldl]
      rw [lookup_hashSet_ne _ _ (by decide), lookup_hashSet_ne _ _ (by decide),
        lookup_hashSet_self]
    · simp only [List.foldl]
      rw [lookup_hashSet_ne _ _ (by decide), lookup_hashSet_self]
  · injection hr' with hr'; subst hr'
    simp only [mirrorStatus, lookup_put_self]
    split
    · simp only [List.foldl]
      rw [lookup_hashSet_ne _ _ (by decide), lookup_hashSet_ne _ _ (by decide),
        lookup_hashSet_self]
    · simp only [List.foldl]
      rw [lookup_hashSet_ne _ _ (by decide), lookup_hashSet_self]
  · cases hr'

/-! ## Lemmas on key names -/

theorem infoKey_injective {a b : String}
    (h : "task:" ++ a ++ ":info" = "task:" ++ b ++ ":info") : a = b := by
  have h1 := congrArg String.data h
  simp only [String.data_append, List.append_assoc] at h1
  have h2 := List.append_cancel_left h1
  have h3 := List.append_cancel_right h2
  exact String.ext h3

theorem key_ne_of_last {id sfx k : String} (hs : sfx.data ≠ [])
    (h : sfx.data.getLast? ≠ k.data.getLast?) : "task:" ++ id ++ sfx ≠ k := by
  intro e
  apply h
  rw [← e]
  simp only [String.data_append]
  rw [List.getLast?_append_of_ne_nil _ hs]

theorem key_ne_tasks_list (id sfx : String) : "task:" ++ id ++ sfx ≠ "tasks:list" := by
  intro e
  have h1 := congrArg String.data e
  simp only [String.data_append, List.append_assoc] at h1
  simp at h1

theorem taskKeys_ne_queue (id : String) : ∀ k ∈ taskKeys id, k ≠ "task:delete:queue" := by
  intro k hk
  simp only [taskKeys, List.mem_cons, List.mem_singleton, List.not_mem_nil, or_false] at hk
  rcases hk with rfl | rfl | rfl | rfl <;> exact key_ne_of_last (by decide) (by decide)

theorem taskKeys_ne_list (id : String) : ∀ k ∈ taskKeys id, k ≠ "tasks:list" := by
  intro k hk
  simp only [taskKeys, List.mem_cons, List.mem_singleton, List.not_mem_nil, or_false] at hk
  rcases hk with rfl | rfl | rfl | rfl <;> exact key_ne_tasks_list _ _

theorem infoKey_ne_targetsKey (taskId : String) :
    "task:" ++ taskId ++ ":targets" ≠ "task:" ++ taskId ++ ":info" := by
  intro e
  have h1 := congrArg String.data e
  simp only [String.data_append, List.append_assoc] at h1
  have h2 := List.append_cancel_left (List.append_cancel_left h1)
  simp at h2

/-! ## Lemmas on `scanner.Cancel` -/

theorem Cancel_db (s : Sys) (taskId : String) : (Cancel s taskId).db = s.db := by
  unfold Cancel; split <;> rfl

theorem Cancel_redis (s : Sys) (taskId : String) : (Cancel s taskId).redis = s.redis := by
  unfold Cancel; split <;> rfl

theorem Cancel_taskCancels (s : Sys) (taskId : String) :
    (Cancel s taskId).taskCancels = s.taskCancels := by
  unfold Cancel; split <;> rfl

/-- The executions after `Cancel`: the one registered under the task has its
context cancelled, every other one is as before. -/
theorem Cancel_execs (s : Sys) (taskId : String) :
    (Cancel s taskId).execs =
      match s.taskCancels.lookup taskId with
      | some run => s.execs.modify (fun e => { e with cancelled := true }) run
      | none => s.execs := by
  unfold Cancel; split <;> rfl

theorem Cancel_execs_other (s : Sys) (taskId : String) (i : Nat)
    (h : s.taskCancels.lookup taskId ≠ some i) : (Cancel s taskId).execs.get? i = s.execs.get? i := by
  unfold Cancel
  split
  · rename_i run hrun
    have hne : run ≠ i := fun e => h (e ▸ hrun)
    simp [List.getElem?_modify, hne]
  · rfl

/-! ## C1: the contract of `Start` -/

/-- C1. For every store state in which the task's fast-store target list is
non-empty and the start lock is free (the identifier being non-empty and unique
in `tasks`, and the reads and the conditional update of `Start` not failing):
if a Task row exists whose durable status is not `running`, the durable status
becomes `running` and exactly one orchestrator execution is launched; if the
durable status is already `running`, nothing is launched, the durable store is
unchanged and the reason is `task already running`; if no Task row exists,
nothing is launched and the reason is `task not found`. -/
theorem Start_contract (s : Sys) (taskId : String) (now : Time) (f : StartFaults)
    (targets : List String) (hid : taskId ≠ "") (hk : DB.keyed s.db)
    (htargets : Redis.LRange s.redis ("task:" ++ taskId ++ ":targets") = .ok targets)
    (hne : targets ≠ [])
    (hlock : s.redis.lookup ("task:lock:" ++ taskId) = none)
    (hf : f.lrange = none ∧ f.setnx = none ∧ f.update = none ∧ f.first = none) :
    (∀ t, DB.First s.db taskId = .ok t → t.Status ≠ "running" →
      DB.First (Start s taskId now f).1.db taskId
          = .ok { t with Status := "running", UpdatedAt := now } ∧
        (Start s taskId now f).1.execs
          = s.execs ++ [⟨taskId, targets, "task:" ++ taskId ++ ":info", Phase.launched, false⟩] ∧
        (Start s taskId now f).2.code = 200) ∧
    (∀ t, DB.First s.db taskId = .ok t → t.Status = "running" →
      (Start s taskId now f).1.execs = s.execs ∧ (Start s taskId now f).1.db = s.db ∧
        (Start s taskId now f).2 = errResp 400 "task already running") ∧
    ((∀ x ∈ s.db.tasks, x.ID ≠ taskId) →
      (Start s taskId now f).1.execs = s.execs ∧ (Start s taskId now f).1.db = s.db ∧
        (Start s taskId now f).2 = errResp 404 "task not found") := by
  obtain ⟨hf1, hf2, hf3, hf4⟩ := hf
  have hlen : (targets.length == 0) = false := by
    cases targets with
    | nil => exact absurd rfl hne
    | cons a l => rfl
  have hid' : (taskId == "") = false := by simpa using hid
  refine ⟨?_, ?_, ?_⟩
  · intro t ht hst
    have hrows := startUpdate_rows_pos now ht hst
    have hfirst := startUpdate_First now ht hst
    have hrows' : ((startUpdate s.db taskId now).2 == 0) = false := by simpa using hrows
    simp only [Start, hid', hf1, hf2, hf3, withFault, htargets, hlen, Redis.SetNX, hlock,
      hrows', Bool.false_eq_true, if_false, Bool.not_true]
    exact ⟨hfirst, trivial, trivial⟩
  · intro t ht hst
    have hu := startUpdate_of_running now hk ht hst
    simp only [Start, hid', hf1, hf2, hf3, hf4, withFault, htargets, hlen, Redis.SetNX, hlock,
      hu, ht, Bool.false_eq_true, if_false, Bool.not_true, beq_self_eq_true, if_true, hst]
    exact ⟨trivial, trivial, trivial⟩
  · intro h
    have hu := startUpdate_of_absent now h
    obtain ⟨e, he⟩ := First_error_iff.2 h
    simp only [Start, hid', hf1, hf2, hf3, hf4, withFault, htargets, hlen, Redis.SetNX, hlock,
      hu, he, Bool.false_eq_true, if_false, Bool.not_true, beq_self_eq_true, if_true]
    exact ⟨trivial, trivial, trivial⟩

/-- Witness of C1: `Start` on the freshly created example task. -/
theorem Start_contract_witness :
    (exId ≠ "" ∧ DB.keyed exCreated.db ∧
      Redis.LRange exCreated.redis ("task:" ++ exId ++ ":targets")
        = .ok ["10.0.0.1:8080", "example.internal"] ∧
      exCreated.redis.lookup ("task:lock:" ++ exId) = none) ∧
    DB.First (Start exCreated exId exTime {}).1.db exId
      = .ok ⟨exId, "nightly", "running", exTime, exTime⟩ ∧
    (Start exCreated exId exTime {}).1.execs
      = [⟨exId, ["10.0.0.1:8080", "example.internal"], "task:" ++ exId ++ ":info",
          Phase.launched, false⟩] ∧
    (Start exCreated exId exTime {}).2.code = 200 :=
  ⟨⟨by decide, by decide, rfl, by decide⟩,
    (Start_contract exCreated exId exTime {} ["10.0.0.1:8080", "example.internal"]
      (by decide) (by decide) rfl (by decide) (by decide) ⟨rfl, rfl, rfl, rfl⟩).1
      ⟨exId, "nightly", "pending", exTime, exTime⟩ rfl (by decide)⟩

/-! ## C2: concurrent `Start` calls -/

theorem startSteps_done (taskId : String) (now : Time) (f : StartFaults) (n : Nat) (s : Sys)
    (r : Resp) : startSteps taskId now f n (s, .done r) = (s, .done r) := by
  induction n with
  | zero => rfl
  | succ n ih => simpa [startSteps, startStep] using ih

theorem startSteps_succ (taskId : String) (now : Time) (f : StartFaults) (n : Nat) (s : Sys)
    (pc : StartPC) :
    startSteps taskId now f (n + 1) (s, pc)
      = startSteps taskId now f n (startStep s taskId now f pc) := rfl

/-- A `Start` call run alone, step by step, is the handler `Start`. -/
theorem startSteps_eq_Start (s : Sys) (taskId : String) (now : Time) (f : StartFaults) :
    startSteps taskId now f 8 (s, .entry) = ((Start s taskId now f).1, .done (Start s taskId now f).2) := by
  rw [startSteps_succ]
  by_cases hid : (taskId == "") = true
  · simp only [startStep, Start, hid, Bool.false_eq_true, if_true, startSteps_done]
  · cases h1 : withFault f.lrange (Redis.LRange s.redis ("task:" ++ taskId ++ ":targets")) with
    | error e => simp only [startStep, Start, hid, Bool.false_eq_true, h1, if_false, startSteps_done]
    | ok targets =>
      by_cases hlen : (targets.length == 0) = true
      · simp only [startStep, Start, hid, Bool.false_eq_true, h1, hlen, if_false, if_true, startSteps_done]
      · have e1 : startStep s taskId now f .entry = (s, .haveTargets targets) := by
          simp only [startStep, hid, h1, hlen, Bool.false_eq_true, if_false]
        rw [e1, startSteps_succ]
        cases h2 : withFault f.setnx (Redis.SetNX s.redis ("task:lock:" ++ taskId) "1") with
        | error e => simp only [startStep, Start, hid, Bool.false_eq_true, h1, hlen, h2, if_false, startSteps_done]
        | ok p =>
          obtain ⟨r1, acquired⟩ := p
          cases acquired with
          | false =>
            simp only [startStep, Start, hid, Bool.false_eq_true, h1, hlen, h2, if_false, startSteps_done,
              Bool.not_false, if_true]
          | true =>
            have e2 : startStep s taskId now f (.haveTargets targets)
                = ({ s with redis := r1 }, .locked targets) := by
              simp only [startStep, h2, Bool.not_true, Bool.false_eq_true, if_false]
            rw [e2, startSteps_succ]
            cases h3 : withFault f.update (Except.ok (startUpdate s.db taskId now)) with
            | error e =>
              simp only [startStep, Start, hid, Bool.false_eq_true, h1, hlen, h2, h3, if_false, startSteps_done,
                Bool.not_true, Bool.false_eq_true, startSteps_succ]
            | ok q =>
              obtain ⟨db1, rows⟩ := q
              by_cases hr : (rows == 0) = true
              · simp only [startStep, Start, hid, Bool.false_eq_true, h1, hlen, h2, h3, hr, if_false, if_true,
                  startSteps_done, Bool.not_true, Bool.false_eq_true, startSteps_succ]
              · simp only [startStep, Start, hid, Bool.false_eq_true, h1, hlen, h2, h3, hr, if_false,
                  startSteps_done, Bool.not_true, Bool.false_eq_true, startSteps_succ]

theorem get?_split {α : Type} : ∀ (l : List α) (i : Nat) (x : α), l.get? i = some x →
    ∃ l1 l2, l = l1 ++ x :: l2 ∧ ∀ y, l.set i y = l1 ++ y :: l2
  | [], _, _, h => by cases h
  | a :: l, 0, x, h => by
    simp only [List.get?_cons_zero, Option.some.injEq] at h
    subst h
    exact ⟨[], l, rfl, fun y => rfl⟩
  | a :: l, i + 1, x, h => by
    simp only [List.get?_cons_succ] at h
    obtain ⟨l1, l2, h1, h2⟩ := get?_split l i x h
    exact ⟨a :: l1, l2, by rw [h1]; rfl, fun y => by simp [List.set, h2 y]⟩

theorem countP_replace (p : StartPC → Bool) (l1 l2 : List StartPC) (x y : StartPC) :
    List.countP p (l1 ++ y :: l2) + (if p x then 1 else 0)
      = List.countP p (l1 ++ x :: l2) + (if p y then 1 else 0) := by
  simp only [List.countP_append, List.countP_cons]
  omega

theorem exists_locked_replace {l1 l2 : List StartPC} {x : StartPC} (y : StartPC)
    (h : ∃ q ∈ l1 ++ x :: l2, q.isLocked = true) (hx : x.isLocked = false) :
    ∃ q ∈ l1 ++ y :: l2, q.isLocked = true := by
  obtain ⟨q, hq, hq'⟩ := h
  refine ⟨q, ?_, hq'⟩
  simp only [List.mem_append, List.mem_cons] at hq ⊢
  rcases hq with hq | rfl | hq
  · exact Or.inl hq
  · rw [hx] at hq'; cases hq'
  · exact Or.inr (Or.inr hq)

theorem forall_replace {P : StartPC → Prop} {l1 l2 : List StartPC} {x : StartPC} {y : StartPC}
    (h : ∀ q ∈ l1 ++ x :: l2, P q) (hy : P y) : ∀ q ∈ l1 ++ y :: l2, P q := by
  intro q hq
  simp only [List.mem_append, List.mem_cons] at hq
  rcases hq with hq | rfl | hq
  · exact h q (by simp [hq])
  · exact hy
  · exact h q (by simp [hq])

theorem mem_middle (l1 l2 : List StartPC) (x : StartPC) : x ∈ l1 ++ x :: l2 := by simp

/-- The progress clause survives a step of a call that is past the update. -/
theorem progress_late {taskId : String} {r r' : Redis} {l1 l2 : List StartPC} {x : StartPC}
    {tr : Nat} (y : StartPC)
    (h : tr = 1 ∨ (∃ pc ∈ l1 ++ x :: l2, pc.isLocked = true) ∨
      (r.lookup ("task:lock:" ++ taskId) = none ∧ ∀ pc ∈ l1 ++ x :: l2, pc.early = true))
    (hx : x.isLocked = false) (hx' : x.early = false) :
    tr = 1 ∨ (∃ pc ∈ l1 ++ y :: l2, pc.isLocked = true) ∨
      (r'.lookup ("task:lock:" ++ taskId) = none ∧ ∀ pc ∈ l1 ++ y :: l2, pc.early = true) := by
  rcases h with h | h | ⟨_, h⟩
  · exact Or.inl h
  · exact Or.inr (Or.inl (exists_locked_replace y h hx))
  · have := h x (mem_middle l1 l2 x)
    rw [hx'] at this; cases this

/-- The expiry of the lock keeps the invariant. -/
theorem ConcInv_lockExpires {s0 : Sys} {taskId : String} {targets : List String} {n : Nat}
    {c : Conc} (now : Nat → Time)
    (hkeys : "task:" ++ taskId ++ ":targets" ≠ "task:lock:" ++ taskId)
    (h : ConcInv s0 taskId targets n c) :
    ConcInv s0 taskId targets n (concStep taskId now c .lockExpires) := by
  obtain ⟨h1, h2, h3, h4, h5, h6, h7, h8, h9⟩ := h
  refine ⟨h1, ?_, h3, h4, h5, ?_, h7, h8, h9⟩
  · simp only [concStep]
    rw [LRange_erase_ne _ hkeys]
    exact h2
  · simp only [concStep]
    rcases h6 with h | h | ⟨_, h⟩
    · exact Or.inl h
    · exact Or.inr (Or.inl h)
    · exact Or.inr (Or.inr ⟨lookup_erase_self _ _, h⟩)

/-- A step of one call keeps the invariant. -/
theorem ConcInv_call {s0 : Sys} {taskId : String} {targets : List String} {n : Nat}
    {sys : Sys} {l1 l2 : List StartPC} {tr la : Nat} (pc : StartPC) (now : Time)
    (hid : taskId ≠ "") (hne : targets ≠ [])
    (hkeys : "task:" ++ taskId ++ ":targets" ≠ "task:lock:" ++ taskId)
    (h : ConcInv s0 taskId targets n ⟨sys, l1 ++ pc :: l2, tr, la⟩) :
    ConcInv s0 taskId targets n
      ⟨(startStep sys taskId now {} pc).1, l1 ++ (startStep sys taskId now {} pc).2 :: l2,
        tr + (if isTransition pc (startStep sys taskId now {} pc).2 then 1 else 0),
        la + (if isLaunch pc (startStep sys taskId now {} pc).2 then 1 else 0)⟩ := by
  obtain ⟨h1, h2, h3, h4, h5, h6, h7, h8, h9⟩ := h
  simp only at h1 h2 h3 h4 h5 h6 h7 h8 h9
  have hid' : (taskId == "") = false := by simpa using hid
  have hlen : (targets.length == 0) = false := by
    cases targets with
    | nil => exact absurd rfl hne
    | cons a l => rfl
  have hlen1 : ∀ y, (l1 ++ y :: l2).length = n := fun y => by simpa using h1
  cases pc with
  | entry =>
    have e : startStep sys taskId now {} .entry = (sys, .haveTargets targets) := by
      simp only [startStep, hid', withFault, h2, hlen, Bool.false_eq_true, if_false]
    rw [e]
    have c1 := countP_replace StartPC.inFlight l1 l2 .entry (.haveTargets targets)
    have c2 := countP_replace StartPC.ok200 l1 l2 .entry (.haveTargets targets)
    simp only [StartPC.inFlight, StartPC.ok200, Bool.false_eq_true, if_false, Nat.add_zero] at c1 c2
    refine ⟨hlen1 _, h2, h3, h4, ?_, ?_, forall_replace h7 (fun t ht => ?_), h8, ?_⟩
    · simpa [isTransition, isLaunch, c1] using h5
    · simp only [isTransition, isLaunch, Bool.false_eq_true, if_false, Nat.add_zero]
      rcases h6 with h | h | ⟨hl, h⟩
      · exact Or.inl h
      · exact Or.inr (Or.inl (exists_locked_replace _ h rfl))
      · exact Or.inr (Or.inr ⟨hl, forall_replace h rfl⟩)
    · simp only [StartPC.carried, Option.some.injEq] at ht
      exact ht.symm
    · simpa [isTransition, isLaunch, c2] using h9
  | haveTargets t =>
    have ht : t = targets := h7 _ (mem_middle _ _ _) t rfl
    subst ht
    cases hl : sys.redis.lookup ("task:lock:" ++ taskId) with
    | none =>
      have e : startStep sys taskId now {} (.haveTargets t)
          = ({ sys with redis := Redis.put sys.redis ("task:lock:" ++ taskId) (.str "1") },
              .locked t) := by
        simp only [startStep, withFault, Redis.SetNX, hl, Bool.not_true, Bool.false_eq_true,
          if_false]
      rw [e]
      have c1 := countP_replace StartPC.inFlight l1 l2 (.haveTargets t) (.locked t)
      have c2 := countP_replace StartPC.ok200 l1 l2 (.haveTargets t) (.locked t)
      simp only [StartPC.inFlight, StartPC.ok200, Bool.false_eq_true, if_false, Nat.add_zero]
        at c1 c2
      refine ⟨hlen1 _, ?_, h3, h4, ?_, ?_, forall_replace h7 (fun t' ht' => ?_), h8, ?_⟩
      · simp only
        rw [LRange_put_ne _ _ hkeys]
        exact h2
      · simpa [isTransition, isLaunch, c1] using h5
      · exact Or.inr (Or.inl ⟨.locked t, mem_middle _ _ _, rfl⟩)
      · simp only [StartPC.carried, Option.some.injEq] at ht'
        exact ht'.symm
      · simpa [isTransition, isLaunch, c2] using h9
    | some v =>
      have e : startStep sys taskId now {} (.haveTargets t)
          = (sys, .done (errResp 400 "task start already in progress")) := by
        simp only [startStep, withFault, Redis.SetNX, hl, Bool.not_false, if_true]
      rw [e]
      have c1 := countP_replace StartPC.inFlight l1 l2 (.haveTargets t)
        (.done (errResp 400 "task start already in progress"))
      have c2 := countP_replace StartPC.ok200 l1 l2 (.haveTargets t)
        (.done (errResp 400 "task start already in progress"))
      simp only [StartPC.inFlight, StartPC.ok200, errResp, Bool.false_eq_true, if_false,
        Nat.add_zero] at c1 c2
      have c2' : List.countP StartPC.ok200
          (l1 ++ StartPC.done (errResp 400 "task start already in progress") :: l2)
          = List.countP StartPC.ok200 (l1 ++ StartPC.haveTargets t :: l2) := by
        simpa [errResp] using c2
      refine ⟨hlen1 _, h2, h3, h4, ?_, ?_, forall_replace h7 (fun t' ht' => ?_), h8, ?_⟩
      · simpa [isTransition, isLaunch, errResp, c1] using h5
      · simp only [isTransition, isLaunch, Bool.false_eq_true, if_false, Nat.add_zero]
        rcases h6 with h | h | ⟨hl', h⟩
        · exact Or.inl h
        · exact Or.inr (Or.inl (exists_locked_replace _ h rfl))
        · rw [hl] at hl'; cases hl'
      · simp [StartPC.carried] at ht'
      · simpa [isTransition, isLaunch, c2'] using h9
  | locked t =>
    have ht : t = targets := h7 _ (mem_middle _ _ _) t rfl
    subst ht
    have hnot := startUpdate_not_startable sys.db taskId now
    have hrow := startUpdate_row now h3
    by_cases hs : startable sys.db taskId
    · have htr : tr = 0 := by
        rcases h4 with h | h
        · exact h.1
        · exact absurd hs h.2
      have hrows : ((startUpdate sys.db taskId now).2 == 0) = false := by
        have := (startUpdate_rows_zero_iff sys.db taskId now).not.2 (not_not.2 hs)
        simpa using this
      have e : startStep sys taskId now {} (.locked t)
          = ({ sys with db := (startUpdate sys.db taskId now).1 }, .updated t) := by
        simp only [startStep, withFault, hrows, Bool.false_eq_true, if_false]
      rw [e]
      have c1 := countP_replace StartPC.inFlight l1 l2 (.locked t) (.updated t)
      have c2 := countP_replace StartPC.ok200 l1 l2 (.locked t) (.updated t)
      simp only [StartPC.inFlight, StartPC.ok200, Bool.false_eq_true, if_false, if_true,
        Nat.add_zero] at c1 c2
      refine ⟨hlen1 _, h2, hrow, Or.inr ⟨by simp [isTransition, htr], hnot⟩, ?_, ?_,
        forall_replace h7 (fun t' ht' => ?_), h8, ?_⟩
      · simp only [isTransition, isLaunch, if_true, Bool.false_eq_true, if_false, Nat.add_zero]
        omega
      · exact Or.inl (by simp [isTransition, htr])
      · simp only [StartPC.carried, Option.some.injEq] at ht'
        exact ht'.symm
      · simpa [isTransition, isLaunch, c2] using h9
    · have htr : tr = 1 := by
        rcases h4 with h | h
        · exact absurd h.2 hs
        · exact h.1
      have hrows : ((startUpdate sys.db taskId now).2 == 0) = true := by
        simpa using (startUpdate_rows_zero_iff sys.db taskId now).2 hs
      have e : startStep sys taskId now {} (.locked t)
          = ({ sys with db := (startUpdate sys.db taskId now).1 }, .zeroRows) := by
        simp only [startStep, withFault, hrows, if_true]
      rw [e]
      have c1 := countP_replace StartPC.inFlight l1 l2 (.locked t) .zeroRows
      have c2 := countP_replace StartPC.ok200 l1 l2 (.locked t) .zeroRows
      simp only [StartPC.inFlight, StartPC.ok200, Bool.false_eq_true, if_false,
        Nat.add_zero] at c1 c2
      refine ⟨hlen1 _, h2, hrow, Or.inr ⟨by simp [isTransition, htr], hnot⟩, ?_, ?_,
        forall_replace h7 (fun t' ht' => ?_), h8, ?_⟩
      · simpa [isTransition, isLaunch, c1] using h5
      · exact Or.inl (by simp [isTransition, htr])
      · simp [StartPC.carried] at ht'
      · simpa [isTransition, isLaunch, c2] using h9
  | zeroRows =>
    have hcode : ∀ r : Resp, (startStep sys taskId now {} .zeroRows).2 = .returning r →
        (r.code == 200) = false := by
      intro r hr
      simp only [startStep, withFault, StartPC.returning.injEq] at hr
      subst hr
      split
      · rfl
      · split <;> rfl
    have e : ∃ r, startStep sys taskId now {} .zeroRows = (sys, .returning r) ∧
        (r.code == 200) = false := by
      refine ⟨_, rfl, hcode _ rfl⟩
    obtain ⟨r, e, hr⟩ := e
    rw [e]
    have c1 := countP_replace StartPC.inFlight l1 l2 .zeroRows (.returning r)
    have c2 := countP_replace StartPC.ok200 l1 l2 .zeroRows (.returning r)
    simp only [StartPC.inFlight, StartPC.ok200, hr, Bool.false_eq_true, if_false,
      Nat.add_zero] at c1 c2
    refine ⟨hlen1 _, h2, h3, ?_, ?_, ?_, forall_replace h7 (fun t' ht' => ?_), h8, ?_⟩
    · simpa [isTransition] using h4
    · simpa [isTransition, isLaunch, c1] using h5
    · simp only [isTransition, Bool.false_eq_true, if_false, Nat.add_zero]
      exact progress_late _ h6 rfl rfl
    · simp [StartPC.carried] at ht'
    · simpa [isTransition, isLaunch, c2] using h9
  | updated t =>
    have ht : t = targets := h7 _ (mem_middle _ _ _) t rfl
    subst ht
    have e : startStep sys taskId now {} (.updated t)
        = ({ sys with redis := Redis.erase sys.redis ("task:lock:" ++ taskId) }, .released t) :=
      rfl
    rw [e]
    have c1 := countP_replace StartPC.inFlight l1 l2 (.updated t) (.released t)
    have c2 := countP_replace StartPC.ok200 l1 l2 (.updated t) (.released t)
    simp only [StartPC.inFlight, StartPC.ok200, Bool.false_eq_true, if_false, if_true,
      Nat.add_zero, Nat.add_right_cancel_iff] at c1 c2
    refine ⟨hlen1 _, ?_, h3, ?_, ?_, ?_, forall_replace h7 (fun t' ht' => ?_), h8, ?_⟩
    · simp only
      rw [LRange_erase_ne _ hkeys]
      exact h2
    · simpa [isTransition] using h4
    · simpa [isTransition, isLaunch, c1] using h5
    · simp only [isTransition, Bool.false_eq_true, if_false, Nat.add_zero]
      exact progress_late _ h6 rfl rfl
    · simp only [StartPC.carried, Option.some.injEq] at ht'
      exact ht'.symm
    · simpa [isTransition, isLaunch, c2] using h9
  | released t =>
    have ht : t = targets := h7 _ (mem_middle _ _ _) t rfl
    subst ht
    have e : startStep sys taskId now {} (.released t)
        = ({ sys with redis := bestEffort sys.redis (withFault none
              (Redis.HSet sys.redis ("task:" ++ taskId ++ ":info")
                [("status", "running"), ("updated_at", now.text)])) }, .mirrored t) := rfl
    rw [e]
    have c1 := countP_replace StartPC.inFlight l1 l2 (.released t) (.mirrored t)
    have c2 := countP_replace StartPC.ok200 l1 l2 (.released t) (.mirrored t)
    simp only [StartPC.inFlight, StartPC.ok200, Bool.false_eq_true, if_false, if_true,
      Nat.add_zero, Nat.add_right_cancel_iff] at c1 c2
    refine ⟨hlen1 _, ?_, h3, ?_, ?_, ?_, forall_replace h7 (fun t' ht' => ?_), h8, ?_⟩
    · simp only
      rw [LRange_bestEffort_HSet_ne _ _ _ (infoKey_ne_targetsKey taskId)]
      exact h2
    · simpa [isTransition] using h4
    · simpa [isTransition, isLaunch, c1] using h5
    · simp only [isTransition, Bool.false_eq_true, if_false, Nat.add_zero]
      exact progress_late _ h6 rfl rfl
    · simp only [StartPC.carried, Option.some.injEq] at ht'
      exact ht'.symm
    · simpa [isTransition, isLaunch, c2] using h9
  | mirrored t =>
    have ht : t = targets := h7 _ (mem_middle _ _ _) t rfl
    subst ht
    have e : startStep sys taskId now {} (.mirrored t)
        = ({ sys with execs := sys.execs ++
              [⟨taskId, t, "task:" ++ taskId ++ ":info", Phase.launched, false⟩] },
            .returning ⟨200, [("message", .str "任务已开始扫描"), ("taskId", .str taskId)]⟩) := rfl
    rw [e]
    have c1 := countP_replace StartPC.inFlight l1 l2 (.mirrored t)
      (.returning ⟨200, [("message", .str "任务已开始扫描"), ("taskId", .str taskId)]⟩)
    have c2 := countP_replace StartPC.ok200 l1 l2 (.mirrored t)
      (.returning ⟨200, [("message", .str "任务已开始扫描"), ("taskId", .str taskId)]⟩)
    simp only [StartPC.inFlight, StartPC.ok200, Bool.false_eq_true, if_false, if_true,
      Nat.add_zero, beq_self_eq_true] at c1 c2
    refine ⟨hlen1 _, h2, h3, ?_, ?_, ?_, forall_replace h7 (fun t' ht' => ?_), ?_, ?_⟩
    · simpa [isTransition] using h4
    · simp only [isTransition, isLaunch, if_true, Bool.false_eq_true, if_false, Nat.add_zero]
      omega
    · simp only [isTransition, Bool.false_eq_true, if_false, Nat.add_zero]
      exact progress_late _ h6 rfl rfl
    · simp [StartPC.carried] at ht'
    · simp only [isLaunch, if_true]
      rw [h8, List.replicate_succ', List.append_assoc]
    · simp only [isLaunch, if_true]
      omega
  | returning r =>
    have e : startStep sys taskId now {} (.returning r)
        = ({ sys with redis := Redis.erase sys.redis ("task:lock:" ++ taskId) }, .done r) := rfl
    rw [e]
    have c1 := countP_replace StartPC.inFlight l1 l2 (.returning r) (.done r)
    have c2 := countP_replace StartPC.ok200 l1 l2 (.returning r) (.done r)
    simp only [StartPC.inFlight, StartPC.ok200, Bool.false_eq_true, if_false,
      Nat.add_zero, Nat.add_right_cancel_iff] at c1 c2
    refine ⟨hlen1 _, ?_, h3, ?_, ?_, ?_, forall_replace h7 (fun t' ht' => ?_), h8, ?_⟩
    · simp only
      rw [LRange_erase_ne _ hkeys]
      exact h2
    · simpa [isTransition] using h4
    · simpa [isTransition, isLaunch, c1] using h5
    · simp only [isTransition, Bool.false_eq_true, if_false, Nat.add_zero]
      exact progress_late _ h6 rfl rfl
    · simp [StartPC.carried] at ht'
    · simpa [isTransition, isLaunch, c2] using h9
  | done r =>
    have e : startStep sys taskId now {} (.done r) = (sys, .done r) := rfl
    rw [e]
    exact ⟨h1, h2, h3, by simpa [isTransition] using h4, by simpa [isTransition, isLaunch] using h5,
      by simpa [isTransition] using h6, h7, by simpa [isLaunch] using h8,
      by simpa [isLaunch] using h9⟩

/-- Every scheduled step keeps the invariant. -/
theorem ConcInv_step {s0 : Sys} {taskId : String} {targets : List String} {n : Nat} {c : Conc}
    (now : Nat → Time) (a : Sched) (hid : taskId ≠ "") (hne : targets ≠ [])
    (hkeys : "task:" ++ taskId ++ ":targets" ≠ "task:lock:" ++ taskId)
    (h : ConcInv s0 taskId targets n c) : ConcInv s0 taskId targets n (concStep taskId now c a) := by
  cases a with
  | lockExpires => exact ConcInv_lockExpires now hkeys h
  | call i =>
    obtain ⟨sys, pcs, tr, la⟩ := c
    simp only [concStep]
    cases hg : pcs.get? i with
    | none => exact h
    | some pc =>
      obtain ⟨l1, l2, hl, hset⟩ := get?_split pcs i pc hg
      simp only [hset]
      subst hl
      exact ConcInv_call pc (now i) hid hne hkeys h

/-- Every schedule keeps the invariant. -/
theorem ConcInv_run {s0 : Sys} {taskId : String} {targets : List String} {n : Nat}
    (now : Nat → Time) (hid : taskId ≠ "") (hne : targets ≠ [])
    (hkeys : "task:" ++ taskId ++ ":targets" ≠ "task:lock:" ++ taskId) :
    ∀ (sched : List Sched) (c : Conc), ConcInv s0 taskId targets n c →
      ConcInv s0 taskId targets n (concRun taskId now c sched)
  | [], _, h => h
  | a :: sched, c, h => by
    simp only [concRun, List.foldl_cons]
    exact ConcInv_run now hid hne hkeys sched _ (ConcInv_step now a hid hne hkeys h)

/-- The invariant holds when the calls arrive. -/
theorem ConcInv_init (s : Sys) (taskId : String) (targets : List String) (n : Nat) (t : Task)
    (hT : Redis.LRange s.redis ("task:" ++ taskId ++ ":targets") = .ok targets)
    (hlock : s.redis.lookup ("task:lock:" ++ taskId) = none)
    (hrow : DB.First s.db taskId = .ok t) (hst : t.Status ≠ "running") :
    ConcInv s taskId targets n (concInit s n) := by
  have hall : ∀ pc ∈ List.replicate n StartPC.entry, pc = StartPC.entry :=
    fun pc hpc => (List.mem_replicate.1 hpc).2
  refine ⟨by simp [concInit], hT, ⟨t, hrow⟩,
    Or.inl ⟨rfl, t, First_mem hrow, First_ID hrow, hst⟩, ?_,
    Or.inr (Or.inr ⟨hlock, fun pc hpc => (by rw [hall pc hpc]; rfl)⟩),
    fun pc hpc t' ht' => (by rw [hall pc hpc] at ht'; cases ht'), (by simp [concInit]), ?_⟩
  · simp only [concInit, Nat.zero_add]
    apply Eq.symm
    rw [List.countP_eq_zero]
    intro pc hpc
    rw [hall pc hpc]
    simp [StartPC.inFlight]
  · simp only [concInit]
    rw [List.countP_eq_zero]
    intro pc hpc
    rw [hall pc hpc]
    simp [StartPC.ok200]

/-- C2, the statement as written fails: a pending task whose fast-store target
list is missing (its `Create` stored the rows but failed to push the targets)
is never moved to `running`, whatever the number of `Start` calls. -/
theorem Start_race_counterexample :
    (∃ t, DB.First exUnmirrored.db exId = .ok t ∧ t.Status = "pending") ∧
    (∀ pc ∈ (concRun exId (fun _ => exTime) (concInit exUnmirrored 2) [.call 0, .call 1]).pcs,
      pc.answer = some (errResp 404 "task not found or empty")) ∧
    (concRun exId (fun _ => exTime) (concInit exUnmirrored 2) [.call 0, .call 1]).transitions = 0 ∧
    (concRun exId (fun _ => exTime) (concInit exUnmirrored 2) [.call 0, .call 1]).launches = 0 ∧
    (concRun exId (fun _ => exTime) (concInit exUnmirrored 2) [.call 0, .call 1]).sys.execs = [] :=
  ⟨⟨_, rfl, rfl⟩, by decide, by decide, by decide, by decide⟩

/-- C2 as amended. Let a task (with a non-empty identifier) have a pending Task
row, a non-empty fast-store target list and a free start lock, and let no store
call fail. Then for every number `n` of concurrent `Start` calls on it and
every interleaving of their store calls (and of expiries of the lock): at every
moment at most one conditional update has changed the row and at most one
orchestrator has been launched; and once all calls have returned (`n ≥ 1`),
exactly one update has changed the row, which has status `running`, exactly one
orchestrator has been launched, and exactly one call was answered 200. -/
theorem Start_race_safe (s : Sys) (taskId : String) (now : Nat → Time) (n : Nat)
    (sched : List Sched) (t : Task) (targets : List String) (hn : 1 ≤ n) (hid : taskId ≠ "")
    (hT : Redis.LRange s.redis ("task:" ++ taskId ++ ":targets") = .ok targets)
    (hne : targets ≠ []) (hlock : s.redis.lookup ("task:lock:" ++ taskId) = none)
    (hrow : DB.First s.db taskId = .ok t) (hst : t.Status = "pending") :
    ((concRun taskId now (concInit s n) sched).transitions ≤ 1 ∧
      (concRun taskId now (concInit s n) sched).launches ≤ 1) ∧
    ((∀ pc ∈ (concRun taskId now (concInit s n) sched).pcs, pc.answer.isSome = true) →
      (concRun taskId now (concInit s n) sched).transitions = 1 ∧
      (concRun taskId now (concInit s n) sched).launches = 1 ∧
      (concRun taskId now (concInit s n) sched).sys.execs
        = s.execs ++ [⟨taskId, targets, "task:" ++ taskId ++ ":info", Phase.launched, false⟩] ∧
      (∃ t', DB.First (concRun taskId now (concInit s n) sched).sys.db taskId = .ok t' ∧
        t'.Status = "running") ∧
      (concRun taskId now (concInit s n) sched).pcs.countP StartPC.ok200 = 1 ∧
      (concRun taskId now (concInit s n) sched).pcs.length = n) := by
  have hkeys : "task:" ++ taskId ++ ":targets" ≠ "task:lock:" ++ taskId := by
    intro e
    rw [e] at hT
    simp only [Redis.LRange, hlock] at hT
    injection hT with hT
    exact hne hT.symm
  have hst' : t.Status ≠ "running" := by rw [hst]; decide
  have inv := ConcInv_run now hid hne hkeys sched _
    (ConcInv_init s taskId targets n t hT hlock hrow hst')
  obtain ⟨h1, h2, h3, h4, h5, h6, h7, h8, h9⟩ := inv
  have htr : (concRun taskId now (concInit s n) sched).transitions ≤ 1 := by
    rcases h4 with h | h <;> omega
  refine ⟨⟨htr, by omega⟩, fun hdone => ?_⟩
  have hnl : ∀ pc ∈ (concRun taskId now (concInit s n) sched).pcs,
      pc.isLocked = false ∧ pc.early = false ∧ pc.inFlight = false := by
    intro pc hpc
    have := hdone pc hpc
    cases pc with
    | done r => exact ⟨rfl, rfl, rfl⟩
    | _ => simp [StartPC.answer] at this
  have htr1 : (concRun taskId now (concInit s n) sched).transitions = 1 := by
    rcases h6 with h | ⟨pc, hpc, hl⟩ | ⟨_, h⟩
    · exact h
    · rw [(hnl pc hpc).1] at hl; cases hl
    · cases hp : (concRun taskId now (concInit s n) sched).pcs with
      | nil => rw [hp] at h1; simp at h1; omega
      | cons pc l =>
        have hmem : pc ∈ (concRun taskId now (concInit s n) sched).pcs := by rw [hp]; simp
        have := h pc hmem
        rw [(hnl pc hmem).2.1] at this; cases this
  have hfl : List.countP StartPC.inFlight (concRun taskId now (concInit s n) sched).pcs = 0 := by
    rw [List.countP_eq_zero]
    intro pc hpc
    simp [(hnl pc hpc).2.2]
  have hla : (concRun taskId now (concInit s n) sched).launches = 1 := by omega
  refine ⟨htr1, hla, ?_, ?_, ?_, h1⟩
  · rw [h8, hla]; rfl
  · obtain ⟨t', ht'⟩ := h3
    refine ⟨t', ht', ?_⟩
    rcases h4 with h | h
    · omega
    · by_contra hne'
      exact h.2 ⟨t', First_mem ht', First_ID ht', hne'⟩
  · rw [h9, hla]

/-- Witness of C2 as amended: two `Start` calls on the freshly created example
task, interleaved store call by store call. -/
theorem Start_race_safe_witness :
    (∀ pc ∈ (concRun exId (fun _ => exTime) (concInit exCreated 2)
        [.call 0, .call 1, .call 0, .call 1, .call 0, .call 1, .call 0, .call 1, .call 0,
          .call 1, .call 0, .call 1, .call 0, .call 1, .call 0, .call 1]).pcs,
      pc.answer.isSome = true) ∧
    (concRun exId (fun _ => exTime) (concInit exCreated 2)
        [.call 0, .call 1, .call 0, .call 1, .call 0, .call 1, .call 0, .call 1, .call 0,
          .call 1, .call 0, .call 1, .call 0, .call 1, .call 0, .call 1]).transitions = 1 ∧
    (concRun exId (fun _ => exTime) (concInit exCreated 2)
        [.call 0, .call 1, .call 0, .call 1, .call 0, .call 1, .call 0, .call 1, .call 0,
          .call 1, .call 0, .call 1, .call 0, .call 1, .call 0, .call 1]).launches = 1 :=
  have h := (Start_race_safe exCreated exId (fun _ => exTime) 2
    [.call 0, .call 1, .call 0, .call 1, .call 0, .call 1, .call 0, .call 1, .call 0,
      .call 1, .call 0, .call 1, .call 0, .call 1, .call 0, .call 1]
    ⟨exId, "nightly", "pending", exTime, exTime⟩ ["10.0.0.1:8080", "example.internal"]
    (by decide) (by decide) rfl (by decide) (by decide) rfl rfl).2 (by decide)
  ⟨by decide, h.1, h.2.1⟩

/-! ## C3: orchestrator executions per task -/

/-- C3, evaluated. From the empty system: create a task, start it, let the
orchestrator enter, stop the task and start it again while the cancelled first
execution has not yet returned, and let the second execution enter. Then two
executions of the same task are active, and only the second holds the handle;
when the first one returns, its deferred delete removes the handle of the
second, which stays active with no handle registered. -/
theorem two_active_runs_reachable :
    activeRuns (reach Sys.empty
      [.create exBytes exReq exTime {}, .start exId exTime {}, .runBegin 0 exTime none,
        .stop exId exTime {}, .start exId exTime {}, .runBegin 1 exTime none]) exId = [0, 1] ∧
    (reach Sys.empty
      [.create exBytes exReq exTime {}, .start exId exTime {}, .runBegin 0 exTime none,
        .stop exId exTime {}, .start exId exTime {}, .runBegin 1 exTime none]).taskCancels
      = [(exId, 1)] ∧
    activeRuns (reach Sys.empty
      [.create exBytes exReq exTime {}, .start exId exTime {}, .runBegin 0 exTime none,
        .stop exId exTime {}, .start exId exTime {}, .runBegin 1 exTime none,
        .runExit 0 .nucleiStopped exTime none]) exId = [1] ∧
    (reach Sys.empty
      [.create exBytes exReq exTime {}, .start exId exTime {}, .runBegin 0 exTime none,
        .stop exId exTime {}, .start exId exTime {}, .runBegin 1 exTime none,
        .runExit 0 .nucleiStopped exTime none]).taskCancels.lookup exId = none :=
  ⟨by decide, by decide, by decide, by decide⟩

/-! ## C4: the status written when a run ends -/

theorem RunPath.terminal_status (p : RunPath) :
    p.terminal.1 = "finished" ∨ p.terminal.1 = "stopped" ∨ p.terminal.1 = "error" := by
  cases p <;> simp [RunPath.terminal]

/-- C4, the statement as written fails: after the example run completes
normally the mirror shows `finished` while the durable status is still
`running`. -/
theorem Run_finished_counterexample :
    DB.First (reach exRunning [.runExit 0 .finished exTime none]).db exId
      = .ok ⟨exId, "nightly", "running", exTime, exTime⟩ ∧
    mirrorStatus (reach exRunning [.runExit 0 .finished exTime none]).redis
      ("task:" ++ exId ++ ":info") = some "finished" ∧
    (reach exRunning [.runExit 0 .finished exTime none]).execs.map (fun e => e.phase)
      = [Phase.exited] :=
  ⟨rfl, by decide, by decide⟩

/-- C4 as amended. An orchestrator run never writes to the durable store,
neither at its entry nor at its exit, so the durable status is after the run
what it was before; its terminal status, one of `finished`, `stopped` and
`error`, is written to the fast-store mirror only, and shows there whenever
that write succeeds. -/
theorem Run_status_mirror_only (s : Sys) (run : Nat) (path : RunPath) (now : Time)
    (flt : Option String) :
    (runBegin s run now flt).db = s.db ∧ (runExit s run path now flt).db = s.db ∧
    (path.terminal.1 = "finished" ∨ path.terminal.1 = "stopped" ∨ path.terminal.1 = "error") ∧
    (∀ e, s.execs.get? run = some e → e.phase = Phase.active → flt = none →
      (∃ r', Redis.HSet s.redis e.infoKey
        (if path.terminal.2 != "" then
          [("status", path.terminal.1), ("updated_at", now.text), ("error_msg", path.terminal.2)]
        else [("status", path.terminal.1), ("updated_at", now.text)]) = .ok r') →
      mirrorStatus (runExit s run path now flt).redis e.infoKey = some path.terminal.1) := by
  refine ⟨?_, ?_, RunPath.terminal_status path, ?_⟩
  · unfold runBegin
    split
    · rfl
    · split <;> rfl
  · unfold runExit
    split
    · rfl
    · split <;> rfl
  · intro e he hph hflt hw
    subst hflt
    have hph' : (e.phase != Phase.active) = false := by simp [hph]
    simp only [runExit, he, hph', Bool.false_eq_true, if_false]
    exact mirrorStatus_setStatus _ _ _ _ _ hw

/-- Witness of C4 as amended: the example run ending with an engine error. -/
theorem Run_status_mirror_only_witness :
    (runExit exRunning 0 (.nucleiError "template load failed") exTime none).db = exRunning.db ∧
    mirrorStatus (runExit exRunning 0 (.nucleiError "template load failed") exTime none).redis
      ("task:" ++ exId ++ ":info") = some "error" :=
  have h := Run_status_mirror_only exRunning 0 (.nucleiError "template load failed") exTime none
  ⟨h.2.1, h.2.2.2 ⟨exId, ["10.0.0.1:8080", "example.internal"], "task:" ++ exId ++ ":info",
      Phase.active, false⟩ (by decide) rfl rfl ⟨_, rfl⟩⟩

/-! ## C5: `Stop` of a task that is not running -/

/-- A `Stop` that meets no row with status `running` writes nothing durable and
cancels nothing. -/
theorem Stop_idle (s : Sys) (taskId : String) (now : Time) (f : StopFaults)
    (h : ∀ t, DB.First s.db taskId = .ok t → t.Status ≠ "running") :
    (Stop s taskId now f).1.db = s.db ∧ (Stop s taskId now f).1.execs = s.execs ∧
      (Stop s taskId now f).1.taskCancels = s.taskCancels := by
  unfold Stop
  split
  · exact ⟨rfl, rfl, rfl⟩
  · split
    · exact ⟨rfl, rfl, rfl⟩
    · rename_i t ht
      have ht' : DB.First s.db taskId = .ok t := by
        cases hf : f.first with
        | none => simpa [hf, withFault] using ht
        | some e => simp [hf, withFault] at ht
      have hst := h t ht'
      simp [hst]

/-- After a `Stop` whose durable-store calls did not fail, the row of the task
(if any) does not have status `running`. -/
theorem Stop_leaves_not_running (s : Sys) (taskId : String) (now : Time) (f : StopFaults)
    (hid : taskId ≠ "") (hf1 : f.first = none) (hf2 : f.update = none) :
    ∀ t, DB.First (Stop s taskId now f).1.db taskId = .ok t → t.Status ≠ "running" := by
  intro t' ht'
  have hid' : (taskId == "") = false := by simpa using hid
  cases hfr : DB.First s.db taskId with
  | error e =>
    simp only [Stop, hid', hf1, withFault, hfr, Bool.false_eq_true, if_false] at ht'
    cases ht'
  | ok t =>
    by_cases hst : t.Status = "running"
    · have hc : (fun x : Task => x.ID == taskId && x.Status == "running") t = true := by
        simp [First_ID hfr, hst]
      have hrows := UpdateStatus_rows_pos
        (fun x : Task => x.ID == taskId && x.Status == "running") "stopped" now hfr hc
      have hnew := First_UpdateStatus_self
        (fun x : Task => x.ID == taskId && x.Status == "running") "stopped" now hfr hc
      have hrows' : ((stopUpdate s.db taskId now).2 == 0) = false := by
        simpa [stopUpdate] using hrows
      simp only [Stop, hid', hf1, hf2, withFault, hfr, hst, bne_self_eq_false, hrows',
        Bool.false_eq_true, if_false, Cancel_db] at ht'
      rw [stopUpdate, hnew] at ht'
      injection ht' with ht'
      subst ht'
      simp
    · simp only [Stop, hid', hf1, withFault, hfr, Bool.false_eq_true, if_false] at ht'
      have hb : (t.Status != "running") = true := by simpa using hst
      simp only [hb, if_true] at ht'
      rw [hfr] at ht'
      injection ht' with ht'
      subst ht'
      exact hst

/-- C5. For every existing task whose durable status is not `running`,
`Stop(taskId)` (with the read of the row succeeding) leaves the durable store
unchanged, cancels nothing and answers with the task's current status; and
when the durable-store calls of a first `Stop` do not fail, a second `Stop` on
the same task writes nothing durable and cancels nothing. -/
theorem Stop_not_running_idempotent (s : Sys) (taskId : String) (now : Time) (f : StopFaults)
    (t : Task) (hid : taskId ≠ "") (hfirst : DB.First s.db taskId = .ok t)
    (hst : t.Status ≠ "running") (hf : f.first = none) :
    ((Stop s taskId now f).1.db = s.db ∧ (Stop s taskId now f).1.execs = s.execs ∧
      (Stop s taskId now f).1.taskCancels = s.taskCancels ∧
      (Stop s taskId now f).2
        = ⟨400, [("error", .str "task not running"), ("status", .str t.Status)]⟩) ∧
    (∀ (s0 : Sys) (now1 now2 : Time) (f1 f2 : StopFaults), f1.first = none → f1.update = none →
      (Stop (Stop s0 taskId now1 f1).1 taskId now2 f2).1.db = (Stop s0 taskId now1 f1).1.db ∧
      (Stop (Stop s0 taskId now1 f1).1 taskId now2 f2).1.execs
        = (Stop s0 taskId now1 f1).1.execs ∧
      (Stop (Stop s0 taskId now1 f1).1 taskId now2 f2).1.taskCancels
        = (Stop s0 taskId now1 f1).1.taskCancels) := by
  constructor
  · have h := Stop_idle s taskId now f (fun t' ht' => by
      rw [hfirst] at ht'; injection ht' with ht'; subst ht'; exact hst)
    refine ⟨h.1, h.2.1, h.2.2, ?_⟩
    have hid' : (taskId == "") = false := by simpa using hid
    have hb : (t.Status != "running") = true := by simpa using hst
    simp only [Stop, hid', hf, withFault, hfirst, hb, Bool.false_eq_true, if_false, if_true]
  · intro s0 now1 now2 f1 f2 h1 h2
    exact Stop_idle _ taskId now2 f2 (Stop_leaves_not_running s0 taskId now1 f1 hid h1 h2)

/-- Witness of C5: `Stop` on the freshly created (pending) example task, and
a second `Stop` after stopping the running example task. -/
theorem Stop_not_running_idempotent_witness :
    (exId ≠ "" ∧ (∃ t, DB.First exCreated.db exId = .ok t ∧ t.Status = "pending")) ∧
    ((Stop exCreated exId exTime {}).1.db = exCreated.db ∧
      (Stop exCreated exId exTime {}).2
        = ⟨400, [("error", .str "task not running"), ("status", .str "pending")]⟩) ∧
    (Stop (Stop exRunning exId exTime {}).1 exId exTime {}).1.db
      = (Stop exRunning exId exTime {}).1.db :=
  have h := Stop_not_running_idempotent exCreated exId exTime {}
    ⟨exId, "nightly", "pending", exTime, exTime⟩ (by decide) rfl (by decide) rfl
  ⟨⟨by decide, ⟨_, rfl, rfl⟩⟩, ⟨h.1.1, h.1.2.2.2⟩, (h.2 exRunning exTime exTime {} {} rfl rfl).1⟩

/-! ## C6: `Stop` of a running task -/

/-- C6, the statement as written fails: the write of the mirror status is
best-effort, so a `Stop` of a running task answers 200 while the mirror still
shows `running` when that write fails. -/
theorem Stop_mirror_counterexample :
    (∃ t, DB.First exRunning.db exId = .ok t ∧ t.Status = "running") ∧
    (Stop exRunning exId exTime { hset := some "dial tcp: connection refused" }).2.code = 200 ∧
    mirrorStatus (Stop exRunning exId exTime { hset := some "dial tcp: connection refused" }).1.redis
      ("task:" ++ exId ++ ":info") = some "running" :=
  ⟨⟨_, rfl, rfl⟩, by decide, by decide⟩

/-- C6 as amended. For every task whose durable status is `running`, a `Stop`
that answers 200 sets the durable status to `stopped`; sets the mirror status
to `stopped` whenever the (best-effort) fast-store write succeeds; cancels the
context of exactly the execution registered under `taskId`, which is nothing
when no handle is registered; and leaves the registry, the rows and info
hashes of every other task, and every other execution as they were. -/
theorem Stop_running_effect (s : Sys) (taskId : String) (now : Time) (f : StopFaults) (t : Task)
    (hfirst : DB.First s.db taskId = .ok t) (hst : t.Status = "running")
    (hsucc : (Stop s taskId now f).2.code = 200) :
    DB.First (Stop s taskId now f).1.db taskId
        = .ok { t with Status := "stopped", UpdatedAt := now } ∧
    (∀ r', withFault f.hset (Redis.HSet s.redis ("task:" ++ taskId ++ ":info")
        [("status", "stopped"), ("updated_at", now.text)]) = .ok r' →
      mirrorStatus (Stop s taskId now f).1.redis ("task:" ++ taskId ++ ":info") = some "stopped") ∧
    ((Stop s taskId now f).1.execs =
      match s.taskCancels.lookup taskId with
      | some run => s.execs.modify (fun e => { e with cancelled := true }) run
      | none => s.execs) ∧
    (s.taskCancels.lookup taskId = none → (Stop s taskId now f).1.execs = s.execs) ∧
    (Stop s taskId now f).1.taskCancels = s.taskCancels ∧
    (∀ id', id' ≠ taskId →
      DB.First (Stop s taskId now f).1.db id' = DB.First s.db id' ∧
      (Stop s taskId now f).1.redis.lookup ("task:" ++ id' ++ ":info")
        = s.redis.lookup ("task:" ++ id' ++ ":info")) ∧
    (∀ i, s.taskCancels.lookup taskId ≠ some i →
      (Stop s taskId now f).1.execs.get? i = s.execs.get? i) := by
  have hid : (taskId == "") = false := by
    cases h : taskId == "" with
    | false => rfl
    | true => simp [Stop, h, errResp] at hsucc
  have hf1 : f.first = none := by
    cases h : f.first with
    | none => rfl
    | some e => simp [Stop, hid, h, withFault, errResp] at hsucc
  have hf2 : f.update = none := by
    cases h : f.update with
    | none => rfl
    | some e => simp [Stop, hid, hf1, h, withFault, hfirst, hst, errResp] at hsucc
  have hc : (fun x : Task => x.ID == taskId && x.Status == "running") t = true := by
    simp [First_ID hfirst, hst]
  have hrows := UpdateStatus_rows_pos
    (fun x : Task => x.ID == taskId && x.Status == "running") "stopped" now hfirst hc
  have hnew := First_UpdateStatus_self
    (fun x : Task => x.ID == taskId && x.Status == "running") "stopped" now hfirst hc
  have hrows' : ((stopUpdate s.db taskId now).2 == 0) = false := by
    simpa [stopUpdate] using hrows
  have hS : (Stop s taskId now f).1 =
      Cancel { s with db := (stopUpdate s.db taskId now).1,
                      redis := bestEffort s.redis (withFault f.hset
                        (Redis.HSet s.redis ("task:" ++ taskId ++ ":info")
                          [("status", "stopped"), ("updated_at", now.text)])) } taskId := by
    simp only [Stop, hid, hf1, hf2, withFault, hfirst, hst, bne_self_eq_false, hrows',
      Bool.false_eq_true, if_false]
  rw [hS]
  refine ⟨?_, ?_, ?_, ?_, ?_, ?_, ?_⟩
  · rw [Cancel_db]; exact hnew
  · intro r' hr'
    rw [Cancel_redis]
    simp only [hr', bestEffort]
    cases hfs : f.hset with
    | some e => simp [hfs, withFault] at hr'
    | none =>
      rw [hfs] at hr'
      exact mirrorStatus_HSet hr'
  · rw [Cancel_execs]
  · intro hnone
    rw [Cancel_execs]
    simp only [hnone]
  · rw [Cancel_taskCancels]
  · intro id' hne
    rw [Cancel_db, Cancel_redis]
    refine ⟨First_UpdateStatus_ne s.db _ "stopped" now (fun x hx => ?_) hne, ?_⟩
    · simp only [Bool.and_eq_true, beq_iff_eq] at hx
      exact hx.1
    · exact lookup_bestEffort_HSet_ne _ _ _ (fun e => hne (infoKey_injective e))
  · intro i hi
    exact Cancel_execs_other _ taskId i hi

/-- Witness of C6 as amended: `Stop` on the running example task. -/
theorem Stop_running_effect_witness :
    ((∃ t, DB.First exRunning.db exId = .ok t ∧ t.Status = "running") ∧
      (Stop exRunning exId exTime {}).2.code = 200) ∧
    DB.First (Stop exRunning exId exTime {}).1.db exId
      = .ok ⟨exId, "nightly", "stopped", exTime, exTime⟩ ∧
    mirrorStatus (Stop exRunning exId exTime {}).1.redis ("task:" ++ exId ++ ":info")
      = some "stopped" ∧
    (Stop exRunning exId exTime {}).1.taskCancels = exRunning.taskCancels :=
  have h := Stop_running_effect exRunning exId exTime {}
    ⟨exId, "nightly", "running", exTime, exTime⟩ rfl rfl (by decide)
  ⟨⟨⟨_, rfl, rfl⟩, by decide⟩, h.1, h.2.1 _ rfl, h.2.2.2.2.1⟩

/-! ## C7: `Delete` of a running task -/

/-- The part of C7 that holds. A `Delete(taskId)` that reads the row of the
task with the status `running` is rejected whatever the stores do, and the
whole system state (durable store, fast store with the physical-delete queue,
cancellation registry, executions) is unchanged; in particular the row keeps
status `running`. -/
theorem Delete_running_rejected (s : Sys) (taskId : String) (now : Time) (f : DeleteFaults)
    (t : Task) (hfirst : DB.First s.db taskId = .ok t) (hst : t.Status = "running") :
    (Delete s taskId now f).1 = s ∧ (Delete s taskId now f).2.code ≠ 200 ∧
      DB.First (Delete s taskId now f).1.db taskId = .ok t := by
  have key : (Delete s taskId now f).1 = s ∧ (Delete s taskId now f).2.code ≠ 200 := by
    unfold Delete
    split
    · exact ⟨rfl, by simp [errResp]⟩
    · cases hf : f.first with
      | some e => simp [withFault, errResp]
      | none => simp [withFault, hfirst, hst, errResp]
  exact ⟨key.1, key.2, by rw [key.1]; exact hfirst⟩

/-- The same at the running example task. -/
theorem Delete_running_rejected_witness :
    (∃ t, DB.First exRunning.db exId = .ok t ∧ t.Status = "running") ∧
    (Delete exRunning exId exTime {}).1 = exRunning ∧
    (Delete exRunning exId exTime {}).2.code ≠ 200 :=
  have h := Delete_running_rejected exRunning exId exTime {}
    ⟨exId, "nightly", "running", exTime, exTime⟩ rfl rfl
  ⟨⟨_, rfl, rfl⟩, h.1, h.2.1⟩

/-- A `Delete` call run alone, its two steps one after the other, is the
handler `Delete`. -/
theorem deleteSteps_eq_Delete (s : Sys) (taskId : String) (now : Time) (f : DeleteFaults) :
    deleteStep (deleteStep s taskId now f .entry).1 taskId now f
        (deleteStep s taskId now f .entry).2
      = ((Delete s taskId now f).1, .done (Delete s taskId now f).2) := by
  by_cases h0 : (taskId == "") = true
  · simp [deleteStep, Delete, h0]
  · cases h1 : withFault f.first (DB.First s.db taskId) with
    | error e => simp [deleteStep, Delete, h0, h1]
    | ok t =>
      by_cases h2 : (t.Status == "running") = true
      · simp [deleteStep, Delete, h0, h1, h2]
      · simp only [deleteStep, Delete, h0, h1, h2, Bool.false_eq_true, if_false]
        cases h3 : withFault f.update
            (.ok (DB.UpdateStatus s.db (fun t => t.ID == taskId) "deleted" now)) with
        | error e => rfl
        | ok p =>
          obtain ⟨db1, n⟩ := p
          simp only
          split <;> rfl

/-- C7, failing input: a `Delete` of the pending example task reads the row and
passes the status test; before its `UPDATE` a `Start` of the task is served
(durable status `running`) and the orchestrator is entered; then the `Delete`
goes on. Its `UPDATE` has no condition on the status: the row goes from
`running` to `deleted`, `Delete` answers 200, and the execution is still
active. The same `Delete` served after the `Start` is rejected with 400. -/
theorem Delete_overtaken_by_Start :
    deleteStep exCreated exId exTime {} .entry = (exCreated, .checked) ∧
    exRunning = reach exCreated [.start exId exTime {}, .runBegin 0 exTime none] ∧
    (Start exCreated exId exTime {}).2.code = 200 ∧
    (DB.First exRunning.db exId).map (fun t => t.Status) = .ok "running" ∧
    activeRuns exRunning exId = [0] ∧
    (DB.First (deleteStep exRunning exId exTime {} .checked).1.db exId).map
      (fun t => t.Status) = .ok "deleted" ∧
    (deleteStep exRunning exId exTime {} .checked).2
      = .done ⟨200, [("message", .str "任务已标记删除（后台正在清理）"), ("taskId", .str exId)]⟩ ∧
    activeRuns (deleteStep exRunning exId exTime {} .checked).1 exId = [0] ∧
    (Delete exRunning exId exTime {}).2.code = 400 :=
  ⟨by decide, rfl, by decide, rfl, by decide, rfl, by decide, by decide, by decide⟩

/-! ## C8: the effect of `Delete` -/

/-- C8. For every existing task whose durable status is not `running`, with
both stores available, after `Delete(taskId)` answered 200: the durable Task
row still exists, with status `deleted`, and the Target rows are untouched;
the four fast-store keys of the task are absent and the identifier does not
occur in `tasks:list`; and the identifier has been appended exactly once to
the end of `task:delete:queue`. -/
theorem Delete_effect (s : Sys) (taskId : String) (now : Time) (t : Task)
    (hfirst : DB.First s.db taskId = .ok t) (hst : t.Status ≠ "running")
    (hsucc : (Delete s taskId now {}).2.code = 200) :
    DB.First (Delete s taskId now {}).1.db taskId
        = .ok { t with Status := "deleted", UpdatedAt := now } ∧
    (Delete s taskId now {}).1.db.targets = s.db.targets ∧
    (∀ k ∈ taskKeys taskId, (Delete s taskId now {}).1.redis.lookup k = none) ∧
    (∀ xs, Redis.LRange (Delete s taskId now {}).1.redis "tasks:list" = .ok xs → taskId ∉ xs) ∧
    (∃ q, Redis.LRange s.redis "task:delete:queue" = .ok q ∧
      Redis.LRange (Delete s taskId now {}).1.redis "task:delete:queue" = .ok (q ++ [taskId])) := by
  have hid : (taskId == "") = false := by
    cases h : taskId == "" with
    | false => rfl
    | true => simp [Delete, h, errResp] at hsucc
  have hst' : (t.Status == "running") = false := by simpa using hst
  have hc : (fun x : Task => x.ID == taskId) t = true := by simp [First_ID hfirst]
  have hnew := First_UpdateStatus_self (fun x : Task => x.ID == taskId) "deleted" now hfirst hc
  have hL := bestEffort_LRem (List.foldl Redis.erase s.redis (taskKeys taskId)) none
    "tasks:list" taskId
  simp only [Delete, hid, withFault, hfirst, hst', Bool.false_eq_true, if_false, Cancel_redis,
    Redis.Del, bestEffort] at hsucc ⊢
  simp only [withFault, bestEffort] at hL
  split at hsucc
  · simp [errResp] at hsucc
  · rename_i r3 hr3
    simp only [hr3]
    have hR := RPush_one_ok none hr3
    refine ⟨?_, ?_, ?_, ?_, ?_⟩
    · rw [Cancel_db]; exact hnew
    · rw [Cancel_db]; rfl
    · intro k hk
      rw [hR.2 k (taskKeys_ne_queue taskId k hk), hL.1 k (taskKeys_ne_list taskId k hk),
        lookup_foldl_erase]
      simp [hk]
    · intro xs hxs
      rw [LRange_congr (hR.2 "tasks:list" (by decide))] at hxs
      exact hL.2 trivial xs hxs
    · obtain ⟨q, hq, hq'⟩ := hR.1
      refine ⟨q, ?_, hq'⟩
      rw [← hq]
      apply Eq.symm
      apply LRange_congr
      rw [hL.1 "task:delete:queue" (by decide), lookup_foldl_erase]
      have : "task:delete:queue" ∉ taskKeys taskId := fun h => taskKeys_ne_queue taskId _ h rfl
      simp [this]

/-- Witness of C8: `Delete` on the freshly created example task. -/
theorem Delete_effect_witness :
    ((∃ t, DB.First exCreated.db exId = .ok t ∧ t.Status = "pending") ∧
      (Delete exCreated exId exTime {}).2.code = 200) ∧
    DB.First (Delete exCreated exId exTime {}).1.db exId
      = .ok ⟨exId, "nightly", "deleted", exTime, exTime⟩ ∧
    (Delete exCreated exId exTime {}).1.db.targets = exCreated.db.targets ∧
    (Delete exCreated exId exTime {}).1.redis = [("task:delete:queue", .list [exId])] :=
  have h := Delete_effect exCreated exId exTime ⟨exId, "nightly", "pending", exTime, exTime⟩
    rfl (by decide) (by decide)
  ⟨⟨⟨_, rfl, rfl⟩, by decide⟩, h.1, h.2.1, by decide⟩

/-! ## C9: the task listing after `Delete` -/

/-- C9, evaluated: right after a successful `Delete` of the example task, and
before any worker step, the task listing still contains the task (with status
`deleted`), because the listing reads every row of `tasks`. -/
theorem TaskList_after_Delete_lists_task :
    (Delete exCreated exId exTime {}).2.code = 200 ∧
    (TaskList (Delete exCreated exId exTime {}).1 {}).code = 200 ∧
    (TaskList (Delete exCreated exId exTime {}).1 {}).tasks
      = [⟨exId, "nightly", "deleted", exTime.text, exTime.text⟩] :=
  ⟨by decide, by decide, by decide⟩

/-! ## C10: the durable outcome of `Create` -/

/-- C10, the statement as written fails: when the fast-store push fails after
the commit, `Create` reports a failure although the Task row and its Target
rows are in the durable store. -/
theorem Create_failure_with_row_counterexample :
    (Create Sys.empty exBytes exReq exTime { rpush := some "dial tcp: connection refused" }).2.code
      = 500 ∧
    DB.First (Create Sys.empty exBytes exReq exTime
        { rpush := some "dial tcp: connection refused" }).1.db exId
      = .ok ⟨exId, "nightly", "pending", exTime, exTime⟩ ∧
    (Create Sys.empty exBytes exReq exTime
        { rpush := some "dial tcp: connection refused" }).1.db.targets
      = [⟨1, exId, "10.0.0.1:8080"⟩, ⟨2, exId, "example.internal"⟩] :=
  ⟨by decide, rfl, by decide⟩

/-- The result of `tx.Commit()` is not looked at in `Create`: when the commit
fails, `Create` goes on to the fast store and answers 200 although no Task row
was stored. -/
theorem Create_commit_unchecked :
    (Create Sys.empty exBytes exReq exTime { commit := some "driver: bad connection" }).2.code
      = 200 ∧
    (Create Sys.empty exBytes exReq exTime
        { commit := some "driver: bad connection" }).1.db.tasks = [] :=
  ⟨by decide, by decide⟩

/-- C10 as amended. With a fresh identifier and leaving aside a failing commit:
`Create` either reports a failure and leaves the rows of the durable store as
they were (so without a Task row or Target rows for the new identifier), or
the durable store contains the Task row with status `pending` together with
exactly one Target row per requested target, whether `Create` then answers 200
or (a fast-store write having failed) 500; whenever the durable transaction
fails at begin or insert, the caller receives a failure and no row is stored. -/
theorem Create_durable_outcome (s : Sys) (b : List (Fin 256)) (req : CreateReq) (now : Time)
    (f : CreateFaults) (hcommit : f.commit = none)
    (hfresh : ∀ x ∈ s.db.tasks, x.ID ≠ generateTaskID b)
    (hfreshT : ∀ x ∈ s.db.targets, x.TaskID ≠ generateTaskID b) :
    (((Create s b req now f).2.code ≠ 200 ∧
        (Create s b req now f).1.db.tasks = s.db.tasks ∧
        (Create s b req now f).1.db.targets = s.db.targets ∧
        (∀ x ∈ (Create s b req now f).1.db.tasks, x.ID ≠ generateTaskID b) ∧
        (∀ x ∈ (Create s b req now f).1.db.targets, x.TaskID ≠ generateTaskID b)) ∨
      (DB.First (Create s b req now f).1.db (generateTaskID b)
          = .ok ⟨generateTaskID b, req.TaskName, "pending", now, now⟩ ∧
        (((Create s b req now f).1.db.targets.filter
            (fun x => x.TaskID == generateTaskID b)).map (fun x => x.Target) = req.Targets) ∧
        ((Create s b req now f).2.code = 200 ∨ (Create s b req now f).2.code = 500))) ∧
    ((f.begin ≠ none ∨ f.create ≠ none ∨ f.batch ≠ none) →
      (Create s b req now f).2.code ≠ 200 ∧
      (Create s b req now f).1.db.tasks = s.db.tasks ∧
      (Create s b req now f).1.db.targets = s.db.targets) := by
  have hins := @insertTask_fresh s.db
    ⟨generateTaskID b, req.TaskName, "pending", now, now⟩ hfresh
  have hF := @First_append_fresh s.db
    ⟨generateTaskID b, req.TaskName, "pending", now, now⟩ hfresh
    (s.db.targets ++ mkTargets s.db.nextTargetID (generateTaskID b) req.Targets)
    (s.db.nextTargetID + req.Targets.length)
  have hT : ((s.db.targets ++ mkTargets s.db.nextTargetID (generateTaskID b) req.Targets).filter
      (fun x => x.TaskID == generateTaskID b)).map (fun x => x.Target) = req.Targets := by
    rw [filter_targets_fresh hfreshT, mkTargets_map]
  have hfail : ∀ (c : Nat) (m : String), c ≠ 200 →
      ((s, errResp c m).2.code ≠ 200 ∧ (s, errResp c m).1.db.tasks = s.db.tasks ∧
        (s, errResp c m).1.db.targets = s.db.targets ∧
        (∀ x ∈ (s, errResp c m).1.db.tasks, x.ID ≠ generateTaskID b) ∧
        (∀ x ∈ (s, errResp c m).1.db.targets, x.TaskID ≠ generateTaskID b)) :=
    fun c m hc => ⟨hc, rfl, rfl, hfresh, hfreshT⟩
  unfold Create
  split
  · exact ⟨Or.inl (hfail 400 _ (by decide)), fun _ => ⟨by simp [errResp], rfl, rfl⟩⟩
  split
  · exact ⟨Or.inl (hfail 400 _ (by decide)), fun _ => ⟨by simp [errResp], rfl, rfl⟩⟩
  cases hb : f.begin with
  | some e =>
    simp only [withFault]
    refine ⟨Or.inl ⟨by simp [errResp], ?_, ?_, hfresh, hfreshT⟩,
      fun _ => ⟨by simp [errResp], ?_, ?_⟩⟩ <;> first | rfl | trivial
  | none =>
  cases hc : f.create with
  | some e =>
    simp only [withFault]
    refine ⟨Or.inl ⟨by simp [errResp], ?_, ?_, hfresh, hfreshT⟩,
      fun _ => ⟨by simp [errResp], ?_, ?_⟩⟩ <;> first | rfl | trivial
  | none =>
  cases hbt : f.batch with
  | some e =>
    simp only [withFault, hins]
    refine ⟨Or.inl ⟨by simp [errResp], ?_, ?_, hfresh, hfreshT⟩,
      fun _ => ⟨by simp [errResp], ?_, ?_⟩⟩ <;> first | rfl | trivial
  | none =>
  simp only [withFault, hins, hcommit, DB.insertTargets]
  refine ⟨Or.inr ?_, fun h => by simp at h⟩
  split
  · exact ⟨hF, hT, Or.inr rfl⟩
  split
  · exact ⟨hF, hT, Or.inr rfl⟩
  split
  · exact ⟨hF, hT, Or.inr rfl⟩
  · exact ⟨hF, hT, Or.inl rfl⟩

/-- Witness of C10 as amended: `Create` on the empty system, once without
faults and once with the insert of the Task row failing. -/
theorem Create_durable_outcome_witness :
    (DB.First (Create Sys.empty exBytes exReq exTime {}).1.db exId
        = .ok ⟨exId, "nightly", "pending", exTime, exTime⟩ ∧
      (Create Sys.empty exBytes exReq exTime {}).2.code = 200) ∧
    ((Create Sys.empty exBytes exReq exTime { create := some "Error 1040: Too many connections" }).2.code
        ≠ 200 ∧
      (Create Sys.empty exBytes exReq exTime
        { create := some "Error 1040: Too many connections" }).1.db.tasks = []) :=
  ⟨⟨rfl, by decide⟩,
    (Create_durable_outcome Sys.empty exBytes exReq exTime
      { create := some "Error 1040: Too many connections" } rfl
      (fun _ h => by cases h) (fun _ h => by cases h)).2 (Or.inr (Or.inl (by simp)))
      |> fun h => ⟨h.1, h.2.1⟩⟩
/-! ## C11: what `Create` reports after the commit -/

/-- C11, the statement as written fails: the transaction has committed (the
row is stored), the write of the info hash fails, and `Create` answers 500. -/
theorem Create_after_commit_counterexample :
    DB.First (Create Sys.empty exBytes exReq exTime
        { hset := some "read tcp: i/o timeout" }).1.db exId
      = .ok ⟨exId, "nightly", "pending", exTime, exTime⟩ ∧
    (Create Sys.empty exBytes exReq exTime { hset := some "read tcp: i/o timeout" }).2
      = errResp 500 "read tcp: i/o timeout" :=
  ⟨rfl, by decide⟩

/-- C11 as amended. Whenever the durable transaction of `Create` has committed,
the Task row and the Target rows of the request are stored and stay stored
whatever becomes of the fast-store writes. The three fast-store writes (target
list push, info hash, task-listing push) are made in this order. When one of
them fails, `Create` answers 500 with the error of that write (prefixed with
`redis push failed: ` for the first), the writes made before it are kept and
the later ones are not made; when all three succeed, the fast store is the
result of the third and `Create` answers 200. So `Create` answers 200 exactly
when all three succeed. -/
theorem Create_reports_mirror_failure (s : Sys) (b : List (Fin 256)) (req : CreateReq)
    (now : Time) (f : CreateFaults) (hT : req.Targets ≠ []) (hN : TrimSpace req.TaskName ≠ "")
    (hb : f.begin = none) (hc : f.create = none) (hbt : f.batch = none) (hcm : f.commit = none)
    (hfresh : ∀ x ∈ s.db.tasks, x.ID ≠ generateTaskID b) :
    (Create s b req now f).1.db.tasks
        = s.db.tasks ++ [⟨generateTaskID b, req.TaskName, "pending", now, now⟩] ∧
    (Create s b req now f).1.db.targets
        = s.db.targets ++ mkTargets s.db.nextTargetID (generateTaskID b) req.Targets ∧
    DB.First (Create s b req now f).1.db (generateTaskID b)
        = .ok ⟨generateTaskID b, req.TaskName, "pending", now, now⟩ ∧
    (∀ e, withFault f.rpush (Redis.RPush s.redis ("task:" ++ generateTaskID b ++ ":targets")
          req.Targets) = .error e →
      (Create s b req now f).1.redis = s.redis ∧
      (Create s b req now f).2 = errResp 500 ("redis push failed: " ++ e)) ∧
    (∀ r1, withFault f.rpush (Redis.RPush s.redis ("task:" ++ generateTaskID b ++ ":targets")
          req.Targets) = .ok r1 →
      (∀ e, withFault f.hset (Redis.HSet r1 ("task:" ++ generateTaskID b ++ ":info")
            [("taskId", generateTaskID b), ("taskName", req.TaskName),
              ("created_at", now.text), ("updated_at", now.text), ("status", "pending")])
            = .error e →
        (Create s b req now f).1.redis = r1 ∧ (Create s b req now f).2 = errResp 500 e) ∧
      (∀ r2, withFault f.hset (Redis.HSet r1 ("task:" ++ generateTaskID b ++ ":info")
            [("taskId", generateTaskID b), ("taskName", req.TaskName),
              ("created_at", now.text), ("updated_at", now.text), ("status", "pending")])
            = .ok r2 →
        (∀ e, withFault f.listPush (Redis.RPush r2 "tasks:list" [generateTaskID b]) = .error e →
          (Create s b req now f).1.redis = r2 ∧ (Create s b req now f).2 = errResp 500 e) ∧
        (∀ r3, withFault f.listPush (Redis.RPush r2 "tasks:list" [generateTaskID b]) = .ok r3 →
          (Create s b req now f).1.redis = r3 ∧ (Create s b req now f).2.code = 200))) ∧
    ((Create s b req now f).2.code = 200 ↔
      ∃ r1 r2 r3,
        withFault f.rpush (Redis.RPush s.redis ("task:" ++ generateTaskID b ++ ":targets")
          req.Targets) = .ok r1 ∧
        withFault f.hset (Redis.HSet r1 ("task:" ++ generateTaskID b ++ ":info")
          [("taskId", generateTaskID b), ("taskName", req.TaskName), ("created_at", now.text),
            ("updated_at", now.text), ("status", "pending")]) = .ok r2 ∧
        withFault f.listPush (Redis.RPush r2 "tasks:list" [generateTaskID b]) = .ok r3) ∧
    ((f.rpush ≠ none ∨ f.hset ≠ none ∨ f.listPush ≠ none) →
      (Create s b req now f).2.code = 500) := by
  have hins := @insertTask_fresh s.db
    ⟨generateTaskID b, req.TaskName, "pending", now, now⟩ hfresh
  have hF := @First_append_fresh s.db
    ⟨generateTaskID b, req.TaskName, "pending", now, now⟩ hfresh
    (s.db.targets ++ mkTargets s.db.nextTargetID (generateTaskID b) req.Targets)
    (s.db.nextTargetID + req.Targets.length)
  have hlen : (req.Targets.length == 0) = false := by
    cases hq : req.Targets with
    | nil => exact absurd hq hT
    | cons a l => rfl
  have hname : (TrimSpace req.TaskName == "") = false := by simpa using hN
  simp only [Create, hlen, hname, hb, hc, hbt, hcm, withFault_none, hins, DB.insertTargets,
    Bool.false_eq_true, if_false]
  cases h1 : withFault f.rpush (Redis.RPush s.redis ("task:" ++ generateTaskID b ++ ":targets")
      req.Targets) with
  | error e1 =>
    dsimp only
    refine ⟨rfl, rfl, hF, ?_, ?_, ?_, ?_⟩
    · intro e he
      injection he with he
      subst he
      exact ⟨rfl, rfl⟩
    · intro r1 he
      cases he
    · exact ⟨fun h => by simp [errResp] at h, fun ⟨_, _, _, h, _⟩ => by cases h⟩
    · intro _
      rfl
  | ok r1 =>
    dsimp only
    have hr : f.rpush = none := by
      cases hf : f.rpush with
      | none => rfl
      | some e => simp [hf, withFault] at h1
    cases h2 : withFault f.hset (Redis.HSet r1 ("task:" ++ generateTaskID b ++ ":info")
        [("taskId", generateTaskID b), ("taskName", req.TaskName), ("created_at", now.text),
          ("updated_at", now.text), ("status", "pending")]) with
    | error e2 =>
      dsimp only
      refine ⟨rfl, rfl, hF, ?_, ?_, ?_, ?_⟩
      · intro e he
        cases he
      · intro r1' he
        injection he with he
        subst he
        refine ⟨?_, ?_⟩
        · intro e he2
          rw [h2] at he2
          injection he2 with he2
          subst he2
          exact ⟨rfl, rfl⟩
        · intro r2 he2
          rw [h2] at he2
          cases he2
      · refine ⟨fun h => by simp [errResp] at h, fun ⟨_, _, _, h, h', _⟩ => ?_⟩
        injection h with h
        subst h
        rw [h2] at h'
        cases h'
      · intro _
        rfl
    | ok r2 =>
      dsimp only
      have hh : f.hset = none := by
        cases hf : f.hset with
        | none => rfl
        | some e => simp [hf, withFault] at h2
      cases h3 : withFault f.listPush (Redis.RPush r2 "tasks:list" [generateTaskID b]) with
      | error e3 =>
        dsimp only
        refine ⟨rfl, rfl, hF, ?_, ?_, ?_, ?_⟩
        · intro e he
          cases he
        · intro r1' he
          injection he with he
          subst he
          refine ⟨?_, ?_⟩
          · intro e he2
            rw [h2] at he2
            cases he2
          · intro r2' he2
            rw [h2] at he2
            injection he2 with he2
            subst he2
            refine ⟨?_, ?_⟩
            · intro e he3
              rw [h3] at he3
              injection he3 with he3
              subst he3
              exact ⟨rfl, rfl⟩
            · intro r3 he3
              rw [h3] at he3
              cases he3
        · refine ⟨fun h => by simp [errResp] at h, fun ⟨_, _, _, h, h', h''⟩ => ?_⟩
          injection h with h
          subst h
          rw [h2] at h'
          injection h' with h'
          subst h'
          rw [h3] at h''
          cases h''
        · intro _
          rfl
      | ok r3 =>
        dsimp only
        have hl : f.listPush = none := by
          cases hf : f.listPush with
          | none => rfl
          | some e => simp [hf, withFault] at h3
        refine ⟨rfl, rfl, hF, ?_, ?_, ?_, ?_⟩
        · intro e he
          cases he
        · intro r1' he
          injection he with he
          subst he
          refine ⟨?_, ?_⟩
          · intro e he2
            rw [h2] at he2
            cases he2
          · intro r2' he2
            rw [h2] at he2
            injection he2 with he2
            subst he2
            refine ⟨?_, ?_⟩
            · intro e he3
              rw [h3] at he3
              cases he3
            · intro r3' he3
              rw [h3] at he3
              injection he3 with he3
              subst he3
              exact ⟨rfl, rfl⟩
        · exact ⟨fun _ => ⟨r1, r2, r3, rfl, h2, h3⟩, fun _ => rfl⟩
        · intro h
          simp [hr, hh, hl] at h

/-- Witness of C11 as amended: `Create` on the empty system with the
task-listing push failing. The two rows of the targets are stored, the target
list and the info hash written before are kept, and the answer is 500. -/
theorem Create_reports_mirror_failure_witness :
    (Create Sys.empty exBytes exReq exTime
      { listPush := some "dial tcp: connection refused" }).1.db.targets
      = Sys.empty.db.targets ++
          mkTargets Sys.empty.db.nextTargetID (generateTaskID exBytes) exReq.Targets ∧
    (Create Sys.empty exBytes exReq exTime { listPush := some "dial tcp: connection refused" }).2.code
      = 500 ∧
    Redis.LRange (Create Sys.empty exBytes exReq exTime
      { listPush := some "dial tcp: connection refused" }).1.redis ("task:" ++ exId ++ ":targets")
      = .ok ["10.0.0.1:8080", "example.internal"] ∧
    ((Create Sys.empty exBytes exReq exTime
      { listPush := some "dial tcp: connection refused" }).1.redis.lookup
        ("task:" ++ exId ++ ":info")).isSome = true :=
  have h := Create_reports_mirror_failure Sys.empty exBytes exReq exTime
    { listPush := some "dial tcp: connection refused" } (by decide) (by decide) rfl rfl rfl rfl
    (fun _ h => by cases h)
  ⟨h.2.1, h.2.2.2.2.2.2 (Or.inr (Or.inr (by simp))), rfl, by decide⟩

/-! ## C12: `AddTargets` -/

theorem First_insertTargets (db : DB) (taskId id : String) (targets : List String) :
    DB.First (DB.insertTargets db id targets) taskId = DB.First db taskId := rfl

/-- C12, the statement as written fails: with the fast store down both the
enqueue and the push onto the compensation queue fail; `Add` answers 202 and
no entry is left on `task:sync:targets:queue`. -/
theorem Add_no_queue_entry_counterexample :
    (Add exCreated ⟨["c.example"], exId⟩ exTime
      { rpush := some "dial tcp: connection refused",
        queuePush := some "dial tcp: connection refused" }).2.code = 202 ∧
    (Add exCreated ⟨["c.example"], exId⟩ exTime
      { rpush := some "dial tcp: connection refused",
        queuePush := some "dial tcp: connection refused" }).1.redis.lookup
        "task:sync:targets:queue" = none ∧
    (Add exCreated ⟨["c.example"], exId⟩ exTime
      { rpush := some "dial tcp: connection refused",
        queuePush := some "dial tcp: connection refused" }).1.db.targets.map (fun t => t.Target)
      = ["10.0.0.1:8080", "example.internal", "c.example"] :=
  ⟨by decide, by decide, by decide⟩

/-- C12 as amended. For every `Add` call with a non-empty target list and a task
identifier: if the durable batch insert fails, the call fails (500) and nothing
is changed; if the insert succeeds and the fast-store enqueue fails, the
inserted Target rows remain, the caller receives the partial-success response
(202), the task's durable status becomes `pending_sync` when the best-effort
status update succeeds (and stays as it was when it fails), and the task
identifier is appended to `task:sync:targets:queue` when the best-effort push
succeeds (the fast store being left unchanged when it fails). -/
theorem Add_failure_paths (s : Sys) (req : AddReq) (now : Time) (f : AddFaults)
    (hT : req.Targets ≠ []) (hid : req.TaskId ≠ "") :
    (∀ e, f.insert = some e →
      (Add s req now f).1 = s ∧
      (Add s req now f).2 = errResp 500 ("db insert targets failed: " ++ e)) ∧
    (f.insert = none →
      ∀ e, withFault f.rpush (Redis.RPush s.redis (GetTaskTargetsKey req.TaskId) req.Targets)
          = .error e →
        (Add s req now f).1.db.targets
          = s.db.targets ++ mkTargets s.db.nextTargetID req.TaskId req.Targets ∧
        (Add s req now f).2.code = 202 ∧
        (f.update = none → ∀ t, DB.First s.db req.TaskId = .ok t →
          DB.First (Add s req now f).1.db req.TaskId
            = .ok { t with Status := "pending_sync", UpdatedAt := now }) ∧
        (f.update ≠ none → (Add s req now f).1.db.tasks = s.db.tasks) ∧
        (∀ r', withFault f.queuePush (Redis.RPush s.redis "task:sync:targets:queue" [req.TaskId])
            = .ok r' →
          ∃ q, Redis.LRange s.redis "task:sync:targets:queue" = .ok q ∧
            Redis.LRange (Add s req now f).1.redis "task:sync:targets:queue"
              = .ok (q ++ [req.TaskId])) ∧
        (∀ e', withFault f.queuePush (Redis.RPush s.redis "task:sync:targets:queue" [req.TaskId])
            = .error e' →
          (Add s req now f).1.redis = s.redis)) := by
  have hlen : (req.Targets.length == 0) = false := by
    cases hq : req.Targets with
    | nil => exact absurd hq hT
    | cons a l => rfl
  have hid' : (req.TaskId == "") = false := by simpa using hid
  constructor
  · intro e he
    simp only [Add, hlen, hid', he, withFault, Bool.false_eq_true, if_false]
    exact ⟨trivial, trivial⟩
  · intro hi e he
    simp only [Add, hlen, hid', hi, withFault, Bool.false_eq_true, if_false]
    simp only [withFault] at he
    simp only [he]
    refine ⟨?_, trivial, ?_, ?_, ?_, ?_⟩
    · cases hu : f.update <;> rfl
    · intro hu t ht
      simp only [hu, bestEffortDB]
      exact First_UpdateStatus_self (fun x : Task => x.ID == req.TaskId) "pending_sync" now
        (by rw [First_insertTargets]; exact ht) (by simp [First_ID ht])
    · intro hu
      cases hu' : f.update with
      | none => exact absurd hu' hu
      | some e' => rfl
    · intro r' hr'
      simp only [hr', bestEffort]
      exact (RPush_one_ok f.queuePush hr').1
    · intro e' he'
      simp only [he', bestEffort]

/-- Witness of C12 as amended: the enqueue of `Add` fails on the example task
while the compensation push succeeds. -/
theorem Add_failure_paths_witness :
    (Add exCreated ⟨["c.example"], exId⟩ exTime { rpush := some "i/o timeout" }).2.code = 202 ∧
    DB.First (Add exCreated ⟨["c.example"], exId⟩ exTime { rpush := some "i/o timeout" }).1.db exId
      = .ok ⟨exId, "nightly", "pending_sync", exTime, exTime⟩ :=
  have h := (Add_failure_paths exCreated ⟨["c.example"], exId⟩ exTime
    { rpush := some "i/o timeout" } (by decide) (by decide)).2 rfl "i/o timeout" rfl
  ⟨h.2.1, h.2.2.1 rfl ⟨exId, "nightly", "pending", exTime, exTime⟩ rfl⟩
/-! ## C13: the target compensator -/

/-- A successful `RPUSH key v1 v2 ...`: the list under the key grows by the
values at its end, and no other key changes. -/
theorem RPush_ok {r r' : Redis} {k : String} {vs : List String}
    (h : Redis.RPush r k vs = .ok r') :
    (∃ q, Redis.LRange r k = .ok q ∧ r'.lookup k = some (.list (q ++ vs))) ∧
    (∀ k', k' ≠ k → r'.lookup k' = r.lookup k') := by
  unfold Redis.RPush at h
  split at h
  · cases h
  · cases hl : r.lookup k with
    | none =>
      simp only [hl] at h
      injection h with h
      subst h
      exact ⟨⟨[], by simp [Redis.LRange, hl], by simp [lookup_put_self]⟩,
        fun k' hk' => lookup_put_ne r _ hk'⟩
    | some val =>
      cases val with
      | str x => simp [hl] at h
      | hash x => simp [hl] at h
      | list ys =>
        simp only [hl] at h
        injection h with h
        subst h
        exact ⟨⟨ys, by simp [Redis.LRange, hl], by simp [lookup_put_self]⟩,
          fun k' hk' => lookup_put_ne r _ hk'⟩

/-- An `RPUSH` of values onto a key that `LRANGE` can read succeeds. -/
theorem RPush_of_LRange {r : Redis} {k : String} {q vs : List String} (hvs : vs ≠ [])
    (h : Redis.LRange r k = .ok q) : ∃ r', Redis.RPush r k vs = .ok r' := by
  unfold Redis.RPush
  have : vs.isEmpty = false := by cases vs with
    | nil => exact absurd rfl hvs
    | cons a l => rfl
  simp only [this, Bool.false_eq_true, if_false]
  unfold Redis.LRange at h
  cases hl : r.lookup k with
  | none => exact ⟨_, rfl⟩
  | some val =>
    cases val with
    | str x => simp [hl] at h
    | hash x => simp [hl] at h
    | list ys => exact ⟨_, rfl⟩

theorem targetsKey_ne_syncQueue (taskId : String) :
    GetTaskTargetsKey taskId ≠ "task:sync:targets:queue" :=
  key_ne_of_last (by decide) (by decide)

/-- A `BLPOP` on a non-empty list takes its first element and changes no other
key. -/
theorem BLPop_cons {r : Redis} {k x : String} {xs : List String}
    (h : r.lookup k = some (.list (x :: xs))) :
    ∃ r0, Redis.BLPop r k = .ok (r0, some x) ∧ Redis.LRange r0 k = .ok xs ∧
      (xs ≠ [] → r0.lookup k = some (.list xs)) ∧ (∀ k', k' ≠ k → r0.lookup k' = r.lookup k') := by
  unfold Redis.BLPop
  simp only [h]
  cases xs with
  | nil =>
    refine ⟨_, rfl, ?_, fun h => absurd rfl h, fun k' hk' => ?_⟩
    · simp [Redis.LRange, lookup_erase_self]
    · simp [lookup_erase_ne r hk']
  | cons y ys =>
    refine ⟨_, rfl, ?_, fun _ => ?_, fun k' hk' => ?_⟩
    · simp [Redis.LRange, lookup_put_self]
    · simp [lookup_put_self]
    · simp [lookup_put_ne r _ hk']

/-- C13, the statement as written fails: the compensator pushes the durable
targets behind what the list already holds. After an `Add` whose enqueue
failed, the list of the example task holds its two old targets; one round of
the compensator leaves five entries, the two old ones twice. -/
theorem compensator_duplicates_counterexample :
    Redis.LRange (reach exCreated
        [.add ⟨["c.example"], exId⟩ exTime { rpush := some "i/o timeout" },
         .compensate exTime {}]).redis (GetTaskTargetsKey exId)
      = .ok ["10.0.0.1:8080", "example.internal", "10.0.0.1:8080", "example.internal",
          "c.example"] ∧
    (DB.FindTargets (reach exCreated
        [.add ⟨["c.example"], exId⟩ exTime { rpush := some "i/o timeout" },
         .compensate exTime {}]).db exId).map (fun t => t.Target)
      = ["10.0.0.1:8080", "example.internal", "c.example"] :=
  ⟨rfl, by decide⟩

/-- C13 as amended. When the target compensator processes a queued task
identifier with both stores available, and the task has durable Target rows,
the identifier is taken off the queue, the durable rows are untouched, and the
task's fast-store target list is what it held before followed by the target
strings of the durable rows, each row once in row order. So the list holds
exactly the durable targets when it was empty before; and processing the same
identifier a second time appends the rows a second time. -/
theorem compensator_appends (s : Sys) (now : Time) (taskId : String) (rest old : List String)
    (hq : s.redis.lookup "task:sync:targets:queue" = some (.list (taskId :: rest)))
    (hold : Redis.LRange s.redis (GetTaskTargetsKey taskId) = .ok old)
    (hrows : DB.FindTargets s.db taskId ≠ []) :
    Redis.LRange (compensatorStep s now {}).redis (GetTaskTargetsKey taskId)
      = .ok (old ++ (DB.FindTargets s.db taskId).map (fun t => t.Target)) ∧
    Redis.LRange (compensatorStep s now {}).redis "task:sync:targets:queue" = .ok rest ∧
    (compensatorStep s now {}).db.targets = s.db.targets ∧
    (old = [] →
      Redis.LRange (compensatorStep s now {}).redis (GetTaskTargetsKey taskId)
        = .ok ((DB.FindTargets s.db taskId).map (fun t => t.Target))) ∧
    (∀ rest', rest = taskId :: rest' →
      Redis.LRange (compensatorStep (compensatorStep s now {}) now {}).redis
          (GetTaskTargetsKey taskId)
        = .ok (old ++ (DB.FindTargets s.db taskId).map (fun t => t.Target)
            ++ (DB.FindTargets s.db taskId).map (fun t => t.Target))) := by
  have main : ∀ (s : Sys) (rest old : List String),
      s.redis.lookup "task:sync:targets:queue" = some (.list (taskId :: rest)) →
      Redis.LRange s.redis (GetTaskTargetsKey taskId) = .ok old →
      DB.FindTargets s.db taskId ≠ [] →
      Redis.LRange (compensatorStep s now {}).redis (GetTaskTargetsKey taskId)
        = .ok (old ++ (DB.FindTargets s.db taskId).map (fun t => t.Target)) ∧
      Redis.LRange (compensatorStep s now {}).redis "task:sync:targets:queue" = .ok rest ∧
      (rest ≠ [] → (compensatorStep s now {}).redis.lookup "task:sync:targets:queue"
        = some (.list rest)) ∧
      (compensatorStep s now {}).db.targets = s.db.targets := by
    intro s rest old hq hold hrows
    obtain ⟨r0, hpop, hr0q, hr0q', hr0⟩ := BLPop_cons hq
    have hkey := targetsKey_ne_syncQueue taskId
    have hold0 : Redis.LRange r0 (GetTaskTargetsKey taskId) = .ok old := by
      rw [← hold]; exact LRange_congr (hr0 _ hkey)
    have hne : (DB.FindTargets s.db taskId).map (fun t => t.Target) ≠ [] := by
      simpa using hrows
    obtain ⟨r1, hpush⟩ := RPush_of_LRange hne hold0
    obtain ⟨⟨q, hq1, hq2⟩, hr1⟩ := RPush_ok hpush
    have hqold : q = old := by
      rw [hold0] at hq1; injection hq1 with h; exact h.symm
    subst hqold
    have hlen : ((DB.FindTargets s.db taskId).length == 0) = false := by
      cases h : DB.FindTargets s.db taskId with
      | nil => exact absurd h hrows
      | cons a l => rfl
    have hstep : compensatorStep s now {} =
        { s with redis := r1,
                 db := (DB.UpdateStatus s.db (fun t => t.ID == taskId) "pending" now).1 } := by
      simp only [compensatorStep, withFault_none, hpop, hlen, Bool.false_eq_true, if_false,
        hpush, bestEffortDB]
    rw [hstep]
    refine ⟨?_, ?_, ?_, rfl⟩
    · simp [Redis.LRange, hq2]
    · rw [← hr0q]; exact LRange_congr (hr1 _ (Ne.symm hkey))
    · intro h; show r1.lookup _ = _; rw [hr1 _ (Ne.symm hkey)]; exact hr0q' h
  obtain ⟨h1, h2, h3, h4⟩ := main s rest old hq hold hrows
  refine ⟨h1, h2, h4, fun h => by rw [h1, h]; rfl, ?_⟩
  intro rest' hrest
  have hrows' : DB.FindTargets (compensatorStep s now {}).db taskId = DB.FindTargets s.db taskId := by
    unfold DB.FindTargets; rw [h4]
  have hq' := h3 (by rw [hrest]; exact List.cons_ne_nil _ _)
  rw [hrest] at hq'
  have := (main (compensatorStep s now {}) rest' _ hq' h1 (by rw [hrows']; exact hrows)).1
  rw [hrows'] at this
  exact this

theorem compensator_appends_witness :
    Redis.LRange (compensatorStep (reach exCreated
        [.add ⟨["c.example"], exId⟩ exTime { rpush := some "i/o timeout" }]) exTime {}).redis
        (GetTaskTargetsKey exId)
      = .ok (["10.0.0.1:8080", "example.internal"] ++ (DB.FindTargets (reach exCreated
        [.add ⟨["c.example"], exId⟩ exTime { rpush := some "i/o timeout" }]).db exId).map
          (fun t => t.Target)) :=
  (compensator_appends (reach exCreated
        [.add ⟨["c.example"], exId⟩ exTime { rpush := some "i/o timeout" }]) exTime exId []
      ["10.0.0.1:8080", "example.internal"] rfl rfl (by decide)).1
/-! ## C14: which failures leave a repair entry -/

theorem repairEntries_congr {r r' : Redis} (h : ∀ k ∈ repairKeys, r'.lookup k = r.lookup k) :
    repairEntries r' = repairEntries r :=
  List.map_congr_left h

theorem lockKey_not_repair (id : String) : ∀ k ∈ repairKeys, k ≠ "task:lock:" ++ id := by
  intro k hk e
  have h1 := congrArg (fun x : String => x.data.take 6) e
  simp only [repairKeys, List.mem_cons, List.mem_singleton, List.not_mem_nil, or_false] at hk
  rcases hk with rfl | rfl | rfl | rfl | rfl | rfl <;> simp at h1

theorem taskKey_not_repair (id sfx : String) (hs : sfx.data ≠ [])
    (h1 : sfx.data.getLast? ≠ some 'e') (h2 : sfx.data.getLast? ≠ some 'd') :
    ∀ k ∈ repairKeys, k ≠ "task:" ++ id ++ sfx := by
  intro k hk e
  simp only [repairKeys, List.mem_cons, List.mem_singleton, List.not_mem_nil, or_false] at hk
  rcases hk with rfl | rfl | rfl | rfl | rfl | rfl
  all_goals first
    | exact key_ne_of_last hs (by simpa using h1) e.symm
    | exact key_ne_of_last hs (by simpa using h2) e.symm

theorem tasksList_not_repair : ∀ k ∈ repairKeys, k ≠ "tasks:list" := by decide

/-- A lock attempt touches no other key. -/
theorem lookup_SetNX_ne {r r1 : Redis} {k k' v : String} {b : Bool} (flt : Option String)
    (h : withFault flt (Redis.SetNX r k v) = .ok (r1, b)) (hne : k' ≠ k) :
    r1.lookup k' = r.lookup k' := by
  cases flt with
  | some e => cases h
  | none =>
    simp only [withFault, Redis.SetNX] at h
    split at h
    · injection h with h; injection h with h h'; subst h; exact lookup_put_ne _ _ hne
    · injection h with h; injection h with h h'; subst h; rfl

/-- A lock release touches no other key. -/
theorem lookup_releaseLock_ne (flt : Option String) (r : Redis) {k k' : String} (hne : k' ≠ k) :
    (releaseLock flt r k).lookup k' = r.lookup k' := by
  cases flt with
  | some e => rfl
  | none =>
    simp only [releaseLock, withFault, Redis.Del, bestEffort, List.foldl]
    exact lookup_erase_ne r hne

/-- A successful push touches no other key. -/
theorem lookup_RPush_ne {r r' : Redis} {k k' : String} {vs : List String} (flt : Option String)
    (h : withFault flt (Redis.RPush r k vs) = .ok r') (hne : k' ≠ k) :
    r'.lookup k' = r.lookup k' := by
  cases flt with
  | some e => cases h
  | none => exact (RPush_ok h).2 k' hne

/-- A successful hash write under a fault pattern touches no other key. -/
theorem lookup_HSet_fault_ne {r r' : Redis} {k k' : String} {fvs : List (String × String)}
    (flt : Option String) (h : withFault flt (Redis.HSet r k fvs) = .ok r') (hne : k' ≠ k) :
    r'.lookup k' = r.lookup k' := by
  cases flt with
  | some e => cases h
  | none => exact lookup_HSet_ne h hne

/-- A best-effort `DEL` touches no key outside its arguments. -/
theorem lookup_bestEffort_Del_ne (flt : Option String) (r : Redis) (ks : List String) {k' : String}
    (hne : k' ∉ ks) : (bestEffort r (withFault flt (Redis.Del r ks))).lookup k' = r.lookup k' := by
  cases flt with
  | some e => rfl
  | none =>
    simp only [withFault, Redis.Del, bestEffort]
    rw [lookup_foldl_erase]
    simp [hne]

theorem Create_repairEntries (s : Sys) (b : List (Fin 256)) (req : CreateReq) (now : Time)
    (f : CreateFaults) : repairEntries (Create s b req now f).1.redis = repairEntries s.redis := by
  apply repairEntries_congr
  intro k hk
  have k1 := taskKey_not_repair (generateTaskID b) ":targets" (by decide) (by decide) (by decide) k hk
  have k2 := taskKey_not_repair (generateTaskID b) ":info" (by decide) (by decide) (by decide) k hk
  have k3 := tasksList_not_repair k hk
  simp only [Create]
  by_cases h0 : (req.Targets.length == 0) = true
  · simp only [h0, if_true, if_false, Bool.false_eq_true]
  simp only [h0, if_false, Bool.false_eq_true]
  by_cases h0' : (TrimSpace req.TaskName == "") = true
  · simp only [h0', if_true, if_false, Bool.false_eq_true]
  simp only [h0', if_false, Bool.false_eq_true]
  cases hb : withFault f.begin (withFault f.create
      (DB.insertTask s.db ⟨generateTaskID b, req.TaskName, "pending", now, now⟩)) with
  | error e => rfl
  | ok tx1 =>
  dsimp only
  cases hbt : withFault f.batch (.ok (DB.insertTargets tx1 (generateTaskID b) req.Targets)) with
  | error e => rfl
  | ok tx2 =>
  dsimp only
  cases h1 : withFault f.rpush (Redis.RPush s.redis ("task:" ++ generateTaskID b ++ ":targets")
      req.Targets) with
  | error e => rfl
  | ok r1 =>
  dsimp only
  have e1 : r1.lookup k = s.redis.lookup k := lookup_RPush_ne _ h1 k1
  cases h2 : withFault f.hset (Redis.HSet r1 ("task:" ++ generateTaskID b ++ ":info")
      [("taskId", generateTaskID b), ("taskName", req.TaskName), ("created_at", now.text),
        ("updated_at", now.text), ("status", "pending")]) with
  | error e => exact e1
  | ok r2 =>
  dsimp only
  have e2 : r2.lookup k = s.redis.lookup k := (lookup_HSet_fault_ne _ h2 k2).trans e1
  cases h3 : withFault f.listPush (Redis.RPush r2 "tasks:list" [generateTaskID b]) with
  | error e => exact e2
  | ok r3 => exact (lookup_RPush_ne _ h3 k3).trans e2

theorem Start_repairEntries (s : Sys) (taskId : String) (now : Time) (f : StartFaults) :
    repairEntries (Start s taskId now f).1.redis = repairEntries s.redis := by
  apply repairEntries_congr
  intro k hk
  have k1 := lockKey_not_repair taskId k hk
  have k2 := taskKey_not_repair taskId ":info" (by decide) (by decide) (by decide) k hk
  simp only [Start]
  by_cases h0 : (taskId == "") = true
  · simp only [h0, if_true, if_false, Bool.false_eq_true]
  simp only [h0, if_false, Bool.false_eq_true]
  cases hl : withFault f.lrange (Redis.LRange s.redis ("task:" ++ taskId ++ ":targets")) with
  | error e => rfl
  | ok targets =>
  dsimp only
  by_cases h1 : (targets.length == 0) = true
  · simp only [h1, if_true, if_false, Bool.false_eq_true]
  simp only [h1, if_false, Bool.false_eq_true]
  cases hs : withFault f.setnx (Redis.SetNX s.redis ("task:lock:" ++ taskId) "1") with
  | error e => rfl
  | ok p =>
  obtain ⟨r1, acquired⟩ := p
  dsimp only
  have e1 : r1.lookup k = s.redis.lookup k := lookup_SetNX_ne _ hs k1
  cases acquired with
  | false => exact e1
  | true =>
  simp only [Bool.not_true, Bool.false_eq_true, if_false]
  cases hu : withFault f.update (Except.ok (startUpdate s.db taskId now)) with
  | error e => exact (lookup_releaseLock_ne _ _ k1).trans e1
  | ok q =>
  obtain ⟨db1, rows⟩ := q
  dsimp only
  by_cases h2 : (rows == 0) = true
  · simp only [h2, if_true, if_false, Bool.false_eq_true]
    exact (lookup_releaseLock_ne _ _ k1).trans e1
  simp only [h2, if_false, Bool.false_eq_true]
  exact (lookup_releaseLock_ne _ _ k1).trans
    ((lookup_bestEffort_HSet_ne _ _ _ k2).trans ((lookup_releaseLock_ne _ _ k1).trans e1))

theorem Stop_repairEntries (s : Sys) (taskId : String) (now : Time) (f : StopFaults) :
    repairEntries (Stop s taskId now f).1.redis = repairEntries s.redis := by
  apply repairEntries_congr
  intro k hk
  have k2 := taskKey_not_repair taskId ":info" (by decide) (by decide) (by decide) k hk
  simp only [Stop]
  by_cases h0 : (taskId == "") = true
  · simp only [h0, if_true, if_false, Bool.false_eq_true]
  simp only [h0, if_false, Bool.false_eq_true]
  cases hf : withFault f.first (DB.First s.db taskId) with
  | error e => rfl
  | ok t =>
  dsimp only
  by_cases h1 : (t.Status != "running") = true
  · simp only [h1, if_true, if_false, Bool.false_eq_true]
    exact lookup_bestEffort_HSet_ne _ _ _ k2
  simp only [h1, if_false, Bool.false_eq_true]
  cases hu : withFault f.update (Except.ok (stopUpdate s.db taskId now)) with
  | error e => rfl
  | ok q =>
  obtain ⟨db1, rows⟩ := q
  dsimp only
  by_cases h2 : (rows == 0) = true
  · simp only [h2, if_true, if_false, Bool.false_eq_true]
  simp only [h2, if_false, Bool.false_eq_true]
  rw [Cancel_redis]
  exact lookup_bestEffort_HSet_ne _ _ _ k2

/-- C14, the statement as written fails: `Start` on the example task with the
mirror write failing answers 200, the durable status is `running`, the mirror
still shows `pending`, and none of the compensation or dead-letter keys holds
anything. -/
theorem Start_silent_divergence_counterexample :
    (Start exCreated exId exTime { hset := some "i/o timeout" }).2.code = 200 ∧
    (DB.First (Start exCreated exId exTime { hset := some "i/o timeout" }).1.db exId).map
      (fun t => t.Status) = .ok "running" ∧
    mirrorStatus (Start exCreated exId exTime { hset := some "i/o timeout" }).1.redis
      ("task:" ++ exId ++ ":info") = some "pending" ∧
    repairEntries (Start exCreated exId exTime { hset := some "i/o timeout" }).1.redis
      = [none, none, none, none, none, none] :=
  ⟨by decide, rfl, by decide, by decide⟩

/-- C14 as amended. `Create`, `Start` and `Stop` never write a
compensation-queue or dead-letter key: whatever the inputs and whichever store
calls fail, the six repair keys hold after the call what they held before.
`AddTargets` leaves the task identifier at the end of the compensation queue
when its enqueue failed after the durable insert and the follow-up push to the
compensation queue succeeded. `Delete`, when it answers 200, has appended the
task identifier to the delete queue, whether or not its key deletion and list
removal succeeded. -/
theorem repair_entry_policy (s : Sys) :
    (∀ b req now f, repairEntries (Create s b req now f).1.redis = repairEntries s.redis) ∧
    (∀ taskId now f, repairEntries (Start s taskId now f).1.redis = repairEntries s.redis) ∧
    (∀ taskId now f, repairEntries (Stop s taskId now f).1.redis = repairEntries s.redis) ∧
    (∀ (req : AddReq) (now : Time) (f : AddFaults) (e : String) (r1 : Redis),
      req.Targets ≠ [] → req.TaskId ≠ "" → f.insert = none →
      withFault f.rpush (Redis.RPush s.redis (GetTaskTargetsKey req.TaskId) req.Targets)
        = .error e →
      withFault f.queuePush (Redis.RPush s.redis "task:sync:targets:queue" [req.TaskId])
        = .ok r1 →
      ∃ q, Redis.LRange s.redis "task:sync:targets:queue" = .ok q ∧
        Redis.LRange (Add s req now f).1.redis "task:sync:targets:queue"
          = .ok (q ++ [req.TaskId])) ∧
    (∀ (taskId : String) (now : Time) (f : DeleteFaults),
      (Delete s taskId now f).2.code = 200 →
      ∃ q, Redis.LRange s.redis "task:delete:queue" = .ok q ∧
        Redis.LRange (Delete s taskId now f).1.redis "task:delete:queue"
          = .ok (q ++ [taskId])) := by
  refine ⟨Create_repairEntries s, Start_repairEntries s, Stop_repairEntries s, ?_, ?_⟩
  · intro req now f e r1 hT hId hins hpush hq
    have hlen : (req.Targets.length == 0) = false := by
      cases h : req.Targets with
      | nil => exact absurd h hT
      | cons a l => rfl
    have hid : (req.TaskId == "") = false := by simpa using hId
    obtain ⟨⟨q, hq1, hq2⟩, _⟩ := RPush_one_ok _ hq
    refine ⟨q, hq1, ?_⟩
    simp only [Add, hlen, hid, hins, withFault_none, hpush, hq, bestEffort, Bool.false_eq_true,
      if_false]
    exact hq2
  · intro taskId now f hsucc
    simp only [Delete] at hsucc ⊢
    by_cases h0 : (taskId == "") = true
    · simp [h0, errResp] at hsucc
    simp only [h0, if_false, Bool.false_eq_true] at hsucc ⊢
    cases hf : withFault f.first (DB.First s.db taskId) with
    | error e => simp [hf, errResp] at hsucc
    | ok t =>
    simp only [hf] at hsucc ⊢
    by_cases h1 : (t.Status == "running") = true
    · simp [h1, errResp] at hsucc
    simp only [h1, if_false, Bool.false_eq_true] at hsucc ⊢
    cases hu : withFault f.update
        (Except.ok (DB.UpdateStatus s.db (fun t => t.ID == taskId) "deleted" now)) with
    | error e => simp [hu, errResp] at hsucc
    | ok p =>
    obtain ⟨db1, rows⟩ := p
    simp only [hu, Cancel_redis] at hsucc ⊢
    cases hr : withFault f.rpush (Redis.RPush
        (bestEffort (bestEffort s.redis (withFault f.del (Redis.Del s.redis (taskKeys taskId))))
          ((withFault f.lrem (Redis.LRem
            (bestEffort s.redis (withFault f.del (Redis.Del s.redis (taskKeys taskId))))
            "tasks:list" taskId)).map Prod.fst))
        "task:delete:queue" [taskId]) with
    | error e => simp [hr, errResp] at hsucc
    | ok r3 =>
    simp only [hr]
    obtain ⟨⟨q, hq1, hq2⟩, _⟩ := RPush_one_ok _ hr
    refine ⟨q, ?_, hq2⟩
    rw [← hq1]
    apply Eq.symm
    apply LRange_congr
    rw [(bestEffort_LRem _ f.lrem "tasks:list" taskId).1 "task:delete:queue" (by decide)]
    exact lookup_bestEffort_Del_ne _ _ _ (fun h => taskKeys_ne_queue taskId _ h rfl)

/-- Witness of C14 as amended: `Delete` on the example task with its key
deletion and list removal both failing still queues the identifier. -/
theorem repair_entry_policy_witness :
    ∃ q, Redis.LRange exCreated.redis "task:delete:queue" = .ok q ∧
      Redis.LRange (Delete exCreated exId exTime
          { del := some "i/o timeout", lrem := some "i/o timeout" }).1.redis "task:delete:queue"
        = .ok (q ++ [exId]) :=
  (repair_entry_policy exCreated).2.2.2.2 exId exTime
    { del := some "i/o timeout", lrem := some "i/o timeout" } (by decide)
/-! ## The stage calls of `scanner.Run` -/

theorem foldl_append_singleton {α β : Type} (g : α → β) (l : List α) (acc : List β) :
    l.foldl (fun acc x => acc ++ [g x]) acc = acc ++ l.map g := by
  induction l generalizing acc with
  | nil => simp
  | cons a l ih => simp [ih]

/-- The loop that builds `nucleiTargets` maps each host:port to its entry. -/
theorem assembleTargets_eq_map (L : List String) (M : AliveMap) :
    assembleTargets L M = L.map (fun hp =>
      match M.lookup hp with
      | some urlStr => if urlStr != "" then urlStr else hp
      | none => hp) := by
  have h := foldl_append_singleton (fun hp =>
      match M.lookup hp with
      | some urlStr => if urlStr != "" then urlStr else hp
      | none => hp) L []
  rw [List.nil_append] at h
  rw [← h]
  unfold assembleTargets
  congr 1
  funext acc hp
  cases hl : M.lookup hp with
  | none => rfl
  | some u =>
    by_cases hu : (u != "") = true
    · simp only [hu, if_true]
    · simp only [hu, if_false, Bool.false_eq_true]

/-- The stage calls of `Run`, in order: port discovery when there is a target
without a port; then the liveness stage, unless port discovery made `Run`
return or there is no target; then the engine, unless the liveness stage made
`Run` return or there is nothing to scan. -/
theorem pipeline_trace (o : StageOracles) (rawTargets : List String) :
    (pipeline o rawTargets).1 =
      (if (splitTargets rawTargets).2.length > 0
        then [StageCall.portScan (splitTargets rawTargets).2] else []) ++
      (if ((splitTargets rawTargets).2.length > 0 &&
            stageFailed (o.portScan (splitTargets rawTargets).2).2 o.cancelledAfterPortScan) ||
          (hostPortTargets o rawTargets).isEmpty then []
       else StageCall.probe (hostPortTargets o rawTargets) ::
        (if stageFailed (o.probe (hostPortTargets o rawTargets)).2 o.cancelledAfterProbe ||
            (assembleTargets (hostPortTargets o rawTargets)
              (o.probe (hostPortTargets o rawTargets)).1).isEmpty then []
         else [StageCall.nuclei (assembleTargets (hostPortTargets o rawTargets)
              (o.probe (hostPortTargets o rawTargets)).1)])) := by
  have tail : ∀ (calls : List StageCall) (L : List String),
      (if (L.length == 0) = true then (calls, RunPath.noHostPort) else
        if (errIsCanceled (o.probe L).2 || o.cancelledAfterProbe) = true then
          (calls ++ [StageCall.probe L], RunPath.probeStopped)
        else
        match (o.probe L).2 with
        | some err => (calls ++ [StageCall.probe L], RunPath.probeError err.msg)
        | none =>
        if ((assembleTargets L (o.probe L).1).length == 0) = true then
          (calls ++ [StageCall.probe L], RunPath.noNucleiTargets) else
        match o.nuclei (assembleTargets L (o.probe L).1) with
        | some err =>
          if (err.isCanceled || o.cancelledAfterNuclei) = true then
            (calls ++ [StageCall.probe L, StageCall.nuclei (assembleTargets L (o.probe L).1)],
              RunPath.nucleiStopped)
          else
            (calls ++ [StageCall.probe L, StageCall.nuclei (assembleTargets L (o.probe L).1)],
              RunPath.nucleiError err.msg)
        | none =>
          (calls ++ [StageCall.probe L, StageCall.nuclei (assembleTargets L (o.probe L).1)],
            RunPath.finished)).1
      = calls ++ (if L.isEmpty then [] else StageCall.probe L ::
          (if stageFailed (o.probe L).2 o.cancelledAfterProbe ||
              (assembleTargets L (o.probe L).1).isEmpty then []
           else [StageCall.nuclei (assembleTargets L (o.probe L).1)])) := by
    intro calls L
    cases L with
    | nil => simp
    | cons a L =>
      simp only [List.length_cons, Nat.succ_ne_zero, beq_iff_eq, if_false, List.isEmpty_cons,
        Bool.false_eq_true, stageFailed]
      cases hp : (o.probe (a :: L)).2 with
      | some err =>
        by_cases hc : (errIsCanceled (some err) || o.cancelledAfterProbe) = true
        · simp [hc]
        · simp [hc]
      | none =>
        by_cases hc : (errIsCanceled none || o.cancelledAfterProbe) = true
        · simp [hc]
        · simp only [hc, if_false, Bool.false_eq_true, Option.isSome_none, Bool.or_false,
            Bool.false_or]
          cases hA : assembleTargets (a :: L) (o.probe (a :: L)).1 with
          | nil => simp
          | cons x xs =>
            simp only [List.length_cons, Nat.succ_ne_zero, beq_iff_eq, if_false,
              List.isEmpty_cons, Bool.false_eq_true]
            cases o.nuclei (x :: xs) with
            | none => rfl
            | some err =>
              dsimp only
              split <;> rfl
  unfold pipeline hostPortTargets
  by_cases h0 : (splitTargets rawTargets).2.length > 0
  · simp only [h0, if_true, decide_True, Bool.true_and]
    by_cases h1 : (errIsCanceled (o.portScan (splitTargets rawTargets).2).2
        || o.cancelledAfterPortScan) = true
    · simp [h1, stageFailed]
    · simp only [h1, if_false, Bool.false_eq_true]
      cases h2 : (o.portScan (splitTargets rawTargets).2).2 with
      | some err => simp [stageFailed]
      | none =>
        rw [h2] at h1
        dsimp only
        rw [tail]
        simp [stageFailed, h1]
  · simp only [h0, if_false, decide_False, Bool.false_and, Bool.false_or, List.append_nil]
    rw [tail]
/-! ## C15: the terminal status of `Run` -/

/-- C15, failing input: the example task with every stage returning without an
error and the context cancelled while the vulnerability engine runs
(`exCancelledLate`). `Run` calls all three stages and takes the return point
`finished`: the cancellation check of the third stage is only made when the
engine returned an error. With the same cancellation seen after the liveness
stage, `Run` writes `stopped`. In the run of the example task that `Stop`
cancels, the mirror ends as `finished` while the durable status is `stopped`. -/
theorem Run_finished_when_cancelled_in_engine :
    pipeline exCancelledLate ["10.0.0.1:8080", "example.internal"]
      = ([.portScan ["example.internal"],
          .probe ["10.0.0.1:8080", "example.internal:443"],
          .nuclei ["http://10.0.0.1:8080", "example.internal:443"]], RunPath.finished) ∧
    (pipeline exCancelledLate ["10.0.0.1:8080", "example.internal"]).2.terminal
      = ("finished", "") ∧
    (pipeline { exOracles with cancelledAfterProbe := true }
      ["10.0.0.1:8080", "example.internal"]).2.terminal = ("stopped", "") ∧
    mirrorStatus (reach exRunning [.stop exId exTime {},
        .runExit 0 (pipeline exCancelledLate ["10.0.0.1:8080", "example.internal"]).2
          exTime none]).redis ("task:" ++ exId ++ ":info") = some "finished" ∧
    (DB.First (reach exRunning [.stop exId exTime {},
        .runExit 0 (pipeline exCancelledLate ["10.0.0.1:8080", "example.internal"]).2
          exTime none]).db exId).map (fun t => t.Status) = .ok "stopped" :=
  ⟨by decide, by decide, by decide, by decide, rfl⟩
/-! ## C16: target normalisation -/

theorem isHostChar_ne {c : Char} (h : isHostChar c = true) :
    c ≠ '#' ∧ c ≠ '?' ∧ c ≠ '/' ∧ c ≠ '@' ∧ c ≠ ':' ∧ c ≠ '%' ∧ c ≠ '[' := by
  refine ⟨?_, ?_, ?_, ?_, ?_, ?_, ?_⟩ <;> (rintro rfl; exact absurd h (by decide))

theorem isDigit_ne {c : Char} (h : isDigit c = true) :
    c ≠ '#' ∧ c ≠ '?' ∧ c ≠ '/' ∧ c ≠ '@' ∧ c ≠ ':' ∧ c ≠ '%' ∧ c ≠ '[' := by
  refine ⟨?_, ?_, ?_, ?_, ?_, ?_, ?_⟩ <;> (rintro rfl; exact absurd h (by decide))

theorem isDigit_isHostChar {c : Char} (h : isDigit c = true) : isHostChar c = true := by
  simp [isHostChar, h]

theorem isHostChar_noCTL {c : Char} (h : isHostChar c = true) :
    (c.toNat < 0x20 || c.toNat == 0x7F) = false := by
  simp only [isHostChar, Bool.or_eq_true, beq_iff_eq] at h
  rcases h with ((((h | h) | h) | h) | h) | h
  · simp only [isLetter, Bool.or_eq_true, Bool.and_eq_true, decide_eq_true_eq] at h
    simp only [Bool.or_eq_false_iff, decide_eq_false_iff_not, beq_eq_false_iff_ne]
    omega
  · simp only [isDigit, Bool.and_eq_true, decide_eq_true_eq] at h
    simp only [Bool.or_eq_false_iff, decide_eq_false_iff_not, beq_eq_false_iff_ne]
    omega
  all_goals (subst h; decide)

theorem isHostChar_noEscape {c : Char} (h : isHostChar c = true) : shouldEscapeHost c = false := by
  simp only [isHostChar, Bool.or_eq_true, beq_iff_eq] at h
  rcases h with ((((h | h) | h) | h) | h) | h
  · simp [shouldEscapeHost, h]
  · simp [shouldEscapeHost, h]
  all_goals (subst h; decide)

/-- The two ways in which `parse` removes the query leave the same text. -/
theorem query_cut (l : List Char) (h : (l.getLast? == some '?' && l.count '?' == 1) = true) :
    l.dropLast = l.takeWhile (fun x => x != '?') := by
  simp only [Bool.and_eq_true, beq_iff_eq] at h
  obtain ⟨hlast, hcount⟩ := h
  induction l with
  | nil => rfl
  | cons a l ih =>
    by_cases ha : a = '?'
    · subst ha
      have hc : l.count '?' = 0 := by simpa [List.count_cons] using hcount
      cases l with
      | nil => rfl
      | cons b l' =>
        rw [List.getLast?_cons_cons] at hlast
        exact absurd (List.mem_of_getLast?_eq_some hlast) (List.count_eq_zero.1 hc)
    · have hc : l.count '?' = 1 := by
        simpa [List.count_cons, ha, Ne.symm ha] using hcount
      cases l with
      | nil => simp at hlast; exact absurd hlast ha
      | cons b l' =>
        rw [List.getLast?_cons_cons] at hlast
        have := ih hlast hc
        rw [List.dropLast_cons₂, this]
        simp [List.takeWhile_cons, ha]

theorem unescapeHost_plain (zone : Bool) (l : List Char)
    (h : ∀ c ∈ l, c ≠ '%' ∧ shouldEscapeHost c = false) : unescapeHost zone l = .ok l := by
  induction l with
  | nil => rfl
  | cons c cs ih =>
    have hc := h c (List.mem_cons_self _ _)
    have ih' := ih (fun x hx => h x (List.mem_cons_of_mem _ hx))
    have h1 : (c == '%') = false := by simpa using hc.1
    rw [unescapeHost.eq_def]
    simp only [h1, hc.2, Bool.and_false, Bool.false_eq_true, if_false, ih']
    rfl

theorem escapesOk_plain (l : List Char) (h : ∀ c ∈ l, c ≠ '%') : escapesOk l = true := by
  unfold escapesOk
  induction l with
  | nil => rfl
  | cons c cs ih =>
    have h1 : (c == '%') = false := by simpa using h c (List.mem_cons_self _ _)
    simp only [escapesOkFrom, h1, Bool.false_eq_true, if_false]
    exact ih (fun x hx => h x (List.mem_cons_of_mem _ hx))

theorem afterLast_append (c : Char) (a b : List Char) (hb : c ∉ b) :
    afterLast c (a ++ c :: b) = b := by
  unfold afterLast
  rw [List.reverse_append, List.reverse_cons, List.append_assoc,
    List.takeWhile_append_of_pos (by
      intro x hx
      have : x ≠ c := fun e => hb (e ▸ List.mem_reverse.1 hx)
      simpa using this)]
  simp

theorem contains_eq_false {l : List Char} {c : Char} (h : ∀ x ∈ l, x ≠ c) :
    l.contains c = false := by
  cases hc : l.contains c with
  | false => rfl
  | true =>
    have : c ∈ l := by simpa using hc
    exact absurd rfl (h c this)

/-- The host parser on a plain `host[:port]`. -/
theorem parseAuthority_plain (H P : List Char) (hne : H ≠ [])
    (hH : ∀ c ∈ H, isHostChar c = true) (hP : validOptionalPort P = true) :
    parseAuthority (H ++ P) = .ok (H ++ P) := by
  have hPd : P = [] ∨ ∃ ds, P = ':' :: ds ∧ ∀ c ∈ ds, isDigit c = true := by
    cases P with
    | nil => exact Or.inl rfl
    | cons c ds =>
      simp only [validOptionalPort, Bool.and_eq_true, beq_iff_eq, List.all_eq_true] at hP
      exact Or.inr ⟨ds, by rw [hP.1], hP.2⟩
  have hall : ∀ c ∈ H ++ P, c ≠ '@' ∧ c ≠ '%' ∧ shouldEscapeHost c = false := by
    intro c hc
    rcases List.mem_append.1 hc with h | h
    · exact ⟨(isHostChar_ne (hH c h)).2.2.2.1, (isHostChar_ne (hH c h)).2.2.2.2.2.1,
        isHostChar_noEscape (hH c h)⟩
    · rcases hPd with rfl | ⟨ds, rfl, hds⟩
      · cases h
      · rcases List.mem_cons.1 h with rfl | h
        · exact ⟨by decide, by decide, by decide⟩
        · exact ⟨(isDigit_ne (hds c h)).2.2.2.1, (isDigit_ne (hds c h)).2.2.2.2.2.1,
            isHostChar_noEscape (isDigit_isHostChar (hds c h))⟩
  have hat : (H ++ P).contains '@' = false := contains_eq_false (fun x hx => (hall x hx).1)
  have hhead : ((H ++ P).head? == some '[') = false := by
    cases H with
    | nil => exact absurd rfl hne
    | cons a l =>
      have := (isHostChar_ne (hH a (List.mem_cons_self _ _))).2.2.2.2.2.2
      simpa using this
  have hport : ((H ++ P).contains ':' && !validOptionalPort (':' :: afterLast ':' (H ++ P)))
      = false := by
    rcases hPd with rfl | ⟨ds, rfl, hds⟩
    · rw [List.append_nil, contains_eq_false (fun x hx => (isHostChar_ne (hH x hx)).2.2.2.2.1)]
      rfl
    · rw [afterLast_append ':' H ds (fun h => (isDigit_ne (hds _ h)).2.2.2.2.1 rfl)]
      simp only [validOptionalPort, beq_self_eq_true, Bool.true_and]
      have : ds.all isDigit = true := List.all_eq_true.2 hds
      simp [this]
  simp only [parseAuthority, hat, Bool.not_false, if_true, parseHost, hhead, hport,
    Bool.false_eq_true, if_false]
  exact unescapeHost_plain false _ (fun c hc => (hall c hc).2)

theorem takeWhile_plain_tail (T : List Char)
    (hhead : T.head? = none ∨ T.head? = some '/' ∨ T.head? = some '?') :
    (T.takeWhile (fun x => x != '?')).head? = none ∨
    (T.takeWhile (fun x => x != '?')).head? = some '/' := by
  cases T with
  | nil => exact Or.inl rfl
  | cons a l =>
    rcases hhead with h | h | h
    · cases h
    · simp only [List.head?_cons, Option.some.injEq] at h
      subst h
      exact Or.inr rfl
    · simp only [List.head?_cons, Option.some.injEq] at h
      subst h
      exact Or.inl rfl

theorem takeWhile_slash (A T : List Char) (hA : ∀ c ∈ A, c ≠ '/')
    (hT : T.head? = none ∨ T.head? = some '/') :
    (A ++ T).takeWhile (fun x => x != '/') = A ∧ (A ++ T).dropWhile (fun x => x != '/') = T := by
  have hp : ∀ a ∈ A, (fun x : Char => x != '/') a = true := by
    intro a ha; simpa using hA a ha
  rw [List.takeWhile_append_of_pos hp, List.dropWhile_append_of_pos hp]
  cases T with
  | nil => simp
  | cons a l =>
    rcases hT with h | h
    · cases h
    · simp only [List.head?_cons, Option.some.injEq] at h
      subst h
      simp

/-- What `parse` does after the scheme of a plain URL. -/
theorem parse_plain (S H P T : List Char) (hS : S = "http".data ∨ S = "https".data)
    (hne : H ≠ []) (hH : ∀ c ∈ H, isHostChar c = true) (hP : validOptionalPort P = true)
    (hhead : T.head? = none ∨ T.head? = some '/' ∨ T.head? = some '?')
    (hT : ∀ c ∈ T, c ≠ '%' ∧ (c.toNat < 0x20 || c.toNat == 0x7F) = false) :
    parse (S ++ ':' :: '/' :: '/' :: (H ++ P ++ T)) = .ok ⟨⟨S⟩, ⟨H ++ P⟩⟩ := by
  have hPd : ∀ c ∈ P, c = ':' ∨ isDigit c = true := by
    cases P with
    | nil => intro c hc; cases hc
    | cons c ds =>
      simp only [validOptionalPort, Bool.and_eq_true, beq_iff_eq, List.all_eq_true] at hP
      intro x hx
      rcases List.mem_cons.1 hx with rfl | h
      · exact Or.inl hP.1
      · exact Or.inr (hP.2 x h)
  have hHP : ∀ c ∈ H ++ P, c ≠ '?' ∧ c ≠ '/' ∧ (c.toNat < 0x20 || c.toNat == 0x7F) = false := by
    intro c hc
    rcases List.mem_append.1 hc with h | h
    · exact ⟨(isHostChar_ne (hH c h)).2.1, (isHostChar_ne (hH c h)).2.2.1, isHostChar_noCTL (hH c h)⟩
    · rcases hPd c h with rfl | hd
      · exact ⟨by decide, by decide, by decide⟩
      · exact ⟨(isDigit_ne hd).2.1, (isDigit_ne hd).2.2.1, isHostChar_noCTL (isDigit_isHostChar hd)⟩
  have hctl : stringContainsCTLByte (H ++ P ++ T) = false := by
    simp only [stringContainsCTLByte, List.any_eq_false]
    intro c hc
    rcases List.mem_append.1 hc with h | h
    · simpa using (hHP c h).2.2
    · simpa using (hT c h).2
  have hq : ∀ l : List Char,
      (if (l.getLast? == some '?' && l.count '?' == 1) = true then l.dropLast
        else l.takeWhile (fun x => x != '?')) = l.takeWhile (fun x => x != '?') := by
    intro l
    by_cases h : (l.getLast? == some '?' && l.count '?' == 1) = true
    · rw [if_pos h, query_cut l h]
    · rw [if_neg h]
  have hT2 := takeWhile_plain_tail T hhead
  have hT2' : ∀ c ∈ T.takeWhile (fun x => x != '?'), c ≠ '%' :=
    fun c hc => (hT c ((List.takeWhile_prefix _).subset hc)).1
  have hcut : ('/' :: '/' :: (H ++ P ++ T)).takeWhile (fun x => x != '?')
      = '/' :: '/' :: (H ++ P ++ T.takeWhile (fun x => x != '?')) := by
    have hp : ∀ a ∈ H ++ P, (fun x : Char => x != '?') a = true := by
      intro a ha; simpa using (hHP a ha).1
    simp only [List.takeWhile_cons]
    rw [List.takeWhile_append_of_pos hp]
    rfl
  have hsl := takeWhile_slash (H ++ P) (T.takeWhile (fun x => x != '?'))
    (fun c hc => (hHP c hc).2.1) hT2
  have hauth := parseAuthority_plain H P hne hH hP
  have hesc := escapesOk_plain _ hT2'
  rcases hS with rfl | rfl
  · have hc1 : stringContainsCTLByte ("http".data ++ ':' :: '/' :: '/' :: (H ++ P ++ T))
        = false := by
      rw [← hctl]; rfl
    have hg : getScheme ("http".data ++ ':' :: '/' :: '/' :: (H ++ P ++ T))
        = .ok ("http".data, '/' :: '/' :: (H ++ P ++ T)) := rfl
    unfold parse
    rw [hc1, hg]
    simp only [Bool.false_eq_true, if_false]
    rw [if_neg (by simp), hq, hcut]
    simp only [List.head?_cons, beq_self_eq_true, Bool.not_true, Bool.false_and,
      Bool.false_eq_true, if_false, List.drop_succ_cons, List.drop_zero, hsl.1, hsl.2, hauth, hesc,
      if_true]
    rw [if_pos (by simp [List.isPrefixOf])]
    rfl
  · have hc1 : stringContainsCTLByte ("https".data ++ ':' :: '/' :: '/' :: (H ++ P ++ T))
        = false := by
      rw [← hctl]; rfl
    have hg : getScheme ("https".data ++ ':' :: '/' :: '/' :: (H ++ P ++ T))
        = .ok ("https".data, '/' :: '/' :: (H ++ P ++ T)) := rfl
    unfold parse
    rw [hc1, hg]
    simp only [Bool.false_eq_true, if_false]
    rw [if_neg (by simp), hq, hcut]
    simp only [List.head?_cons, beq_self_eq_true, Bool.not_true, Bool.false_and,
      Bool.false_eq_true, if_false, List.drop_succ_cons, List.drop_zero, hsl.1, hsl.2, hauth, hesc,
      if_true]
    rw [if_pos (by simp [List.isPrefixOf])]
    rfl

/-- Function `url.Parse` on a plain URL: the host is the text between `://` and
the path, query or fragment. -/
theorem Parse_plain (scheme hp rest : String) (hS : scheme = "http" ∨ scheme = "https")
    (hhp : plainHostPort hp = true) (hrest : plainTail rest = true) :
    Parse (scheme ++ "://" ++ hp ++ rest) = .ok ⟨scheme, hp⟩ := by
  simp only [plainHostPort, Bool.and_eq_true, Bool.not_eq_true', List.all_eq_true] at hhp
  obtain ⟨⟨hne, hH⟩, hP⟩ := hhp
  have hne' : hp.data.takeWhile (fun x => x != ':') ≠ [] := by
    intro h; rw [h] at hne; cases hne
  simp only [plainTail, Bool.and_eq_true, Bool.or_eq_true, beq_iff_eq, List.all_eq_true,
    Bool.not_eq_true', bne_iff_ne, ne_eq] at hrest
  obtain ⟨hhead, hT⟩ := hrest
  have hsplit : hp.data = hp.data.takeWhile (fun x => x != ':') ++
      hp.data.dropWhile (fun x => x != ':') := (List.takeWhile_append_dropWhile _ _).symm
  have hHP : ∀ c ∈ hp.data, (fun x : Char => x != '#') c = true := by
    intro c hc
    rw [hsplit] at hc
    rcases List.mem_append.1 hc with h | h
    · simpa using (isHostChar_ne (hH c h)).1
    · cases hd : hp.data.dropWhile (fun x => x != ':') with
      | nil => rw [hd] at h; cases h
      | cons a ds =>
        rw [hd] at h hP
        simp only [validOptionalPort, Bool.and_eq_true, beq_iff_eq, List.all_eq_true] at hP
        rcases List.mem_cons.1 h with rfl | h
        · rw [hP.1]; decide
        · simpa using (isDigit_ne (hP.2 c h)).1
  have hTh : (rest.data.takeWhile (fun x => x != '#')).head? = none ∨
      (rest.data.takeWhile (fun x => x != '#')).head? = some '/' ∨
      (rest.data.takeWhile (fun x => x != '#')).head? = some '?' := by
    cases hr : rest.data with
    | nil => exact Or.inl rfl
    | cons a l =>
      rw [hr] at hhead
      simp only [List.head?_cons, Option.some.injEq] at hhead
      rcases hhead with ((h | h) | h) | h
      · cases h
      · subst h; exact Or.inr (Or.inl rfl)
      · subst h; exact Or.inr (Or.inr rfl)
      · subst h; exact Or.inl rfl
  have hTc : ∀ c ∈ rest.data.takeWhile (fun x => x != '#'),
      c ≠ '%' ∧ (c.toNat < 0x20 || c.toNat == 0x7F) = false := by
    intro c hc
    have := hT c ((List.takeWhile_prefix _).subset hc)
    exact ⟨this.1, by simpa using this.2⟩
  have hfrag : escapesOk ((rest.data.dropWhile (fun x => x != '#')).drop 1) = true := by
    apply escapesOk_plain
    intro c hc
    exact (hT c ((List.dropWhile_suffix _).subset (List.mem_of_mem_drop hc))).1
  have hparse := fun S hS' => parse_plain S (hp.data.takeWhile (fun x => x != ':'))
    (hp.data.dropWhile (fun x => x != ':')) (rest.data.takeWhile (fun x => x != '#')) hS'
    hne' hH hP hTh hTc
  rw [← hsplit] at hparse
  unfold Parse
  rcases hS with rfl | rfl
  · have hu : ("http" ++ "://" ++ hp ++ rest).data.takeWhile (fun x => x != '#')
        = "http".data ++ ':' :: '/' :: '/' :: (hp.data ++ rest.data.takeWhile (fun x => x != '#')) := by
      simp only [String.data_append, List.append_assoc]
      show List.takeWhile _ ('h' :: 't' :: 't' :: 'p' :: ':' :: '/' :: '/' :: (hp.data ++ rest.data)) = _
      simp only [List.takeWhile_cons]
      rw [List.takeWhile_append_of_pos hHP]
      rfl
    have hd : (("http" ++ "://" ++ hp ++ rest).data.dropWhile (fun x => x != '#'))
        = rest.data.dropWhile (fun x => x != '#') := by
      simp only [String.data_append, List.append_assoc]
      show List.dropWhile _ ('h' :: 't' :: 't' :: 'p' :: ':' :: '/' :: '/' :: (hp.data ++ rest.data)) = _
      simp only [List.dropWhile_cons]
      rw [List.dropWhile_append_of_pos hHP]
      rfl
    simp only [hu, hd, hparse _ (Or.inl rfl), hfrag, if_true, ite_self]
  · have hu : ("https" ++ "://" ++ hp ++ rest).data.takeWhile (fun x => x != '#')
        = "https".data ++ ':' :: '/' :: '/' :: (hp.data ++ rest.data.takeWhile (fun x => x != '#')) := by
      simp only [String.data_append, List.append_assoc]
      show List.takeWhile _
        ('h' :: 't' :: 't' :: 'p' :: 's' :: ':' :: '/' :: '/' :: (hp.data ++ rest.data)) = _
      simp only [List.takeWhile_cons]
      rw [List.takeWhile_append_of_pos hHP]
      rfl
    have hd : (("https" ++ "://" ++ hp ++ rest).data.dropWhile (fun x => x != '#'))
        = rest.data.dropWhile (fun x => x != '#') := by
      simp only [String.data_append, List.append_assoc]
      show List.dropWhile _
        ('h' :: 't' :: 't' :: 'p' :: 's' :: ':' :: '/' :: '/' :: (hp.data ++ rest.data)) = _
      simp only [List.dropWhile_cons]
      rw [List.dropWhile_append_of_pos hHP]
      rfl
    simp only [hu, hd, hparse _ (Or.inr rfl), hfrag, if_true, ite_self]

/-- C16, the statement as written fails: an input with a space before
`http://` does not begin with `http://` or `https://`, yet it is not returned
trimmed: the scheme test is made after trimming, and the host is returned. -/
theorem normalizeTarget_padded_counterexample :
    HasPrefix " http://a.com:80/x" "http://" = false ∧
    HasPrefix " http://a.com:80/x" "https://" = false ∧
    TrimSpace " http://a.com:80/x" = "http://a.com:80/x" ∧
    normalizeTarget " http://a.com:80/x" = "a.com:80" :=
  ⟨by decide, by decide, by decide, by decide⟩

/-- C16 as amended. `normalizeTarget "https://1.2.3.4:8443/x" = "1.2.3.4:8443"`
and `normalizeTarget "1.2.3.4" = "1.2.3.4"`. In general, with the input trimmed
of surrounding whitespace first: when the trimmed input begins with `http://`
or `https://` and parses as a URL with a non-empty host, the result is that
host (with its port if it has one); every other input is returned trimmed. For
a trimmed input of the form `scheme://host[:port]` followed by nothing or by a
path, query or fragment, the host of the parsed URL is the `host[:port]`
between `://` and what follows, so that scheme, path, query and fragment are
removed. -/
theorem normalizeTarget_spec :
    normalizeTarget "https://1.2.3.4:8443/x" = "1.2.3.4:8443" ∧
    normalizeTarget "1.2.3.4" = "1.2.3.4" ∧
    (∀ t u, (HasPrefix (TrimSpace t) "http://" = true ∨
        HasPrefix (TrimSpace t) "https://" = true) →
      Parse (TrimSpace t) = .ok u → u.Host ≠ "" → normalizeTarget t = u.Host) ∧
    (∀ t, ¬((HasPrefix (TrimSpace t) "http://" = true ∨
          HasPrefix (TrimSpace t) "https://" = true) ∧
        ∃ u, Parse (TrimSpace t) = .ok u ∧ u.Host ≠ "") →
      normalizeTarget t = TrimSpace t) ∧
    (∀ t scheme hp rest, (scheme = "http" ∨ scheme = "https") →
      plainHostPort hp = true → plainTail rest = true →
      TrimSpace t = scheme ++ "://" ++ hp ++ rest → normalizeTarget t = hp) := by
  have hb : ∀ t u, (HasPrefix (TrimSpace t) "http://" = true ∨
        HasPrefix (TrimSpace t) "https://" = true) →
      Parse (TrimSpace t) = .ok u → u.Host ≠ "" → normalizeTarget t = u.Host := by
    intro t u hp hu hh
    have hne : (TrimSpace t == "") = false := by
      cases he : TrimSpace t == "" with
      | false => rfl
      | true =>
        have : TrimSpace t = "" := by simpa using he
        rw [this] at hp
        rcases hp with h | h <;> exact absurd h (by decide)
    have hp' : (HasPrefix (TrimSpace t) "http://" || HasPrefix (TrimSpace t) "https://") = true := by
      simpa using hp
    have hh' : (u.Host != "") = true := by simpa using hh
    simp only [normalizeTarget, hne, hp', hu, hh', Bool.false_eq_true, if_false, if_true]
  refine ⟨by decide, by decide, hb, ?_, ?_⟩
  · intro t hn
    unfold normalizeTarget
    by_cases he : (TrimSpace t == "") = true
    · simp only [he, if_true]
      exact (by simpa using he : TrimSpace t = "").symm
    · simp only [he, if_false, Bool.false_eq_true]
      by_cases hp : (HasPrefix (TrimSpace t) "http://" || HasPrefix (TrimSpace t) "https://") = true
      · simp only [hp, if_true]
        cases hu : Parse (TrimSpace t) with
        | error e => rfl
        | ok u =>
          by_cases hh : (u.Host != "") = true
          · exact absurd ⟨by simpa using hp, u, hu, by simpa using hh⟩ hn
          · simp only [hh, if_false, Bool.false_eq_true]
      · simp only [hp, if_false, Bool.false_eq_true]
  · intro t scheme hp rest hS hhp hrest ht
    have hparse := Parse_plain scheme hp rest hS hhp hrest
    rw [← ht] at hparse
    have hhost : hp ≠ "" := by
      intro h
      subst h
      exact absurd hhp (by decide)
    refine hb t ⟨scheme, hp⟩ ?_ hparse hhost
    rw [ht]
    rcases hS with rfl | rfl
    · left; simp [HasPrefix, String.data_append]
    · right; simp [HasPrefix, String.data_append]

/-- Witness of C16 as amended: a padded URL with a port, a path, a query and a
fragment. -/
theorem normalizeTarget_spec_witness :
    normalizeTarget "  https://example.internal:8443/a/b?c=d#e " = "example.internal:8443" :=
  normalizeTarget_spec.2.2.2.2 "  https://example.internal:8443/a/b?c=d#e " "https"
    "example.internal:8443" "/a/b?c=d#e" (Or.inr rfl) (by decide) (by decide) (by decide)
/-! ## C17: splitting and routing of the targets -/

theorem splitTargets_foldl (targets : List String) (acc : List String × List String) :
    targets.foldl (fun acc raw =>
      if (normalizeTarget raw == "") = true then acc
      else if isHostPort (normalizeTarget raw) = true then (acc.1 ++ [normalizeTarget raw], acc.2)
      else (acc.1, acc.2 ++ [normalizeTarget raw])) acc
    = (acc.1 ++ ((targets.map normalizeTarget).filter (fun t => t != "")).filter isHostPort,
       acc.2 ++ ((targets.map normalizeTarget).filter (fun t => t != "")).filter
        (fun t => !isHostPort t)) := by
  induction targets generalizing acc with
  | nil => simp
  | cons a l ih =>
    rw [List.foldl_cons, ih]
    by_cases h0 : (normalizeTarget a == "") = true
    · have h0' : (normalizeTarget a != "") = false := by simp [bne, h0]
      simp only [h0, if_true, List.map_cons, List.filter_cons, h0', Bool.false_eq_true, if_false]
    · have h0' : (normalizeTarget a != "") = true := by simpa [bne] using h0
      by_cases h1 : isHostPort (normalizeTarget a) = true
      · simp [h0, h0', h1, List.filter_cons]
      · simp [h0, h0', h1, List.filter_cons]

/-- C18. For every host:port list `L` and alive map `M`, the list built for the
vulnerability engine has the length of `L`, and at each position holds the
map's entry for the host:port at that position of `L` when the map has a
non-empty entry for it, and the host:port itself otherwise; so it is non-empty
when `L` is. When the map sends `10.0.0.1:8080` to `http://10.0.0.1:8080` and
`L` is that endpoint followed by `D`, the list is that URL followed by the
entries for `D`. Every call of the engine by `Run` is with the list built from
the argument and the result of the preceding liveness call. -/
theorem engine_targets (L : List String) (M : AliveMap) :
    (assembleTargets L M).length = L.length ∧
    (∀ (i : Nat) (hp : String), L[i]? = some hp →
      (assembleTargets L M)[i]? = some
        (match M.lookup hp with
         | some urlStr => if urlStr != "" then urlStr else hp
         | none => hp)) ∧
    (L ≠ [] → assembleTargets L M ≠ []) ∧
    (∀ D, M.lookup "10.0.0.1:8080" = some "http://10.0.0.1:8080" →
      assembleTargets ("10.0.0.1:8080" :: D) M = "http://10.0.0.1:8080" :: assembleTargets D M) ∧
    (∀ (o : StageOracles) (rawTargets ts : List String),
      StageCall.nuclei ts ∈ (pipeline o rawTargets).1 →
      ∃ T, StageCall.probe T ∈ (pipeline o rawTargets).1 ∧
        ts = assembleTargets T (o.probe T).1) := by
  refine ⟨?_, ?_, ?_, ?_, ?_⟩
  · rw [assembleTargets_eq_map, List.length_map]
  · intro i hp hi
    rw [assembleTargets_eq_map, List.getElem?_map, hi]
    rfl
  · intro hne h
    have := congrArg List.length h
    rw [assembleTargets_eq_map, List.length_map] at this
    exact hne (List.length_eq_zero.1 this)
  · intro D hM
    rw [assembleTargets_eq_map, assembleTargets_eq_map, List.map_cons, hM]
    rfl
  · intro o rawTargets ts hmem
    refine ⟨hostPortTargets o rawTargets, ?_⟩
    rw [pipeline_trace] at hmem ⊢
    simp only [List.mem_append] at hmem ⊢
    rcases hmem with h | h
    · split at h <;> simp at h
    · split at h
      · simp at h
      · rename_i hcond
        simp only [List.mem_cons] at h
        rcases h with h | h
        · cases h
        · split at h
          · simp at h
          · simp only [List.mem_singleton, StageCall.nuclei.injEq] at h
            refine ⟨Or.inr ?_, h⟩
            rw [if_neg hcond]
            exact List.mem_cons_self _ _

/-- Witness of C18: the engine call of the example run. -/
theorem engine_targets_witness :
    ∃ T, StageCall.probe T ∈ (pipeline exOracles exReq.Targets).1 ∧
      ["http://10.0.0.1:8080", "example.internal:443"] = assembleTargets T (exOracles.probe T).1 :=
  (engine_targets [] []).2.2.2.2 exOracles exReq.Targets
    ["http://10.0.0.1:8080", "example.internal:443"] (by decide)
/-! ## C19: the liveness prober -/

theorem AliveMap.lookup_set_self (m : AliveMap) (k v : String) :
    (AliveMap.set m k v).lookup k = some v := by
  simp [AliveMap.set, List.lookup]

theorem AliveMap.lookup_set_ne (m : AliveMap) {k k' : String} (v : String) (h : k' ≠ k) :
    (AliveMap.set m k v).lookup k' = m.lookup k' := by
  have hb : (k' == k) = false := by simpa using h
  simp only [AliveMap.set, List.lookup, hb]
  induction m with
  | nil => rfl
  | cons p l ih =>
    by_cases hp : (p.1 == k) = true
    · have hpk : p.1 = k := by simpa using hp
      have : (k' == p.1) = false := by rw [hpk]; exact hb
      simp only [List.filter_cons, hp, Bool.not_true, Bool.false_eq_true, if_false, ih]
      obtain ⟨a, b⟩ := p
      simp only [List.lookup]
      simp only at this
      rw [this]
    · have hp' : (p.1 == k) = false := by simpa using hp
      simp only [List.filter_cons, hp', Bool.not_false, if_true]
      obtain ⟨a, b⟩ := p
      simp only [List.lookup, ih]

theorem HasPrefix_append (p t : String) : HasPrefix (p ++ t) p = true := by
  simp [HasPrefix, String.data_append]

/-- What an endpoint is. -/
theorem isEndpoint_spec {t : String} (h : isEndpoint t = true) :
    TrimSpace t = t ∧ HasPrefix t "http://" = false ∧ HasPrefix t "https://" = false ∧
    ∃ host port, SplitHostPort t = .ok (host, port) ∧ JoinHostPort host port = t := by
  unfold isEndpoint at h
  simp only [Bool.and_eq_true, beq_iff_eq, Bool.not_eq_true'] at h
  obtain ⟨⟨⟨h1, h2⟩, h3⟩, h4⟩ := h
  refine ⟨h1, h2, h3, ?_⟩
  cases hs : SplitHostPort t with
  | error e => simp [hs] at h4
  | ok p =>
    obtain ⟨host, port⟩ := p
    simp only [hs, beq_iff_eq] at h4
    exact ⟨host, port, rfl, h4⟩

theorem SplitHostPort_ne_empty {t host port : String} (h : SplitHostPort t = .ok (host, port)) :
    (t == "") = false := by
  cases ht : t == "" with
  | false => rfl
  | true =>
    have : t = "" := by simpa using ht
    subst this
    simp [SplitHostPort] at h

/-- The goroutine of the prober on an endpoint, with the context not cancelled:
the entry is stored under the endpoint itself and is the one of `aliveEntry`. -/
theorem probeTarget_endpoint (o : NetOracles) {t host port : String} (hc : o.cancelled = false)
    (h : isEndpoint t = true) (hs : SplitHostPort t = .ok (host, port)) :
    probeTarget o t = (aliveEntry o host port).map (fun cand => (t, cand)) := by
  obtain ⟨h1, h2, h3, host', port', hs', hj⟩ := isEndpoint_spec h
  rw [hs] at hs'
  injection hs' with hs'
  injection hs' with e1 e2
  subst e1; subst e2
  have hne := SplitHostPort_ne_empty hs
  have hnorm : normalizeTarget t = t := by
    simp only [normalizeTarget, h1, hne, h2, h3, Bool.or_self, Bool.false_eq_true, if_false]
  have hcand : buildURLCandidates o t =
      if o.isHTTPPort t then ["http://" ++ t]
      else if o.isHTTPSPort host port then ["https://" ++ t] else [t] := by
    simp only [buildURLCandidates, h1, hne, h2, h3, Bool.or_self, Bool.false_eq_true, if_false,
      hs, hj]
  simp only [probeTarget, hc, hnorm, hne, Bool.false_eq_true, if_false, hcand, aliveEntry, hj]
  by_cases p1 : o.isHTTPPort t = true
  · simp only [p1, if_true, tryCandidates, hc, Bool.false_eq_true, if_false, HasPrefix_append,
      Bool.true_or, getAlive]
    split
    · rename_i hg; simp [hg]
    · rename_i code hg
      by_cases hcode : (decide (200 ≤ code) && decide (code < 400)) = true
      · simp [hg, hcode]
      · simp [hg, hcode]
  · simp only [p1, Bool.false_eq_true, if_false]
    by_cases p2 : o.isHTTPSPort host port = true
    · simp only [p2, if_true, tryCandidates, hc, Bool.false_eq_true, if_false,
        HasPrefix_append, Bool.or_true, getAlive]
      split
      · rename_i hg; simp [hg]
      · rename_i code hg
        by_cases hcode : (decide (200 ≤ code) && decide (code < 400)) = true
        · simp [hg, hcode]
        · simp [hg, hcode]
    · simp only [p2, Bool.false_eq_true, if_false, tryCandidates, hc, h2, h3, Bool.or_self]

/-- The alive map after the goroutines of a list of endpoints. -/
theorem probe_foldl (o : NetOracles) (hc : o.cancelled = false) (targets : List String)
    (hall : ∀ t ∈ targets, isEndpoint t = true) (m : AliveMap) (k : String) :
    (targets.foldl (fun (m : AliveMap) raw =>
      if (TrimSpace raw == "") = true then m else
      match probeTarget o (TrimSpace raw) with
      | some (key, cand) => m.set key cand
      | none => m) m).lookup k
    = if k ∈ targets then
        (match probeTarget o k with
         | some p => some p.2
         | none => m.lookup k)
      else m.lookup k := by
  induction targets generalizing m with
  | nil => simp
  | cons a l ih =>
    have ha := hall a (List.mem_cons_self _ _)
    obtain ⟨h1, _, _, host, port, hs, _⟩ := isEndpoint_spec ha
    have hne := SplitHostPort_ne_empty hs
    have hp := probeTarget_endpoint o hc ha hs
    rw [List.foldl_cons, ih (fun t ht => hall t (List.mem_cons_of_mem _ ht))]
    simp only [h1, hne, Bool.false_eq_true, if_false, List.mem_cons]
    by_cases hka : k = a
    · subst hka
      simp only [true_or, if_true]
      cases hpk : probeTarget o k with
      | none => simp
      | some p =>
        obtain ⟨key, cand⟩ := p
        have hkey : key = k := by
          rw [hp] at hpk
          cases hA : aliveEntry o host port with
          | none => simp [hA] at hpk
          | some c =>
            simp only [hA, Option.map_some', Option.some.injEq, Prod.mk.injEq] at hpk
            exact hpk.1.symm
        subst hkey
        simp [AliveMap.lookup_set_self]
    · simp only [hka, false_or]
      have hstep : (match probeTarget o a with
          | some (key, cand) => AliveMap.set m key cand
          | none => m).lookup k = m.lookup k := by
        rw [hp]
        cases hA : aliveEntry o host port with
        | none => rfl
        | some c => exact AliveMap.lookup_set_ne m c hka
      rw [hstep]

/-- C19, the statement as written fails: an endpoint that answers the plaintext
HEAD probe and every GET with 404 (and accepts TCP connections) gets no entry
in the alive map. -/
theorem HEAD_alive_not_recorded_counterexample :
    exNotFound.isHTTPPort "10.0.0.1:8080" = true ∧
    (HttpAliveProbe exNotFound ["10.0.0.1:8080"]).1.lookup "10.0.0.1:8080" = none ∧
    (HttpAliveProbe exNotFound ["10.0.0.1:8080"]).2 = none :=
  ⟨rfl, by decide, by decide⟩

/-- C19 as amended. With the probes as oracles and the context not cancelled,
for a list of host:port endpoints the prober returns no error and an alive map
in which every endpoint of the list has the entry of `aliveEntry`: when the
plaintext HEAD probe succeeds, `http://host:port` provided a GET of that URL
is answered with a status from 200 to 399, and no entry otherwise; else, when
the TLS HEAD probe succeeds, `https://host:port` under the same proviso; else
`host:port` when a TCP connection is made; else no entry. Nothing else has an
entry. -/
theorem liveness_classification (o : NetOracles) (targets : List String)
    (hc : o.cancelled = false) (hall : ∀ t ∈ targets, isEndpoint t = true) :
    (HttpAliveProbe o targets).2 = none ∧
    (∀ t host port, t ∈ targets → SplitHostPort t = .ok (host, port) →
      (HttpAliveProbe o targets).1.lookup t = aliveEntry o host port) ∧
    (∀ t, t ∉ targets → (HttpAliveProbe o targets).1.lookup t = none) := by
  have hfold := probe_foldl o hc targets hall []
  refine ⟨?_, ?_, ?_⟩
  · unfold HttpAliveProbe
    split
    · rfl
    · simp [hc]
  · intro t host port ht hs
    have hlen : (targets.length == 0) = false := by
      cases targets with
      | nil => cases ht
      | cons a l => rfl
    simp only [HttpAliveProbe, hlen, hc, Bool.false_eq_true, if_false]
    rw [hfold t, if_pos ht, probeTarget_endpoint o hc (hall t ht) hs]
    cases aliveEntry o host port <;> rfl
  · intro t ht
    unfold HttpAliveProbe
    split
    · rfl
    · simp only [hc, Bool.false_eq_true, if_false]
      rw [hfold t, if_neg ht]
      rfl

/-- Witness of C19 as amended: an endpoint that answers the plaintext HEAD
probe and a GET with 200. -/
theorem liveness_classification_witness :
    (HttpAliveProbe exHttp ["10.0.0.1:8080"]).1.lookup "10.0.0.1:8080"
      = aliveEntry exHttp "10.0.0.1" "8080" :=
  (liveness_classification exHttp ["10.0.0.1:8080"] rfl (by decide)).2.1
    "10.0.0.1:8080" "10.0.0.1" "8080" (by decide) rfl
/-! ## C20: the result callback -/

/-- The best-effort push of the payload: the list grows by the payload when
the push is made, and no other key changes. -/
theorem bestEffort_push (r : Redis) (flt : Option String) (k raw : String) (q : List String)
    (hq : Redis.LRange r k = .ok q) :
    Redis.LRange (bestEffort r (withFault flt (Redis.RPush r k [raw]))) k
      = .ok (if flt = none then q ++ [raw] else q) ∧
    ∀ k', k' ≠ k → (bestEffort r (withFault flt (Redis.RPush r k [raw]))).lookup k'
      = r.lookup k' := by
  cases flt with
  | some e => exact ⟨by simpa [withFault, bestEffort] using hq, fun _ _ => rfl⟩
  | none =>
    obtain ⟨r1, h1⟩ := @RPush_of_LRange r k q [raw] (List.cons_ne_nil _ _) hq
    obtain ⟨⟨q', hq1, hq2⟩, hfr⟩ := RPush_ok h1
    have : q' = q := by rw [hq] at hq1; injection hq1 with h; exact h.symm
    subst this
    simp only [withFault, h1, bestEffort, if_true]
    exact ⟨by simp [Redis.LRange, hq2], hfr⟩

/-- A best-effort push touches no key but its own, whether it is made or not. -/
theorem bestEffort_push_frame (r : Redis) (flt : Option String) (k raw : String) :
    ∀ k', k' ≠ k → (bestEffort r (withFault flt (Redis.RPush r k [raw]))).lookup k'
      = r.lookup k' := by
  intro k' hk
  cases flt with
  | some e => rfl
  | none =>
    simp only [withFault]
    cases h : Redis.RPush r k [raw] with
    | error e => rfl
    | ok r1 => exact (RPush_ok h).2 k' hk

theorem resultKey_ne_logKey (taskId : String) :
    "task:" ++ taskId ++ ":result" ≠ "task:" ++ taskId ++ ":log" := by
  intro e
  have h := congrArg (fun s : String => s.data.getLast?) e
  simp only [String.data_append] at h
  rw [List.getLast?_append_of_ne_nil _ (by decide),
    List.getLast?_append_of_ne_nil _ (by decide)] at h
  revert h
  decide

/-- C20, the statement as written fails: a confirmed match is reported while
the example task runs and the push to the result list fails (its error is not
looked at). The callback goes on to the log list: the entry is in the log list
and not in the result list. -/
theorem writeCallback_one_list_counterexample :
    exEvent.MatcherStatus = true ∧
    Redis.LRange (writeCallback exMarshal exRunning.redis exId (some exEvent)
        { result := some "read tcp: i/o timeout" }) ("task:" ++ exId ++ ":result") = .ok [] ∧
    Redis.LRange (writeCallback exMarshal exRunning.redis exId (some exEvent)
        { result := some "read tcp: i/o timeout" }) ("task:" ++ exId ++ ":log")
      = .ok ["finding-1"] :=
  ⟨rfl, rfl, rfl⟩

/-- C20 as amended. For every event passed to the callback, every encoder and
every outcome of the two pushes: when the event is nil or is not a confirmed
match, the fast store is unchanged. When it is a confirmed match whose
encoding fails, the fast store is unchanged. When it is a confirmed match that
is encoded to `j` (its response cut to 10240 bytes): no key other than the
result key and the log key of the task changes; the result list, when it is
readable, is what it was followed by `j` when the first push is made without
an error and is what it was otherwise; and the log list, in the same way, is
what it was followed by `j` when the second push is made without an error and
is what it was otherwise, whatever became of the first push. So no entry of
either list is modified or removed, and the entry is in both lists exactly
when both pushes succeed. -/
theorem writeCallback_appends (marshal : ResultEvent → Except String String) (r : Redis)
    (taskId : String) (ev : Option ResultEvent) (f : CallbackFaults) :
    ((ev = none ∨ ∃ e, ev = some e ∧ e.MatcherStatus = false) →
      writeCallback marshal r taskId ev f = r) ∧
    (∀ (e : ResultEvent) (err : String), ev = some e → e.MatcherStatus = true →
      marshal (if e.Response.length > 10240
        then { e with Response := e.Response.take 10240 } else e) = .error err →
      writeCallback marshal r taskId ev f = r) ∧
    (∀ (e : ResultEvent) (j : String), ev = some e → e.MatcherStatus = true →
      marshal (if e.Response.length > 10240
        then { e with Response := e.Response.take 10240 } else e) = .ok j →
      (∀ k, k ≠ "task:" ++ taskId ++ ":result" → k ≠ "task:" ++ taskId ++ ":log" →
        (writeCallback marshal r taskId ev f).lookup k = r.lookup k) ∧
      (∀ q1, Redis.LRange r ("task:" ++ taskId ++ ":result") = .ok q1 →
        Redis.LRange (writeCallback marshal r taskId ev f) ("task:" ++ taskId ++ ":result")
          = .ok (if f.result = none then q1 ++ [j] else q1)) ∧
      (∀ q2, Redis.LRange r ("task:" ++ taskId ++ ":log") = .ok q2 →
        Redis.LRange (writeCallback marshal r taskId ev f) ("task:" ++ taskId ++ ":log")
          = .ok (if f.log = none then q2 ++ [j] else q2))) := by
  refine ⟨?_, ?_, ?_⟩
  · rintro (h | ⟨e, h, hm⟩)
    · subst h; rfl
    · subst h; simp only [writeCallback, hm, Bool.not_false, if_true]
  · intro e err hev hm hj
    subst hev
    simp only [gt_iff_lt, hm] at hj
    simp only [writeCallback, hm, Bool.not_true, Bool.false_eq_true, if_false, gt_iff_lt, hj]
  · intro e j hev hm hj
    subst hev
    have hne := resultKey_ne_logKey taskId
    simp only [gt_iff_lt, hm] at hj
    have hw : writeCallback marshal r taskId (some e) f =
        bestEffort
          (bestEffort r (withFault f.result
            (Redis.RPush r ("task:" ++ taskId ++ ":result") [j])))
          (withFault f.log (Redis.RPush
            (bestEffort r (withFault f.result
              (Redis.RPush r ("task:" ++ taskId ++ ":result") [j])))
            ("task:" ++ taskId ++ ":log") [j])) := by
      simp only [writeCallback, hm, Bool.not_true, Bool.false_eq_true, if_false, gt_iff_lt, hj]
    rw [hw]
    refine ⟨?_, ?_, ?_⟩
    · intro k hk1 hk2
      rw [bestEffort_push_frame _ f.log _ j k hk2, bestEffort_push_frame r f.result _ j k hk1]
    · intro q1 hq1
      rw [LRange_congr (bestEffort_push_frame _ f.log _ j _ hne)]
      exact (bestEffort_push r f.result _ j q1 hq1).1
    · intro q2 hq2
      refine (bestEffort_push _ f.log _ j q2 ?_).1
      rw [← hq2]
      exact LRange_congr (bestEffort_push_frame r f.result _ j _ (Ne.symm hne))

/-- C20 as amended, at a confirmed match reported while the example task
runs, with both pushes made. -/
theorem writeCallback_appends_witness :
    exEvent.MatcherStatus = true ∧
    Redis.LRange (writeCallback exMarshal exRunning.redis exId (some exEvent) {})
        ("task:" ++ exId ++ ":result") = .ok ["finding-1"] ∧
    Redis.LRange (writeCallback exMarshal exRunning.redis exId (some exEvent) {})
        ("task:" ++ exId ++ ":log") = .ok ["finding-1"] :=
  have h := (writeCallback_appends exMarshal exRunning.redis exId (some exEvent) {}).2.2
    exEvent "finding-1" rfl rfl rfl
  ⟨rfl, h.2.1 [] rfl, h.2.2 [] rfl⟩

/-! ## C21: the task delete worker -/

/-- A successful `LREM key 0 v`: the list loses every occurrence of `v`, and no
other key changes. -/
theorem LRem_ok {r r' : Redis} {k v : String} {n : Nat} {xs : List String}
    (h : Redis.LRem r k v = .ok (r', n)) (hx : Redis.LRange r k = .ok xs) :
    Redis.LRange r' k = .ok (xs.filter (fun x => !(x == v))) ∧
    (∀ k', k' ≠ k → r'.lookup k' = r.lookup k') := by
  unfold Redis.LRem at h
  unfold Redis.LRange at hx
  cases hl : r.lookup k with
  | none =>
    simp only [hl] at h hx
    injection h with h; injection h with h1 h2; subst h1
    injection hx with hx; subst hx
    exact ⟨by simp [Redis.LRange, hl], fun _ _ => rfl⟩
  | some val =>
    cases val with
    | str x => simp [hl] at h
    | hash x => simp [hl] at h
    | list ys =>
      simp only [hl] at h hx
      injection hx with hx; subst hx
      injection h with h; injection h with h1 h2; subst h1
      by_cases he : (ys.filter (fun x => !(x == v))).isEmpty = true
      · simp only [he, if_true]
        refine ⟨?_, fun k' hk' => lookup_erase_ne r hk'⟩
        have : ys.filter (fun x => !(x == v)) = [] := by simpa using he
        simp [Redis.LRange, lookup_erase_self, this]
      · simp only [he, Bool.false_eq_true, if_false]
        exact ⟨by simp [Redis.LRange, lookup_put_self], fun k' hk' => lookup_put_ne r _ hk'⟩

/-- An `LREM` on a key that `LRANGE` can read succeeds. -/
theorem LRem_of_LRange {r : Redis} {k : String} (v : String) {xs : List String}
    (hx : Redis.LRange r k = .ok xs) : ∃ r' n, Redis.LRem r k v = .ok (r', n) := by
  unfold Redis.LRem
  unfold Redis.LRange at hx
  cases hl : r.lookup k with
  | none => exact ⟨_, _, rfl⟩
  | some val =>
    cases val with
    | str x => simp [hl] at hx
    | hash x => simp [hl] at hx
    | list ys => exact ⟨_, _, rfl⟩

/-- C22, failing input: the example task is left `pending_sync` by an `Add`
whose push to the fast-store list failed, is then started (durable status `running`, the
orchestrator entered), and the target compensator processes the queued
identifier. The compensator sets the durable status to `pending` while the
execution is still active: its update has no condition on the status. In the
same way a task deleted after the failed `Add` is set from `deleted` to
`pending`. -/
theorem compensator_overwrites_running :
    (DB.First exPendingSync.db exId).map (fun t => t.Status) = .ok "pending_sync" ∧
    (DB.First (reach exPendingSync [.start exId exTime {}, .runBegin 0 exTime none]).db
      exId).map (fun t => t.Status) = .ok "running" ∧
    (DB.First (reach exPendingSync [.start exId exTime {}, .runBegin 0 exTime none,
      .compensate exTime {}]).db exId).map (fun t => t.Status) = .ok "pending" ∧
    activeRuns (reach exPendingSync [.start exId exTime {}, .runBegin 0 exTime none,
      .compensate exTime {}]) exId = [0] ∧
    (DB.First (reach exPendingSync [.delete exId exTime {}]).db exId).map
      (fun t => t.Status) = .ok "deleted" ∧
    (DB.First (reach exPendingSync [.delete exId exTime {}, .compensate exTime {}]).db
      exId).map (fun t => t.Status) = .ok "pending" :=
  ⟨rfl, rfl, rfl, by decide, rfl, rfl⟩

/-- The part of C22 that holds: no reconciliation worker sets a durable status
other than `pending`. After one round of the target compensator every Task row
is a row of before or has the status `pending`; one round of the task delete
worker only removes Task rows; the target delete worker and the task
compensator leave the Task rows as they are. This holds under every fault. -/
theorem workers_set_no_other_status (decode : String → Option Payload) (s : Sys) (now : Time)
    (fc : CompFaults) (ft : TaskDeleteFaults) (fd : TargetDeleteFaults) (fp : TaskCompFaults) :
    (∀ t ∈ (compensatorStep s now fc).db.tasks, t.Status = "pending" ∨ t ∈ s.db.tasks) ∧
    (∀ t ∈ (taskDeleteStep s ft).db.tasks, t ∈ s.db.tasks) ∧
    (targetDeleteStep decode s fd).db.tasks = s.db.tasks ∧
    (taskCompensatorPass s fp).db = s.db := by
  refine ⟨?_, ?_, ?_, ?_⟩
  · intro t ht
    unfold compensatorStep at ht
    repeat' first | split at ht | dsimp only at ht
    all_goals first
      | exact Or.inr ht
      | skip
    all_goals
      cases hu : fc.update with
      | some e => simp only [hu, withFault, bestEffortDB] at ht; exact Or.inr ht
      | none =>
        simp only [hu, withFault, bestEffortDB, DB.UpdateStatus, List.mem_map] at ht
        obtain ⟨t0, h0, rfl⟩ := ht
        split
        · exact Or.inl rfl
        · exact Or.inr h0
  · intro t ht
    unfold taskDeleteStep at ht
    have hsub : ∀ (id : String) (tx1 tx2 : DB),
        withFault ft.begin (withFault ft.deleteTargets (.ok (DB.deleteTargets s.db id)))
          = .ok tx1 →
        withFault ft.deleteTask (.ok (DB.deleteTask tx1 id)) = .ok tx2 →
        t ∈ tx2.tasks → t ∈ s.db.tasks := by
      intro id tx1 tx2 e1 e2 h
      cases hb : ft.begin with
      | some e => simp [hb, withFault] at e1
      | none =>
        cases hd : ft.deleteTargets with
        | some e => simp [hb, hd, withFault] at e1
        | none =>
          cases hk : ft.deleteTask with
          | some e => simp [hk, withFault] at e2
          | none =>
            simp only [hb, hd, withFault, Except.ok.injEq] at e1
            simp only [hk, withFault, Except.ok.injEq] at e2
            subst e1; subst e2
            simp only [DB.deleteTask, DB.deleteTargets, List.mem_filter] at h
            exact h.1
    repeat' first | split at ht | dsimp only at ht
    all_goals first
      | exact ht
      | skip
    all_goals (apply hsub <;> assumption)
  · have hko : ∀ (D tx : DB), withFault fd.delete (.ok D) = .ok tx →
        D.tasks = s.db.tasks → tx.tasks = s.db.tasks := by
      intro D tx e h
      cases hd : fd.delete with
      | some e' => simp [hd, withFault] at e
      | none =>
        simp only [hd, withFault, Except.ok.injEq] at e
        subst e; exact h
    unfold targetDeleteStep
    repeat' first | split | dsimp only
    all_goals (apply hko <;> first | assumption | rfl)
  · unfold taskCompensatorPass
    split <;> rfl

/-! ## C23: a failed commit and the fast store -/

/-- C23, failing input: the example task after a `Delete` that left its
fast-store keys in place (`exDeleteQueued`), processed by the task delete
worker with the commit of the transaction failing. The durable store is as it
was, with the row of the task and its two Target rows, and yet the worker has
removed the keys of the task and its entry of `tasks:list`: the result of
`tx.Commit()` is not looked at. -/
theorem taskDelete_commit_unchecked :
    (taskDeleteStep exDeleteQueued { commit := some "deadlock" }).db = exDeleteQueued.db ∧
    (DB.First exDeleteQueued.db exId).map (fun t => t.Status) = .ok "deleted" ∧
    (DB.FindTargets exDeleteQueued.db exId).length = 2 ∧
    (taskKeys exId).map (fun k => (exDeleteQueued.redis.lookup k).isSome)
      = [true, true, false, false] ∧
    Redis.LRange exDeleteQueued.redis "tasks:list" = .ok [exId] ∧
    (taskKeys exId).map (fun k =>
      ((taskDeleteStep exDeleteQueued { commit := some "deadlock" }).redis.lookup k).isSome)
      = [false, false, false, false] ∧
    Redis.LRange (taskDeleteStep exDeleteQueued { commit := some "deadlock" }).redis
      "tasks:list" = .ok [] ∧
    repairEntries (taskDeleteStep exDeleteQueued { commit := some "deadlock" }).redis
      = [none, none, none, none, none, none] :=
  ⟨by decide, rfl, by decide, by decide, rfl, by decide, rfl, by decide⟩

/-! ## C24: the outcomes of the target delete worker -/

theorem targetsKey_ne_targetQueue (id : String) :
    GetTaskTargetsKey id ≠ "target:delete:queue" ∧ GetTaskTargetsKey id ≠ "target:delete:failed" ∧
    GetTaskTargetsKey id ≠ "tasks:list" :=
  ⟨key_ne_of_last (by decide) (by decide), key_ne_of_last (by decide) (by decide),
    key_ne_tasks_list _ _⟩

/-- The loop of `LREM` touches no other key. -/
theorem lremAll_frame (key : String) : ∀ (ts : List String) (fs : List (Option String))
    (r : Redis) (k : String), k ≠ key → (lremAll r key ts fs).1.lookup k = r.lookup k := by
  intro ts
  induction ts with
  | nil => intro fs r k _; rfl
  | cons t ts ih =>
    intro fs r k hk
    simp only [lremAll]
    cases hf : withFault fs.head?.join (Redis.LRem r key t) with
    | error e => exact ih fs.tail r k hk
    | ok p =>
      obtain ⟨r1, n⟩ := p
      simp only
      rw [ih fs.tail r1 k hk]
      cases hj : fs.head?.join with
      | some e => rw [hj] at hf; cases hf
      | none =>
        rw [hj] at hf
        simp only [withFault] at hf
        unfold Redis.LRem at hf
        split at hf
        · injection hf with hf; injection hf with h1 h2; subst h1; rfl
        · injection hf with hf; injection hf with h1 h2; subst h1
          split
          · exact lookup_erase_ne r hk
          · exact lookup_put_ne r _ hk
        · cases hf

/-- The loop of `LREM` without a fault on a readable list: no error, and the
list loses the named entries. -/
theorem lremAll_ok (key : String) : ∀ (ts : List String) (r : Redis) (L : List String),
    Redis.LRange r key = .ok L →
    (lremAll r key ts []).2 = [] ∧
    Redis.LRange (lremAll r key ts []).1 key = .ok (L.filter (fun x => !ts.contains x)) := by
  intro ts
  induction ts with
  | nil => intro r L hL; simpa [lremAll] using hL
  | cons t ts ih =>
    intro r L hL
    obtain ⟨r1, n, h1⟩ := LRem_of_LRange t hL
    obtain ⟨h2, _⟩ := LRem_ok h1 hL
    have hj : ([] : List (Option String)).head?.join = none := rfl
    have hstep : lremAll r key (t :: ts) [] = lremAll r1 key ts [] := by
      simp only [lremAll, hj, withFault, h1, List.tail_nil]
    rw [hstep]
    obtain ⟨e1, e2⟩ := ih r1 _ h2
    refine ⟨e1, ?_⟩
    rw [e2, List.filter_filter]
    congr 1
    apply List.filter_congr
    intro x _
    by_cases hx : x = t
    · subst hx; simp
    · have : (x == t) = false := by simpa using hx
      simp [this, hx]

/-- A fault on one of the `LREM` calls of the loop leaves an error. -/
theorem lremAll_errs (key : String) : ∀ (ts : List String) (fs : List (Option String))
    (r : Redis) (i : Nat) (e : String), i < ts.length → fs.get? i = some (some e) →
    (lremAll r key ts fs).2 ≠ [] := by
  intro ts
  induction ts with
  | nil => intro fs r i e hi; cases hi
  | cons t ts ih =>
    intro fs r i e hi hf
    cases fs with
    | nil => cases hf
    | cons f0 fs1 =>
      cases i with
      | zero =>
        simp only [List.get?_cons_zero, Option.some.injEq] at hf
        subst hf
        simp [lremAll, withFault]
      | succ j =>
        simp only [List.get?_cons_succ] at hf
        simp only [List.length_cons, Nat.succ_lt_succ_iff] at hi
        simp only [lremAll, List.head?_cons, List.tail_cons]
        cases hw : withFault (Option.join (some f0)) (Redis.LRem r key t) with
        | error e' => simp
        | ok p =>
          obtain ⟨r1, n⟩ := p
          exact ih fs1 r1 j e hi hf

/-- C24, the statement as written fails: the example task with a structured
payload naming `example.internal`, processed with the `LREM` and the push to
the dead-letter list both failing (the fast store is unreachable after the
commit). The Target row is deleted, the list entry is still there, and the
payload is in neither list. In the same way a bare task identifier whose
removal from `tasks:list` fails is in neither list, that failure being
ignored. -/
theorem targetDelete_lost_payload_counterexample :
    (DB.FindTargets (targetDeleteStep exDecode exTargetQueued
        { lrem := [some "i/o timeout"], push := some "i/o timeout" }).db exId).map
      (fun t => t.Target) = ["10.0.0.1:8080"] ∧
    Redis.LRange (targetDeleteStep exDecode exTargetQueued
        { lrem := [some "i/o timeout"], push := some "i/o timeout" }).redis
      (GetTaskTargetsKey exId) = .ok ["10.0.0.1:8080", "example.internal"] ∧
    Redis.LRange (targetDeleteStep exDecode exTargetQueued
        { lrem := [some "i/o timeout"], push := some "i/o timeout" }).redis
      "target:delete:queue" = .ok [] ∧
    Redis.LRange (targetDeleteStep exDecode exTargetQueued
        { lrem := [some "i/o timeout"], push := some "i/o timeout" }).redis
      "target:delete:failed" = .ok [] ∧
    Redis.LRange (targetDeleteStep exDecode
        { exCreated with
          redis := Redis.put exCreated.redis "target:delete:queue" (.list [exId]) }
        { listRem := some "i/o timeout" }).redis "tasks:list" = .ok [exId] ∧
    Redis.LRange (targetDeleteStep exDecode
        { exCreated with
          redis := Redis.put exCreated.redis "target:delete:queue" (.list [exId]) }
        { listRem := some "i/o timeout" }).redis "target:delete:failed" = .ok [] :=
  ⟨by decide, rfl, rfl, rfl, rfl, rfl⟩

/-- C24 as amended. For every payload with a task identifier popped by the
target delete worker:
(1) when the transaction fails at begin or at commit, the durable store and
every key but the queue are unchanged, and the payload is appended back to the
queue when that push is made (its error is dropped);
(2) when the delete statement fails, the durable store is unchanged, the
payload is not requeued, and it is appended to the dead-letter list when that
push is made;
(3) when the transaction commits, the Task rows are unchanged, the Target rows
of the task that the payload names (all of the task for a bare identifier) are
deleted and all other Target rows are unchanged, and the payload is not
requeued; then, for a structured payload, when no `LREM` fails the target list
of the task loses the named entries and keeps the others, and no other key
changes, so that the payload is in neither list, and when an `LREM` fails the
payload is appended to the dead-letter list when that push is made; for a bare
identifier, when the `DEL` succeeds the target list is gone, `tasks:list`
loses the identifier unless that removal fails, which is ignored, and no other
key changes, and when the `DEL` fails the payload is appended to the
dead-letter list when that push is made. -/
theorem targetDelete_outcomes (decode : String → Option Payload) (s : Sys)
    (f : TargetDeleteFaults) (raw : String) (rest : List String)
    (hq : s.redis.lookup "target:delete:queue" = some (.list (raw :: rest)))
    (hb : f.blpop = none) (hid : (payloadOf decode raw).TaskId ≠ "") :
    ((f.begin ≠ none ∨ (f.delete = none ∧ f.commit ≠ none)) →
      (targetDeleteStep decode s f).db = s.db ∧
      (∀ k, k ≠ "target:delete:queue" →
        (targetDeleteStep decode s f).redis.lookup k = s.redis.lookup k) ∧
      Redis.LRange (targetDeleteStep decode s f).redis "target:delete:queue"
        = .ok (if f.push = none then rest ++ [raw] else rest)) ∧
    (f.begin = none → f.delete ≠ none →
      (targetDeleteStep decode s f).db = s.db ∧
      Redis.LRange (targetDeleteStep decode s f).redis "target:delete:queue" = .ok rest ∧
      (∀ k, k ≠ "target:delete:queue" → k ≠ "target:delete:failed" →
        (targetDeleteStep decode s f).redis.lookup k = s.redis.lookup k) ∧
      (∀ q, Redis.LRange s.redis "target:delete:failed" = .ok q →
        Redis.LRange (targetDeleteStep decode s f).redis "target:delete:failed"
          = .ok (if f.push = none then q ++ [raw] else q))) ∧
    (f.begin = none → f.delete = none → f.commit = none →
      (targetDeleteStep decode s f).db.tasks = s.db.tasks ∧
      (targetDeleteStep decode s f).db.targets = s.db.targets.filter (fun t =>
        !(t.TaskID == (payloadOf decode raw).TaskId &&
          ((payloadOf decode raw).Targets.isEmpty ||
            (payloadOf decode raw).Targets.contains t.Target))) ∧
      Redis.LRange (targetDeleteStep decode s f).redis "target:delete:queue" = .ok rest ∧
      ((payloadOf decode raw).Targets ≠ [] → f.lrem = [] →
        ∀ L, Redis.LRange s.redis (GetTaskTargetsKey (payloadOf decode raw).TaskId) = .ok L →
          Redis.LRange (targetDeleteStep decode s f).redis
              (GetTaskTargetsKey (payloadOf decode raw).TaskId)
            = .ok (L.filter (fun x => !(payloadOf decode raw).Targets.contains x)) ∧
          ∀ k, k ≠ GetTaskTargetsKey (payloadOf decode raw).TaskId →
            k ≠ "target:delete:queue" →
            (targetDeleteStep decode s f).redis.lookup k = s.redis.lookup k) ∧
      ((payloadOf decode raw).Targets ≠ [] →
        (∃ i e, i < (payloadOf decode raw).Targets.length ∧ f.lrem.get? i = some (some e)) →
        ∀ q, Redis.LRange s.redis "target:delete:failed" = .ok q →
          Redis.LRange (targetDeleteStep decode s f).redis "target:delete:failed"
            = .ok (if f.push = none then q ++ [raw] else q)) ∧
      ((payloadOf decode raw).Targets = [] → f.del = none →
        (targetDeleteStep decode s f).redis.lookup
          (GetTaskTargetsKey (payloadOf decode raw).TaskId) = none ∧
        (∀ ids, Redis.LRange s.redis "tasks:list" = .ok ids →
          Redis.LRange (targetDeleteStep decode s f).redis "tasks:list"
            = .ok (if f.listRem = none
                then ids.filter (fun x => !(x == (payloadOf decode raw).TaskId)) else ids)) ∧
        ∀ k, k ≠ GetTaskTargetsKey (payloadOf decode raw).TaskId →
          k ≠ "target:delete:queue" → k ≠ "tasks:list" →
          (targetDeleteStep decode s f).redis.lookup k = s.redis.lookup k) ∧
      ((payloadOf decode raw).Targets = [] → f.del ≠ none →
        ∀ q, Redis.LRange s.redis "target:delete:failed" = .ok q →
          Redis.LRange (targetDeleteStep decode s f).redis "target:delete:failed"
            = .ok (if f.push = none then q ++ [raw] else q))) := by
  obtain ⟨r0, hpop, hr0q, _, hr0⟩ := BLPop_cons hq
  obtain ⟨hkq, hkf, hkl⟩ := targetsKey_ne_targetQueue (payloadOf decode raw).TaskId
  have hid' : ((payloadOf decode raw).TaskId == "") = false := by simpa using hid
  have hfq : "target:delete:failed" ≠ "target:delete:queue" := by decide
  have hlq : "tasks:list" ≠ "target:delete:queue" := by decide
  have hr0f : ∀ q, Redis.LRange s.redis "target:delete:failed" = .ok q →
      Redis.LRange r0 "target:delete:failed" = .ok q := by
    intro q h; rw [← h]; exact LRange_congr (hr0 _ hfq)
  -- the three ways out that do not touch the durable store
  have hrequeue : (f.begin ≠ none ∨ (f.delete = none ∧ f.commit ≠ none)) →
      targetDeleteStep decode s f = { s with redis := bestEffort r0 (withFault f.push
        (Redis.RPush r0 "target:delete:queue" [raw])) } := by
    intro h
    simp only [targetDeleteStep, hb, withFault_none, hpop, hid', Bool.false_eq_true, if_false]
    cases hbg : f.begin with
    | some e => simp [withFault]
    | none =>
      rcases h with h | ⟨h1, h2⟩
      · exact absurd hbg h
      · cases hcm : f.commit with
        | none => exact absurd hcm h2
        | some e => simp [withFault, h1]
  have hfailed : f.begin = none → f.delete ≠ none →
      targetDeleteStep decode s f = { s with redis := bestEffort r0 (withFault f.push
        (Redis.RPush r0 "target:delete:failed" [raw])) } := by
    intro h1 h2
    simp only [targetDeleteStep, hb, withFault_none, hpop, hid', Bool.false_eq_true, if_false, h1]
    cases hd : f.delete with
    | none => exact absurd hd h2
    | some e => simp [withFault]
  refine ⟨?_, ?_, ?_⟩
  · intro h
    rw [hrequeue h]
    obtain ⟨p1, p2⟩ := bestEffort_push r0 f.push "target:delete:queue" raw rest hr0q
    exact ⟨rfl, fun k hk => (p2 k hk).trans (hr0 k hk), p1⟩
  · intro h1 h2
    rw [hfailed h1 h2]
    refine ⟨rfl, ?_, ?_, ?_⟩
    · rw [← hr0q]
      exact LRange_congr (bestEffort_push_frame r0 f.push _ raw _ (Ne.symm hfq))
    · intro k hk1 hk2
      exact (bestEffort_push_frame r0 f.push _ raw k hk2).trans (hr0 k hk1)
    · intro q hq'
      exact (bestEffort_push r0 f.push "target:delete:failed" raw q (hr0f q hq')).1
  · intro h1 h2 h3
    by_cases hT : (payloadOf decode raw).Targets = []
    · -- a bare task identifier
      have hlen : ¬ ((payloadOf decode raw).Targets.length > 0) := by simp [hT]
      have hstepE : ∀ e, f.del = some e → targetDeleteStep decode s f =
          { s with db := DB.deleteTargets s.db (payloadOf decode raw).TaskId,
                   redis := bestEffort r0 (withFault f.push
                     (Redis.RPush r0 "target:delete:failed" [raw])) } := by
        intro e he
        simp only [targetDeleteStep, hb, withFault_none, hpop, hid', Bool.false_eq_true, if_false,
          h1, h2, h3, hlen, he, withFault]
      have hstepO : f.del = none → targetDeleteStep decode s f =
          { s with db := DB.deleteTargets s.db (payloadOf decode raw).TaskId,
                   redis := bestEffort
                     (Redis.erase r0 (GetTaskTargetsKey (payloadOf decode raw).TaskId))
                     ((withFault f.listRem (Redis.LRem
                       (Redis.erase r0 (GetTaskTargetsKey (payloadOf decode raw).TaskId))
                       "tasks:list" (payloadOf decode raw).TaskId)).map Prod.fst) } := by
        intro he
        simp only [targetDeleteStep, hb, withFault_none, hpop, hid', Bool.false_eq_true, if_false,
          h1, h2, h3, hlen, he, Redis.Del, List.foldl_cons, List.foldl_nil]
      have hdb : (targetDeleteStep decode s f).db =
          DB.deleteTargets s.db (payloadOf decode raw).TaskId := by
        cases hd : f.del with
        | none => rw [hstepO hd]
        | some e => rw [hstepE e hd]
      refine ⟨by rw [hdb]; rfl, ?_, ?_, fun h => absurd hT h, fun h => absurd hT h, ?_, ?_⟩
      · rw [hdb]
        simp [DB.deleteTargets, hT]
      · rw [← hr0q]
        cases hd : f.del with
        | some e =>
          rw [hstepE e hd]
          exact LRange_congr (bestEffort_push_frame r0 f.push _ raw _ (Ne.symm hfq))
        | none =>
          rw [hstepO hd]
          exact LRange_congr (((bestEffort_LRem _ f.listRem "tasks:list" _).1 _
            (Ne.symm hlq)).trans (lookup_erase_ne r0 (Ne.symm hkq)))
      · intro _ hd
        rw [hstepO hd]
        refine ⟨?_, ?_, ?_⟩
        · exact ((bestEffort_LRem _ f.listRem "tasks:list" _).1 _ hkl).trans
            (lookup_erase_self r0 _)
        · intro ids hids
          have hr1 : Redis.LRange (Redis.erase r0
              (GetTaskTargetsKey (payloadOf decode raw).TaskId)) "tasks:list" = .ok ids := by
            rw [← hids]
            exact LRange_congr ((lookup_erase_ne r0 (Ne.symm hkl)).trans (hr0 _ hlq))
          cases hl : f.listRem with
          | some e => simpa [withFault, bestEffort, Except.map] using hr1
          | none =>
            obtain ⟨r2, n, h4⟩ := LRem_of_LRange (payloadOf decode raw).TaskId hr1
            simp only [withFault, h4, Except.map, bestEffort, if_true]
            exact (LRem_ok h4 hr1).1
        · intro k hk1 hk2 hk3
          exact ((bestEffort_LRem _ f.listRem "tasks:list" _).1 k hk3).trans
            ((lookup_erase_ne r0 hk1).trans (hr0 k hk2))
      · intro _ hd q hq'
        cases hd' : f.del with
        | none => exact absurd hd' hd
        | some e =>
          rw [hstepE e hd']
          exact (bestEffort_push r0 f.push "target:delete:failed" raw q (hr0f q hq')).1
    · -- a structured payload
      have hlen : (payloadOf decode raw).Targets.length > 0 :=
        List.length_pos.mpr hT
      have hstep : targetDeleteStep decode s f =
          if (lremAll r0 (GetTaskTargetsKey (payloadOf decode raw).TaskId)
              (payloadOf decode raw).Targets f.lrem).2.length > 0 then
            { s with db := DB.deleteTargetsIn s.db (payloadOf decode raw).TaskId
                       (payloadOf decode raw).Targets,
                     redis := bestEffort (lremAll r0 (GetTaskTargetsKey (payloadOf decode raw).TaskId)
                         (payloadOf decode raw).Targets f.lrem).1 (withFault f.push
                       (Redis.RPush (lremAll r0 (GetTaskTargetsKey (payloadOf decode raw).TaskId)
                         (payloadOf decode raw).Targets f.lrem).1 "target:delete:failed" [raw])) }
          else
            { s with db := DB.deleteTargetsIn s.db (payloadOf decode raw).TaskId
                       (payloadOf decode raw).Targets,
                     redis := (lremAll r0 (GetTaskTargetsKey (payloadOf decode raw).TaskId)
                       (payloadOf decode raw).Targets f.lrem).1 } := by
        simp only [targetDeleteStep, hb, withFault_none, hpop, hid', Bool.false_eq_true, if_false,
          h1, h2, h3, hlen, if_true]
      have hdb : (targetDeleteStep decode s f).db =
          DB.deleteTargetsIn s.db (payloadOf decode raw).TaskId (payloadOf decode raw).Targets := by
        rw [hstep]; split <;> rfl
      have hE : (payloadOf decode raw).Targets.isEmpty = false := by
        cases hp : (payloadOf decode raw).Targets with
        | nil => exact absurd hp hT
        | cons a l => rfl
      refine ⟨by rw [hdb]; rfl, ?_, ?_, ?_, ?_, fun h => absurd h hT, fun h => absurd h hT⟩
      · rw [hdb]
        simp [DB.deleteTargetsIn, hE]
      · rw [← hr0q, hstep]
        split
        · exact LRange_congr ((bestEffort_push_frame _ f.push _ raw _ (Ne.symm hfq)).trans
            (lremAll_frame _ _ _ r0 _ (Ne.symm hkq)))
        · exact LRange_congr (lremAll_frame _ _ _ r0 _ (Ne.symm hkq))
      · intro _ hl L hL
        have hL0 : Redis.LRange r0 (GetTaskTargetsKey (payloadOf decode raw).TaskId) = .ok L := by
          rw [← hL]; exact LRange_congr (hr0 _ hkq)
        obtain ⟨e1, e2⟩ := lremAll_ok (GetTaskTargetsKey (payloadOf decode raw).TaskId)
          (payloadOf decode raw).Targets r0 L hL0
        rw [hstep, hl, e1]
        simp only [List.length_nil, gt_iff_lt, lt_self_iff_false, if_false]
        exact ⟨e2, fun k hk1 hk2 => (lremAll_frame _ _ _ r0 k hk1).trans (hr0 k hk2)⟩
      · intro _ ⟨i, e, hi, hf⟩ q hq'
        have hne := lremAll_errs (GetTaskTargetsKey (payloadOf decode raw).TaskId)
          (payloadOf decode raw).Targets f.lrem r0 i e hi hf
        have hpos : (lremAll r0 (GetTaskTargetsKey (payloadOf decode raw).TaskId)
            (payloadOf decode raw).Targets f.lrem).2.length > 0 := List.length_pos.mpr hne
        rw [hstep, if_pos hpos]
        refine (bestEffort_push _ f.push "target:delete:failed" raw q ?_).1
        rw [← hr0f q hq']
        exact LRange_congr (lremAll_frame _ _ _ r0 _ (Ne.symm hkf))

/-- C24 as amended, at the example task: the structured payload naming
`example.internal` is processed without a fault; the queue is empty afterwards
and the target list of the task keeps its other entry. -/
theorem targetDelete_outcomes_witness :
    exTargetQueued.redis.lookup "target:delete:queue" = some (.list ["payload-1"]) ∧
    (payloadOf exDecode "payload-1").TaskId ≠ "" ∧
    Redis.LRange (targetDeleteStep exDecode exTargetQueued {}).redis "target:delete:queue"
      = .ok [] ∧
    Redis.LRange (targetDeleteStep exDecode exTargetQueued {}).redis (GetTaskTargetsKey exId)
      = .ok ["10.0.0.1:8080"] :=
  ⟨by decide, by decide,
    ((targetDelete_outcomes exDecode exTargetQueued {} "payload-1" [] (by decide) rfl
      (by decide)).2.2 rfl rfl rfl).2.2.1,
    (((targetDelete_outcomes exDecode exTargetQueued {} "payload-1" [] (by decide) rfl
      (by decide)).2.2 rfl rfl rfl).2.2.2.1 (by decide) rfl
        ["10.0.0.1:8080", "example.internal"] rfl).1⟩

/-! ## C25: one pass of the task compensator -/

/-- The task compensator on one row, with the stores available and their keys
well typed: the info hash is there afterwards, the task listing has the
identifier at its end when it did not have it, and nothing else changes. -/
theorem taskCompensatorRow_spec (r : Redis) (t : Task) (ids : List String)
    (hl : Redis.LRange r "tasks:list" = .ok ids)
    (ht : r.lookup ("task:" ++ t.ID ++ ":info") = none ∨
      ∃ h, r.lookup ("task:" ++ t.ID ++ ":info") = some (.hash h)) :
    (∃ h, (taskCompensatorRow r t {}).lookup ("task:" ++ t.ID ++ ":info") = some (.hash h)) ∧
    Redis.LRange (taskCompensatorRow r t {}) "tasks:list"
      = .ok (if t.ID ∈ ids then ids else ids ++ [t.ID]) ∧
    (∀ k v, r.lookup k = some v → k ≠ "tasks:list" →
      (taskCompensatorRow r t {}).lookup k = some v) ∧
    (∀ k, k ≠ "task:" ++ t.ID ++ ":info" → k ≠ "tasks:list" →
      (taskCompensatorRow r t {}).lookup k = r.lookup k) := by
  have hkl : "tasks:list" ≠ "task:" ++ t.ID ++ ":info" := (key_ne_tasks_list _ _).symm
  -- the store after the info hash has been restored
  have h1 : ∃ r1, (if (r.lookup ("task:" ++ t.ID ++ ":info")).isSome then
        (Except.ok r : Except String Redis)
      else Redis.HSet r ("task:" ++ t.ID ++ ":info") (infoOfTask t)) = .ok r1 ∧
      (∃ h, r1.lookup ("task:" ++ t.ID ++ ":info") = some (.hash h)) ∧
      (∀ k v, r.lookup k = some v → r1.lookup k = some v) ∧
      (∀ k, k ≠ "task:" ++ t.ID ++ ":info" → r1.lookup k = r.lookup k) := by
    rcases ht with ht | ⟨h, ht⟩
    · refine ⟨Redis.put r ("task:" ++ t.ID ++ ":info")
          (.hash ((infoOfTask t).foldl hashSet [])), ?_, ⟨_, lookup_put_self _ _ _⟩, ?_, ?_⟩
      · simp [ht, Redis.HSet]
      · intro k v hk
        have : k ≠ "task:" ++ t.ID ++ ":info" := by
          intro e; rw [e, ht] at hk; cases hk
        rw [lookup_put_ne r _ this]; exact hk
      · intro k hk; exact lookup_put_ne r _ hk
    · exact ⟨r, by simp [ht], ⟨h, ht⟩, fun _ _ h => h, fun _ _ => rfl⟩
  obtain ⟨r1, hr1, hinfo, hkeep, hframe⟩ := h1
  have hl1 : Redis.LRange r1 "tasks:list" = .ok ids := by
    rw [← hl]; exact LRange_congr (hframe _ hkl)
  have hrow : taskCompensatorRow r t {} =
      if ids.contains t.ID then r1
      else bestEffort r1 (Redis.RPush r1 "tasks:list" [t.ID]) := by
    unfold taskCompensatorRow
    simp only [withFault_none, Redis.Exists]
    by_cases hs : (r.lookup ("task:" ++ t.ID ++ ":info")).isSome = true
    · simp only [hs, if_true] at hr1 ⊢
      injection hr1 with hr1
      subst hr1
      simp [hl1]
    · simp only [hs, Bool.false_eq_true, if_false] at hr1 ⊢
      simp [hr1, hl1]
  rw [hrow]
  by_cases hc : ids.contains t.ID = true
  · have hm : t.ID ∈ ids := by simpa using hc
    simp only [hc, if_true, hm]
    exact ⟨hinfo, hl1, fun k v hk _ => hkeep k v hk, fun k hk _ => hframe k hk⟩
  · have hm : t.ID ∉ ids := by simpa using hc
    simp only [hc, Bool.false_eq_true, if_false, hm]
    obtain ⟨r2, hr2⟩ := @RPush_of_LRange r1 "tasks:list" ids [t.ID] (List.cons_ne_nil _ _) hl1
    obtain ⟨⟨q, hq, hq'⟩, hf2⟩ := RPush_ok hr2
    have hqq : q = ids := by rw [hl1] at hq; injection hq with h; exact h.symm
    subst hqq
    simp only [hr2, bestEffort]
    refine ⟨?_, by simp [Redis.LRange, hq'], ?_, ?_⟩
    · obtain ⟨h, hh⟩ := hinfo
      exact ⟨h, by rw [hf2 _ hkl.symm]; exact hh⟩
    · intro k v hk hne
      rw [hf2 k hne]; exact hkeep k v hk
    · intro k hk hne
      rw [hf2 k hne]; exact hframe k hk

/-- A row whose info key is there and whose identifier is listed is passed
over. -/
theorem taskCompensatorRow_id (r : Redis) (t : Task) (ids : List String)
    (hl : Redis.LRange r "tasks:list" = .ok ids) (hm : t.ID ∈ ids)
    (hs : (r.lookup ("task:" ++ t.ID ++ ":info")).isSome = true) :
    taskCompensatorRow r t {} = r := by
  have hc : ids.contains t.ID = true := by simpa using hm
  simp [taskCompensatorRow, withFault_none, Redis.Exists, hs, hl, hc, hm]

theorem taskCompensator_foldl_id (tasks : List Task) (r : Redis) (ids : List String)
    (hl : Redis.LRange r "tasks:list" = .ok ids)
    (h : ∀ t ∈ tasks, t.ID ∈ ids ∧ (r.lookup ("task:" ++ t.ID ++ ":info")).isSome = true) :
    tasks.foldl (fun r t => taskCompensatorRow r t {}) r = r := by
  induction tasks with
  | nil => rfl
  | cons t ts ih =>
    rw [List.foldl_cons,
      taskCompensatorRow_id r t ids hl (h t (List.mem_cons_self _ _)).1
        (h t (List.mem_cons_self _ _)).2]
    exact ih (fun x hx => h x (List.mem_cons_of_mem _ hx))

/-- The loop of the task compensator over the rows. -/
theorem taskCompensator_foldl (tasks : List Task) : ∀ (r : Redis) (ids : List String),
    Redis.LRange r "tasks:list" = .ok ids →
    (∀ t ∈ tasks, r.lookup ("task:" ++ t.ID ++ ":info") = none ∨
      ∃ h, r.lookup ("task:" ++ t.ID ++ ":info") = some (.hash h)) →
    (∃ added, Redis.LRange (tasks.foldl (fun r t => taskCompensatorRow r t {}) r) "tasks:list"
        = .ok (ids ++ added) ∧ added.Nodup ∧
      (∀ x ∈ added, x ∉ ids ∧ ∃ t ∈ tasks, t.ID = x) ∧
      (∀ t ∈ tasks, t.ID ∈ ids ++ added)) ∧
    (∀ t ∈ tasks, ∃ h, (tasks.foldl (fun r t => taskCompensatorRow r t {}) r).lookup
      ("task:" ++ t.ID ++ ":info") = some (.hash h)) ∧
    (∀ k v, r.lookup k = some v → k ≠ "tasks:list" →
      (tasks.foldl (fun r t => taskCompensatorRow r t {}) r).lookup k = some v) ∧
    (∀ k, r.lookup k = none →
      (tasks.foldl (fun r t => taskCompensatorRow r t {}) r).lookup k ≠ none →
      k = "tasks:list" ∨ ∃ t ∈ tasks, k = "task:" ++ t.ID ++ ":info") := by
  induction tasks with
  | nil =>
    intro r ids hl _
    refine ⟨⟨[], (by simpa using hl), List.nodup_nil, fun x hx => (by cases hx),
      fun t ht => (by cases ht)⟩, fun t ht => (by cases ht), fun k v hk _ => hk, ?_⟩
    intro k hk hne
    exact absurd hk hne
  | cons t ts ih =>
    intro r ids hl hty
    obtain ⟨hinfo, hlist, hkeep, hframe⟩ :=
      taskCompensatorRow_spec r t ids hl (hty t (List.mem_cons_self _ _))
    have hty1 : ∀ x ∈ ts, (taskCompensatorRow r t {}).lookup ("task:" ++ x.ID ++ ":info") = none ∨
        ∃ h, (taskCompensatorRow r t {}).lookup ("task:" ++ x.ID ++ ":info") = some (.hash h) := by
      intro x hx
      by_cases hxt : x.ID = t.ID
      · rw [hxt]; exact Or.inr hinfo
      · rw [hframe _ (fun e => hxt (infoKey_injective e)) (key_ne_tasks_list _ _)]
        exact hty x (List.mem_cons_of_mem _ hx)
    obtain ⟨⟨added1, ha1, ha2, ha3, ha4⟩, hb, hc, hd⟩ := ih _ _ hlist hty1
    rw [List.foldl_cons]
    refine ⟨?_, ?_, ?_, ?_⟩
    · by_cases hm : t.ID ∈ ids
      · simp only [hm, if_true] at ha1 ha3 ha4
        refine ⟨added1, ha1, ha2, fun x hx => ⟨(ha3 x hx).1, ?_⟩, ?_⟩
        · obtain ⟨y, hy, hyx⟩ := (ha3 x hx).2
          exact ⟨y, List.mem_cons_of_mem _ hy, hyx⟩
        · intro x hx
          rcases List.mem_cons.1 hx with rfl | hx
          · exact List.mem_append_left _ hm
          · exact ha4 x hx
      · simp only [hm, if_false] at ha1 ha3 ha4
        refine ⟨t.ID :: added1, by rw [ha1]; simp, ?_, ?_, ?_⟩
        · refine List.nodup_cons.2 ⟨fun h => ?_, ha2⟩
          exact (ha3 _ h).1 (List.mem_append_right _ (List.mem_singleton_self _))
        · intro x hx
          rcases List.mem_cons.1 hx with rfl | hx
          · exact ⟨hm, t, List.mem_cons_self _ _, rfl⟩
          · refine ⟨fun h => (ha3 x hx).1 (List.mem_append_left _ h), ?_⟩
            obtain ⟨y, hy, hyx⟩ := (ha3 x hx).2
            exact ⟨y, List.mem_cons_of_mem _ hy, hyx⟩
        · intro x hx
          rcases List.mem_cons.1 hx with rfl | hx
          · simp
          · have := ha4 x hx
            simpa using this
    · intro x hx
      rcases List.mem_cons.1 hx with rfl | hx
      · obtain ⟨h, hh⟩ := hinfo
        exact ⟨h, hc _ _ hh (key_ne_tasks_list _ _)⟩
      · exact hb x hx
    · intro k v hk hne
      exact hc k v (hkeep k v hk hne) hne
    · intro k hk hne
      by_cases hkl : k = "tasks:list"
      · exact Or.inl hkl
      by_cases hki : k = "task:" ++ t.ID ++ ":info"
      · exact Or.inr ⟨t, List.mem_cons_self _ _, hki⟩
      · have h0 : (taskCompensatorRow r t {}).lookup k = none := by
          rw [hframe k hki hkl]; exact hk
        rcases hd k h0 hne with h | ⟨y, hy, hyk⟩
        · exact Or.inl h
        · exact Or.inr ⟨y, List.mem_cons_of_mem _ hy, hyk⟩

/-- The hash that `HSET` makes of the fields of a task on a key that is not
there holds these five fields. -/
theorem infoOfTask_foldl (t : Task) :
    (infoOfTask t).foldl hashSet []
      = [("taskId", t.ID), ("taskName", t.Name), ("status", t.Status),
         ("created_at", t.CreatedAt.text), ("updated_at", t.UpdatedAt.text)] := by
  simp [infoOfTask, hashSet]

/-- The task compensator on a row whose info key is not there: the key holds
the five fields of the row afterwards. -/
theorem taskCompensatorRow_restores (r : Redis) (t : Task) (ids : List String)
    (hl : Redis.LRange r "tasks:list" = .ok ids)
    (hn : r.lookup ("task:" ++ t.ID ++ ":info") = none) :
    (taskCompensatorRow r t {}).lookup ("task:" ++ t.ID ++ ":info")
      = some (.hash [("taskId", t.ID), ("taskName", t.Name), ("status", t.Status),
          ("created_at", t.CreatedAt.text), ("updated_at", t.UpdatedAt.text)]) := by
  have hkl : "tasks:list" ≠ "task:" ++ t.ID ++ ":info" := (key_ne_tasks_list _ _).symm
  have hl1 : Redis.LRange (Redis.put r ("task:" ++ t.ID ++ ":info")
      (.hash ((infoOfTask t).foldl hashSet []))) "tasks:list" = .ok ids := by
    rw [← hl]; exact LRange_congr (lookup_put_ne r _ hkl)
  have hrow : taskCompensatorRow r t {} =
      if ids.contains t.ID then Redis.put r ("task:" ++ t.ID ++ ":info")
          (.hash ((infoOfTask t).foldl hashSet []))
      else bestEffort (Redis.put r ("task:" ++ t.ID ++ ":info")
          (.hash ((infoOfTask t).foldl hashSet [])))
        (Redis.RPush (Redis.put r ("task:" ++ t.ID ++ ":info")
          (.hash ((infoOfTask t).foldl hashSet []))) "tasks:list" [t.ID]) := by
    unfold taskCompensatorRow
    simp [withFault_none, Redis.Exists, hn, Redis.HSet, hl1]
  rw [hrow, ← infoOfTask_foldl]
  split
  · exact lookup_put_self _ _ _
  · have h := bestEffort_push_frame (Redis.put r ("task:" ++ t.ID ++ ":info")
      (.hash ((infoOfTask t).foldl hashSet []))) none "tasks:list" t.ID _ hkl.symm
    rw [withFault_none] at h
    rw [h]
    exact lookup_put_self _ _ _

/-- The loop of the task compensator over the rows: an info key that is not
there holds afterwards the five fields of a row of the loop with that
identifier. -/
theorem taskCompensator_foldl_restores (tasks : List Task) : ∀ (r : Redis) (ids : List String),
    Redis.LRange r "tasks:list" = .ok ids →
    (∀ t ∈ tasks, r.lookup ("task:" ++ t.ID ++ ":info") = none ∨
      ∃ h, r.lookup ("task:" ++ t.ID ++ ":info") = some (.hash h)) →
    ∀ t ∈ tasks, r.lookup ("task:" ++ t.ID ++ ":info") = none →
      ∃ t' ∈ tasks, t'.ID = t.ID ∧
        (tasks.foldl (fun r t => taskCompensatorRow r t {}) r).lookup ("task:" ++ t.ID ++ ":info")
          = some (.hash [("taskId", t'.ID), ("taskName", t'.Name), ("status", t'.Status),
              ("created_at", t'.CreatedAt.text), ("updated_at", t'.UpdatedAt.text)]) := by
  induction tasks with
  | nil => intro r ids _ _ t ht; cases ht
  | cons x xs ih =>
    intro r ids hl hty t ht hn
    obtain ⟨hinfo, hlist, hkeep, hframe⟩ :=
      taskCompensatorRow_spec r x ids hl (hty x (List.mem_cons_self _ _))
    have hty1 : ∀ y ∈ xs, (taskCompensatorRow r x {}).lookup ("task:" ++ y.ID ++ ":info") = none ∨
        ∃ h, (taskCompensatorRow r x {}).lookup ("task:" ++ y.ID ++ ":info") = some (.hash h) := by
      intro y hy
      by_cases hyx : y.ID = x.ID
      · rw [hyx]; exact Or.inr hinfo
      · rw [hframe _ (fun e => hyx (infoKey_injective e)) (key_ne_tasks_list _ _)]
        exact hty y (List.mem_cons_of_mem _ hy)
    rw [List.foldl_cons]
    by_cases htx : t.ID = x.ID
    · refine ⟨x, List.mem_cons_self _ _, htx.symm, ?_⟩
      have h1 := taskCompensatorRow_restores r x ids hl (by rw [← htx]; exact hn)
      rw [htx]
      exact (taskCompensator_foldl xs _ _ hlist hty1).2.2.1 _ _ h1 (key_ne_tasks_list _ _)
    · have ht' : t ∈ xs := by
        rcases List.mem_cons.1 ht with rfl | h
        · exact absurd rfl htx
        · exact h
      have hn1 : (taskCompensatorRow r x {}).lookup ("task:" ++ t.ID ++ ":info") = none := by
        rw [hframe _ (fun e => htx (infoKey_injective e)) (key_ne_tasks_list _ _)]
        exact hn
      obtain ⟨t', ht'm, hid, hh⟩ := ih _ _ hlist hty1 t ht' hn1
      exact ⟨t', List.mem_cons_of_mem _ ht'm, hid, hh⟩

/-- C25. One pass of the task compensator with both stores available, the
task listing readable as a list and the info key of every task that is not
deleted absent or a hash: afterwards every such task has an info hash and its
identifier is in `tasks:list`; an info hash that was missing holds the five
fields `taskId`, `taskName`, `status`, `created_at`, `updated_at` of the row
with that identifier (of the row itself, identifiers being unique); every key
that existed, other than the listing, holds what it held; the listing is what
it was followed by identifiers that it did not have, each once and each of a
task that is not deleted; a key that is new is the listing or the info key of a
task that is not deleted; the durable store is not modified; and a second pass
changes nothing. -/
theorem taskCompensator_converges (s : Sys) (ids : List String)
    (hl : Redis.LRange s.redis "tasks:list" = .ok ids)
    (hty : ∀ t ∈ s.db.tasks, t.Status ≠ "deleted" →
      s.redis.lookup ("task:" ++ t.ID ++ ":info") = none ∨
      ∃ h, s.redis.lookup ("task:" ++ t.ID ++ ":info") = some (.hash h)) :
    (∀ t ∈ s.db.tasks, t.Status ≠ "deleted" →
      (∃ h, (taskCompensatorPass s {}).redis.lookup ("task:" ++ t.ID ++ ":info")
        = some (.hash h)) ∧
      ∃ ids', Redis.LRange (taskCompensatorPass s {}).redis "tasks:list" = .ok ids' ∧
        t.ID ∈ ids') ∧
    (∀ t ∈ s.db.tasks, t.Status ≠ "deleted" →
      s.redis.lookup ("task:" ++ t.ID ++ ":info") = none →
      ∃ t' ∈ s.db.tasks, t'.Status ≠ "deleted" ∧ t'.ID = t.ID ∧
        (taskCompensatorPass s {}).redis.lookup ("task:" ++ t.ID ++ ":info")
          = some (.hash [("taskId", t'.ID), ("taskName", t'.Name), ("status", t'.Status),
              ("created_at", t'.CreatedAt.text), ("updated_at", t'.UpdatedAt.text)])) ∧
    (s.db.tasks.Pairwise (fun a b => a.ID ≠ b.ID) →
      ∀ t ∈ s.db.tasks, t.Status ≠ "deleted" →
        s.redis.lookup ("task:" ++ t.ID ++ ":info") = none →
        (taskCompensatorPass s {}).redis.lookup ("task:" ++ t.ID ++ ":info")
          = some (.hash [("taskId", t.ID), ("taskName", t.Name), ("status", t.Status),
              ("created_at", t.CreatedAt.text), ("updated_at", t.UpdatedAt.text)])) ∧
    (∀ k v, s.redis.lookup k = some v → k ≠ "tasks:list" →
      (taskCompensatorPass s {}).redis.lookup k = some v) ∧
    (∃ added, Redis.LRange (taskCompensatorPass s {}).redis "tasks:list" = .ok (ids ++ added) ∧
      added.Nodup ∧
      ∀ x ∈ added, x ∉ ids ∧ ∃ t ∈ s.db.tasks, t.Status ≠ "deleted" ∧ t.ID = x) ∧
    (∀ k, s.redis.lookup k = none → (taskCompensatorPass s {}).redis.lookup k ≠ none →
      k = "tasks:list" ∨
      ∃ t ∈ s.db.tasks, t.Status ≠ "deleted" ∧ k = "task:" ++ t.ID ++ ":info") ∧
    (taskCompensatorPass s {}).db = s.db ∧
    taskCompensatorPass (taskCompensatorPass s {}) {} = taskCompensatorPass s {} := by
  have hpass : ∀ s : Sys, taskCompensatorPass s {} =
      { s with
        redis := List.foldl (fun r t => taskCompensatorRow r t {}) s.redis
                   (s.db.tasks.filter (fun t => t.Status != "deleted")) } := fun _ => rfl
  have hmem : ∀ t, t ∈ s.db.tasks.filter (fun t => t.Status != "deleted") ↔
      t ∈ s.db.tasks ∧ t.Status ≠ "deleted" := by
    intro t; simp [List.mem_filter]
  obtain ⟨⟨added, ha1, ha2, ha3, ha4⟩, hb, hc, hd⟩ :=
    taskCompensator_foldl (s.db.tasks.filter (fun t => t.Status != "deleted")) s.redis ids hl
      (fun t ht => hty t ((hmem t).1 ht).1 ((hmem t).1 ht).2)
  have hrest := taskCompensator_foldl_restores
    (s.db.tasks.filter (fun t => t.Status != "deleted")) s.redis ids hl
      (fun t ht => hty t ((hmem t).1 ht).1 ((hmem t).1 ht).2)
  have hsome : ∀ t ∈ s.db.tasks, t.Status ≠ "deleted" →
      s.redis.lookup ("task:" ++ t.ID ++ ":info") = none →
      ∃ t' ∈ s.db.tasks, t'.Status ≠ "deleted" ∧ t'.ID = t.ID ∧
        (taskCompensatorPass s {}).redis.lookup ("task:" ++ t.ID ++ ":info")
          = some (.hash [("taskId", t'.ID), ("taskName", t'.Name), ("status", t'.Status),
              ("created_at", t'.CreatedAt.text), ("updated_at", t'.UpdatedAt.text)]) := by
    intro t ht hst hn
    obtain ⟨t', ht', hid, hh⟩ := hrest t ((hmem t).2 ⟨ht, hst⟩) hn
    exact ⟨t', ((hmem t').1 ht').1, ((hmem t').1 ht').2, hid, by rw [hpass]; exact hh⟩
  refine ⟨?_, hsome, ?_, ?_, ?_, ?_, ?_, ?_⟩
  · intro t ht hst
    rw [hpass]
    exact ⟨hb t ((hmem t).2 ⟨ht, hst⟩), ids ++ added, ha1, ha4 t ((hmem t).2 ⟨ht, hst⟩)⟩
  · intro hu t ht hst hn
    obtain ⟨t', ht', _, hid, hh⟩ := hsome t ht hst hn
    have := pairwise_ID_unique s.db.tasks hu ht' ht hid
    subst this
    exact hh
  · intro k v hk hne
    rw [hpass]; exact hc k v hk hne
  · rw [hpass]
    refine ⟨added, ha1, ha2, fun x hx => ⟨(ha3 x hx).1, ?_⟩⟩
    obtain ⟨t, ht, htx⟩ := (ha3 x hx).2
    exact ⟨t, ((hmem t).1 ht).1, ((hmem t).1 ht).2, htx⟩
  · intro k hk hne
    rw [hpass] at hne
    rcases hd k hk hne with h | ⟨t, ht, htk⟩
    · exact Or.inl h
    · exact Or.inr ⟨t, ((hmem t).1 ht).1, ((hmem t).1 ht).2, htk⟩
  · rfl
  · rw [hpass (taskCompensatorPass s {}), hpass s]
    simp only
    rw [taskCompensator_foldl_id _ _ (ids ++ added) ha1
      (fun t ht => ⟨ha4 t ht, by
        obtain ⟨h, hh⟩ := hb t ht
        rw [hh]; rfl⟩)]

/-- Witness of C25: a pass over the example task with an empty fast store. The
info hash of the task is restored with its five fields, the identifier is put
on the listing, and a second pass changes nothing. -/
theorem taskCompensator_converges_witness :
    (taskCompensatorPass { exCreated with redis := [] } {}).redis.lookup
        ("task:" ++ exId ++ ":info")
      = some (.hash [("taskId", exId), ("taskName", "nightly"), ("status", "pending"),
          ("created_at", exTime.text), ("updated_at", exTime.text)]) ∧
    Redis.LRange (taskCompensatorPass { exCreated with redis := [] } {}).redis "tasks:list"
      = .ok [exId] ∧
    taskCompensatorPass (taskCompensatorPass { exCreated with redis := [] } {}) {}
      = taskCompensatorPass { exCreated with redis := [] } {} :=
  have h := taskCompensator_converges { exCreated with redis := [] } [] rfl
    (fun _ _ _ => Or.inl rfl)
  ⟨h.2.2.1 (by decide) ⟨exId, "nightly", "pending", exTime, exTime⟩ (by decide) (by decide) rfl,
    rfl, h.2.2.2.2.2.2.2⟩

/-! ## C26: the candidates of the liveness prober -/

theorem dropWhile_head_neg {α : Type} (p : α → Bool) (l : List α) :
    ∀ x t, l.dropWhile p = x :: t → p x = false := by
  induction l with
  | nil => intro x t h; cases h
  | cons a l ih =>
    intro x t h
    by_cases ha : p a = true
    · rw [List.dropWhile_cons_of_pos ha] at h
      exact ih x t h
    · have ha' : p a = false := by simpa using ha
      rw [List.dropWhile_cons_of_neg ha] at h
      injection h with h1 h2
      rw [← h1]; exact ha'

/-- Trimming twice is trimming once. -/
theorem TrimSpace_idem (t : String) : TrimSpace (TrimSpace t) = TrimSpace t := by
  unfold TrimSpace
  simp only
  congr 1
  have hpre : ((t.data.dropWhile isSpace).reverse.dropWhile isSpace).reverse
      <+: t.data.dropWhile isSpace := List.rdropWhile_prefix _ _
  have hb : (((t.data.dropWhile isSpace).reverse.dropWhile isSpace).reverse).dropWhile isSpace
      = ((t.data.dropWhile isSpace).reverse.dropWhile isSpace).reverse := by
    obtain ⟨c, hc⟩ := hpre
    cases hbb : ((t.data.dropWhile isSpace).reverse.dropWhile isSpace).reverse with
    | nil => rfl
    | cons y b =>
      rw [hbb] at hc
      have := dropWhile_head_neg isSpace t.data y (b ++ c) (by rw [← hc]; rfl)
      rw [List.dropWhile_cons_of_neg (by simp [this])]
  rw [hb, List.reverse_reverse, List.dropWhile_idempotent]

/-- The loop over the candidates returns the first accepted candidate. -/
theorem tryCandidates_eq_find (o : NetOracles) (hc : o.cancelled = false) (cands : List String) :
    tryCandidates o cands = cands.find? (fun c =>
      if HasPrefix c "http://" || HasPrefix c "https://" then getAlive o c else o.tcpDial c) := by
  induction cands with
  | nil => rfl
  | cons c rest ih =>
    simp only [tryCandidates, hc, Bool.false_eq_true, if_false, List.find?_cons, getAlive]
    by_cases hp : (HasPrefix c "http://" || HasPrefix c "https://") = true
    · simp only [hp, if_true]
      split
      · rename_i hg; simp [hg, ih, getAlive]
      · rename_i code hg
        by_cases hcode : (decide (200 ≤ code) && decide (code < 400)) = true
        · simp [hg, hcode]
        · simp [hg, hcode, ih, getAlive]
    · simp only [hp, if_false, Bool.false_eq_true]
      by_cases hd : o.tcpDial c = true
      · simp [hd]
      · simp [hd, ih, getAlive]

/-- C26. For a target as `HttpAliveProbe` hands it over (trimmed and not empty;
every argument it passes is of this kind, trimming being idempotent),
`buildURLCandidates` returns: the target alone when it begins with `http://` or
`https://`; else `http://t` and `https://t`, in this order, when the target
does not parse as host:port; else exactly one candidate for the joined
`host:port`: `http://host:port` when the plaintext probe succeeds, whatever
the TLS probe would answer, else `https://host:port` when the TLS probe
succeeds, else `host:port`. The loop of `HttpAliveProbe` over the candidates
accepts a candidate with a scheme exactly when its GET is answered with a
status from 200 to 399 (one without a scheme when the TCP connection is made):
whatever it records is the first accepted candidate, it records the first
accepted candidate whenever the context is not cancelled, and nothing when the
context is cancelled; and what the goroutine of the target records, under the
normalised target, is what the loop returns for the candidates of the
target. -/
theorem probe_candidates (o : NetOracles) (target : String) (ht : TrimSpace target = target)
    (hne : target ≠ "") :
    (∀ raw, TrimSpace (TrimSpace raw) = TrimSpace raw) ∧
    ((HasPrefix target "http://" = true ∨ HasPrefix target "https://" = true) →
      buildURLCandidates o target = [target]) ∧
    (HasPrefix target "http://" = false → HasPrefix target "https://" = false →
      (∀ e, SplitHostPort target = .error e →
        buildURLCandidates o target = ["http://" ++ target, "https://" ++ target]) ∧
      (∀ host port, SplitHostPort target = .ok (host, port) →
        buildURLCandidates o target =
          [if o.isHTTPPort (JoinHostPort host port) then "http://" ++ JoinHostPort host port
           else if o.isHTTPSPort host port then "https://" ++ JoinHostPort host port
           else JoinHostPort host port] ∧
        (o.isHTTPPort (JoinHostPort host port) = true →
          ∀ tls : String → String → Bool,
            buildURLCandidates { o with isHTTPSPort := tls } target
              = ["http://" ++ JoinHostPort host port]))) ∧
    (∀ cands c, tryCandidates o cands = some c → cands.find? (fun c =>
        if HasPrefix c "http://" || HasPrefix c "https://" then
          (match o.httpGet c with
           | some code => 200 ≤ code && code < 400
           | none => false)
        else o.tcpDial c) = some c) ∧
    (o.cancelled = false →
      ∀ cands, tryCandidates o cands = cands.find? (fun c =>
        if HasPrefix c "http://" || HasPrefix c "https://" then
          (match o.httpGet c with
           | some code => 200 ≤ code && code < 400
           | none => false)
        else o.tcpDial c)) ∧
    (o.cancelled = true → ∀ cands, tryCandidates o cands = none) ∧
    probeTarget o target = (tryCandidates o (buildURLCandidates o target)).map
      (fun cand => (normalizeTarget target, cand)) := by
  have hne' : (target == "") = false := by simpa using hne
  have hcanc : o.cancelled = true → ∀ cands, tryCandidates o cands = none := by
    intro hc cands
    cases cands with
    | nil => rfl
    | cons c rest => simp [tryCandidates, hc]
  refine ⟨TrimSpace_idem, ?_, ?_, ?_, fun hc cands => tryCandidates_eq_find o hc cands, hcanc,
    ?_⟩
  · intro hp
    have hp' : (HasPrefix target "http://" || HasPrefix target "https://") = true := by
      simpa using hp
    simp only [buildURLCandidates, ht, hne', hp', Bool.false_eq_true, if_false, if_true]
  · intro h1 h2
    refine ⟨?_, ?_⟩
    · intro e he
      simp only [buildURLCandidates, ht, hne', h1, h2, Bool.or_self, Bool.false_eq_true, if_false,
        he]
    · intro host port hs
      refine ⟨?_, ?_⟩
      · simp only [buildURLCandidates, ht, hne', h1, h2, Bool.or_self, Bool.false_eq_true,
          if_false, hs]
        by_cases p1 : o.isHTTPPort (JoinHostPort host port) = true
        · simp only [p1, if_true]
        · simp only [p1, if_false, Bool.false_eq_true]
          by_cases p2 : o.isHTTPSPort host port = true
          · simp only [p2, if_true]
          · simp only [p2, if_false, Bool.false_eq_true]
      · intro p1 tls
        simp only [buildURLCandidates, ht, hne', h1, h2, Bool.or_self, Bool.false_eq_true,
          if_false, hs, p1, if_true]
  · intro cands c h
    cases hc : o.cancelled with
    | true => rw [hcanc hc cands] at h; cases h
    | false => exact (tryCandidates_eq_find o hc cands).symm.trans h
  · have hn : normalizeTarget target ≠ "" := by
      intro h
      simp only [normalizeTarget, ht, hne', Bool.false_eq_true, if_false] at h
      split at h
      · split at h
        · split at h
          · rename_i hh; simp [h] at hh
          · exact hne h
        · exact hne h
      · exact hne h
    have hn' : (normalizeTarget target == "") = false := by simpa using hn
    cases hc : o.cancelled with
    | true => simp [probeTarget, hc, hcanc hc]
    | false => simp only [probeTarget, hc, hn', Bool.false_eq_true, if_false]

/-- Witness of C26: a host without a port. -/
theorem probe_candidates_witness :
    buildURLCandidates exHttp "example.internal"
      = ["http://" ++ "example.internal", "https://" ++ "example.internal"] :=
  ((probe_candidates exHttp "example.internal" (by decide) (by decide)).2.2.1
    (by decide) (by decide)).1 "missing port in address" rfl

/-! ## C27: the response cap of the result callback -/

/-- A host that `unescape` returns has no slash. -/
theorem unescapeHost_no_slash (zone : Bool) : ∀ (n : Nat) (l out : List Char), l.length ≤ n →
    unescapeHost zone l = .ok out → '/' ∉ out := by
  intro n
  induction n with
  | zero =>
    intro l out hl h
    have : l = [] := List.length_eq_zero.1 (Nat.le_zero.1 hl)
    subst this
    rw [unescapeHost.eq_def] at h
    injection h with h
    subst h
    simp
  | succ n ih =>
    intro l out hl h
    rw [unescapeHost.eq_def] at h
    cases l with
    | nil =>
      injection h with h
      subst h
      simp
    | cons c cs =>
      simp only at h
      by_cases hc : (c == '%') = true
      · simp only [hc, if_true] at h
        cases cs with
        | nil => cases h
        | cons a cs1 =>
          cases cs1 with
          | nil => cases h
          | cons b rest =>
            simp only at h
            split at h
            · cases h
            split at h
            · cases h
            split at h
            · cases h
            split at h
            · cases h
            rename_i h1 h2 h3 h4
            cases hr : unescapeHost zone rest with
            | error e => rw [hr] at h; cases h
            | ok out1 =>
              rw [hr] at h
              simp only [Except.map] at h
              injection h with h
              subst h
              have hrest := ih rest out1 (by simp only [List.length_cons] at hl; omega) hr
              intro hmem
              rcases List.mem_cons.1 hmem with hv | hv
              · have hesc : shouldEscapeHost (Char.ofNat (unhex a * 16 + unhex b)) = true := by
                  rw [← hv]; decide
                have h25 : (a == '2' && b == '5') = true ∨ unhex a * 16 + unhex b = 0x20 := by
                  cases zone with
                  | false =>
                    left
                    simp only [Bool.not_false, Bool.true_and, Bool.and_eq_true,
                      decide_eq_true_eq, Bool.not_eq_true', not_and, Bool.not_eq_false] at h2
                    simp only [ge_iff_le, not_le] at h4
                    by_cases h8 : unhex a < 8
                    · simpa using h2 h8
                    · omega
                  | true =>
                    simp only [hesc, Bool.or_true, Bool.and_true, Bool.true_and,
                      Bool.and_eq_true, Bool.not_eq_true', bne_iff_ne, ne_eq, not_and,
                      Decidable.not_not] at h3
                    by_cases hab : (a == '2' && b == '5') = true
                    · exact Or.inl hab
                    · right
                      have hab' : (a == '2' && b == '5') = false := by simpa using hab
                      exact h3 hab'
                rcases h25 with h25 | h25
                · simp only [Bool.and_eq_true, beq_iff_eq] at h25
                  obtain ⟨ha, hb⟩ := h25
                  subst ha; subst hb
                  exact absurd hv (by decide)
                · rw [h25] at hv
                  exact absurd hv (by decide)
              · exact hrest hv
      · simp only [hc, if_false, Bool.false_eq_true] at h
        split at h
        · cases h
        rename_i h1
        cases hr : unescapeHost zone cs with
        | error e => rw [hr] at h; cases h
        | ok out1 =>
          rw [hr] at h
          simp only [Except.map] at h
          injection h with h
          subst h
          have hrest := ih cs out1 (by simp only [List.length_cons] at hl; omega) hr
          intro hmem
          rcases List.mem_cons.1 hmem with hv | hv
          · subst hv
            exact h1 (by decide)
          · exact hrest hv

theorem parseHost_no_slash {host out : List Char} (h : parseHost host = .ok out) : '/' ∉ out := by
  have hu := fun z l o => unescapeHost_no_slash z l.length l o (Nat.le_refl _)
  unfold parseHost at h
  split at h
  · split at h
    · cases h
    simp only at h
    split at h
    · cases h
    split at h
    · rename_i h1 h2 heq
      cases e1 : unescapeHost false h1 with
      | error e => simp [e1] at h
      | ok host1 =>
        cases e2 : unescapeHost true h2 with
        | error e => simp [e1, e2] at h
        | ok host2 =>
          cases e3 : unescapeHost false (']' :: afterLast ']' host) with
          | error e => simp [e1, e2, e3] at h
          | ok host3 =>
            simp only [e1, e2, e3] at h
            injection h with h
            subst h
            simp only [List.mem_append, not_or]
            exact ⟨⟨hu _ _ _ e1, hu _ _ _ e2⟩, hu _ _ _ e3⟩
    · exact hu _ _ _ h
  · split at h
    · cases h
    · exact hu _ _ _ h

theorem parseAuthority_no_slash {authority out : List Char}
    (h : parseAuthority authority = .ok out) : '/' ∉ out := by
  unfold parseAuthority at h
  split at h
  · exact parseHost_no_slash h
  · cases hp : parseHost (afterLast '@' authority) with
    | error e => simp [hp] at h
    | ok host =>
      simp only [hp] at h
      have hh := parseHost_no_slash hp
      split at h
      · cases h
      split at h
      · split at h
        · injection h with h; subst h; exact hh
        · cases h
      · split at h
        · injection h with h; subst h; exact hh
        · cases h

/-- The host of a parsed URL has no slash. -/
theorem Parse_host_no_slash {s : String} {u : URL} (h : Parse s = .ok u) : '/' ∉ u.Host.data := by
  have hparse : ∀ (raw : List Char) (u : URL), parse raw = .ok u → '/' ∉ u.Host.data := by
    intro raw u h
    unfold parse at h
    repeat' first
      | split at h
      | dsimp only at h
    all_goals first
      | (cases h; done)
      | (injection h with h; subst h
         first
           | (simp; done)
           | exact parseAuthority_no_slash (by assumption))
  unfold Parse at h
  simp only at h
  split at h
  · cases h
  · rename_i url hu
    split at h
    · injection h with h; subst h; exact hparse _ _ hu
    · split at h
      · injection h with h; subst h; exact hparse _ _ hu
      · cases h

theorem HasPrefix_slash {s p : String} (hp : '/' ∈ p.data) (h : HasPrefix s p = true) :
    '/' ∈ s.data := by
  unfold HasPrefix at h
  obtain ⟨c, hc⟩ := List.isPrefixOf_iff_prefix.1 h
  rw [← hc]
  exact List.mem_append_left _ hp

theorem TrimSpace_subset (t : String) : ∀ c ∈ (TrimSpace t).data, c ∈ t.data := by
  intro c hc
  unfold TrimSpace at hc
  simp only [List.mem_reverse] at hc
  have h1 := (List.dropWhile_suffix isSpace).subset hc
  exact (List.dropWhile_suffix isSpace).subset (List.mem_reverse.1 h1)

theorem normalizeTarget_TrimSpace (t : String) :
    normalizeTarget (TrimSpace t) = normalizeTarget t := by
  unfold normalizeTarget
  rw [TrimSpace_idem]

/-- What a second normalisation does: it trims. -/
theorem normalizeTarget_twice_eq (t : String) :
    normalizeTarget (normalizeTarget t) = TrimSpace (normalizeTarget t) := by
  have hno : ∀ n : String, '/' ∉ n.data → normalizeTarget n = TrimSpace n := by
    intro n hn
    have hn' : '/' ∉ (TrimSpace n).data := fun h => hn (TrimSpace_subset n _ h)
    have h1 : HasPrefix (TrimSpace n) "http://" = false := by
      cases h : HasPrefix (TrimSpace n) "http://" with
      | false => rfl
      | true => exact absurd (HasPrefix_slash (by decide) h) hn'
    have h2 : HasPrefix (TrimSpace n) "https://" = false := by
      cases h : HasPrefix (TrimSpace n) "https://" with
      | false => rfl
      | true => exact absurd (HasPrefix_slash (by decide) h) hn'
    unfold normalizeTarget
    simp only [h1, h2, Bool.or_self, Bool.false_eq_true, if_false]
    by_cases he : (TrimSpace n == "") = true
    · simp only [he, if_true]
      exact (by simpa using he : TrimSpace n = "").symm
    · simp only [he, if_false, Bool.false_eq_true]
  have hfall : normalizeTarget t = TrimSpace t →
      normalizeTarget (normalizeTarget t) = TrimSpace (normalizeTarget t) := by
    intro h
    rw [h, normalizeTarget_TrimSpace, h, TrimSpace_idem]
  by_cases he : (TrimSpace t == "") = true
  · apply hfall
    simp only [normalizeTarget, he, if_true]
    exact (by simpa using he : TrimSpace t = "").symm
  · by_cases hp : (HasPrefix (TrimSpace t) "http://" || HasPrefix (TrimSpace t) "https://") = true
    · cases hu : Parse (TrimSpace t) with
      | error e =>
        apply hfall
        simp only [normalizeTarget, he, hp, hu, if_true, if_false, Bool.false_eq_true]
      | ok u =>
        by_cases hh : (u.Host != "") = true
        · have hn : normalizeTarget t = u.Host := by
            simp only [normalizeTarget, he, hp, hu, hh, if_true, if_false, Bool.false_eq_true]
          rw [hn]
          exact hno _ (Parse_host_no_slash hu)
        · apply hfall
          simp only [normalizeTarget, he, hp, hu, hh, if_true, if_false, Bool.false_eq_true]
    · apply hfall
      simp only [normalizeTarget, he, hp, if_false, Bool.false_eq_true]

/-- C28, the statement as written fails: the URL `http://` followed by a
no-break space and `a.com:80` parses with the host beginning with the no-break
space (a byte from 0x80 is accepted in a host), which the second normalisation
trims. `splitTargets` puts the host into `withPort`; the prober trims it and
records its entry under `a.com:80`, so the lookup under the element of
`withPort` finds nothing and the bare element is passed on. -/
theorem normalizeTarget_not_idempotent_counterexample :
    normalizeTarget "http://\u00a0a.com:80" = "\u00a0a.com:80" ∧
    normalizeTarget (normalizeTarget "http://\u00a0a.com:80") = "a.com:80" ∧
    splitTargets ["http://\u00a0a.com:80"] = (["\u00a0a.com:80"], []) ∧
    (HttpAliveProbe exHttp ["\u00a0a.com:80"]).1 = [("a.com:80", "http://a.com:80")] ∧
    assembleTargets ["\u00a0a.com:80"] (HttpAliveProbe exHttp ["\u00a0a.com:80"]).1
      = ["\u00a0a.com:80"] :=
  ⟨by decide, by decide, by decide, by decide, by decide⟩

/-- The loop over the candidates returns nothing when the context is
cancelled. -/
theorem tryCandidates_cancelled (o : NetOracles) (hc : o.cancelled = true) (cands : List String) :
    tryCandidates o cands = none := by
  cases cands with
  | nil => rfl
  | cons c rest => simp [tryCandidates, hc]

/-- The goroutine of a target writes under the normalised target. -/
theorem probeTarget_key {o : NetOracles} {t k c : String} (h : probeTarget o t = some (k, c)) :
    k = normalizeTarget t := by
  unfold probeTarget at h
  split at h
  · cases h
  · simp only at h
    split at h
    · cases h
    · cases hT : tryCandidates o (buildURLCandidates o t) with
      | none => simp [hT] at h
      | some c' =>
        simp only [hT, Option.map_some', Option.some.injEq, Prod.mk.injEq] at h
        exact h.1.symm

/-- The goroutine of a target that is its own key: it records what the loop
over its candidates returns. -/
theorem probeTarget_own (o : NetOracles) {hp : String} (hne : hp ≠ "")
    (hkey : normalizeTarget hp = hp) :
    probeTarget o hp = (tryCandidates o (buildURLCandidates o hp)).map (fun c => (hp, c)) := by
  have hne' : (hp == "") = false := by simpa using hne
  cases hc : o.cancelled with
  | true => simp [probeTarget, hc, tryCandidates_cancelled o hc]
  | false => simp only [probeTarget, hc, hkey, hne', Bool.false_eq_true, if_false]

/-- The alive map under a key that only the key itself, up to surrounding
whitespace, is normalised to. -/
theorem probe_foldl_own (o : NetOracles) (hp : String) (hne : hp ≠ "")
    (hkey : normalizeTarget hp = hp) :
    ∀ (L : List String) (m : AliveMap),
      (∀ x ∈ L, normalizeTarget x = hp → TrimSpace x = hp) →
      (L.foldl (fun (m : AliveMap) raw =>
        if (TrimSpace raw == "") = true then m else
        match probeTarget o (TrimSpace raw) with
        | some (key, cand) => m.set key cand
        | none => m) m).lookup hp
      = if L.any (fun x => TrimSpace x == hp) = true then
          (match tryCandidates o (buildURLCandidates o hp) with
           | some c => some c
           | none => m.lookup hp)
        else m.lookup hp := by
  intro L
  induction L with
  | nil => intro m _; rfl
  | cons a l ih =>
    intro m hown
    rw [List.foldl_cons, ih _ (fun x hx => hown x (List.mem_cons_of_mem _ hx))]
    by_cases ha : TrimSpace a = hp
    · have hne' : (hp == "") = false := by simpa using hne
      simp only [List.any_cons, ha, beq_self_eq_true, Bool.true_or, if_true, hne',
        Bool.false_eq_true, if_false, probeTarget_own o hne hkey]
      cases hT : tryCandidates o (buildURLCandidates o hp) with
      | none => simp
      | some c => simp [AliveMap.lookup_set_self]
    · have hab : (TrimSpace a == hp) = false := by simpa using ha
      have hstep : (if (TrimSpace a == "") = true then m else
          match probeTarget o (TrimSpace a) with
          | some (key, cand) => m.set key cand
          | none => m).lookup hp = m.lookup hp := by
        split
        · rfl
        · cases hP : probeTarget o (TrimSpace a) with
          | none => rfl
          | some p =>
            obtain ⟨k, c⟩ := p
            have hk := probeTarget_key hP
            rw [normalizeTarget_TrimSpace] at hk
            have : hp ≠ k := by
              intro e
              exact ha (hown a (List.mem_cons_self _ _) (by rw [← hk, e]))
            exact AliveMap.lookup_set_ne m c this
      simp only [List.any_cons, hab, Bool.false_or]
      rw [hstep]

/-- An element of `withPort` is a normalised target that is not empty. -/
theorem mem_withPort {raws : List String} {hp : String} (h : hp ∈ (splitTargets raws).1) :
    hp ≠ "" ∧ ∃ raw, hp = normalizeTarget raw := by
  have hs := splitTargets_foldl raws ([], [])
  have h1 : (splitTargets raws).1 =
      ((raws.map normalizeTarget).filter (fun t => t != "")).filter isHostPort := by
    have := congrArg Prod.fst hs
    simpa [splitTargets] using this
  rw [h1] at h
  simp only [List.mem_filter, List.mem_map] at h
  obtain ⟨⟨⟨raw, _, hr⟩, hne⟩, _⟩ := h
  exact ⟨by simpa using hne, raw, hr.symm⟩

/-- C28 as amended. For every string `t`, normalising the normalised target
trims it of surrounding whitespace and does nothing else, so
`normalizeTarget (normalizeTarget t) = normalizeTarget t` whenever the
normalised target has no surrounding whitespace. Every element `hp` that
`splitTargets` places in `withPort` and that has no surrounding whitespace is
not empty and is its own key; and when no element of the discovered endpoints
`D` other than `hp` itself, up to surrounding whitespace, is normalised to
`hp`, the alive map that `HttpAliveProbe` builds for `withPort` followed by `D`
holds under `hp` the first candidate of `hp` that the prober accepts, and no
entry when it accepts none; the final assembly puts that entry (the element
itself when there is none, or when it is empty) at every position of `hp`. -/
theorem normalizeTarget_twice (t : String) :
    normalizeTarget (normalizeTarget t) = TrimSpace (normalizeTarget t) ∧
    (TrimSpace (normalizeTarget t) = normalizeTarget t →
      normalizeTarget (normalizeTarget t) = normalizeTarget t) ∧
    (∀ (raws D : List String) (o : NetOracles) (hp : String),
      hp ∈ (splitTargets raws).1 → TrimSpace hp = hp →
      (∀ x ∈ D, normalizeTarget x = hp → TrimSpace x = hp) →
      hp ≠ "" ∧ normalizeTarget hp = hp ∧
      (HttpAliveProbe o ((splitTargets raws).1 ++ D)).1.lookup hp
        = tryCandidates o (buildURLCandidates o hp) ∧
      ∀ i, ((splitTargets raws).1 ++ D).get? i = some hp →
        (assembleTargets ((splitTargets raws).1 ++ D)
            (HttpAliveProbe o ((splitTargets raws).1 ++ D)).1).get? i
          = some (match tryCandidates o (buildURLCandidates o hp) with
                  | some u => if u != "" then u else hp
                  | none => hp)) := by
  refine ⟨normalizeTarget_twice_eq t, fun h => by rw [normalizeTarget_twice_eq, h], ?_⟩
  intro raws D o hp hmem htrim hD
  obtain ⟨hne, raw, hraw⟩ := mem_withPort hmem
  have hkey : normalizeTarget hp = hp := by
    rw [hraw, normalizeTarget_twice_eq, ← hraw, htrim]
  have hown : ∀ x ∈ (splitTargets raws).1 ++ D, normalizeTarget x = hp → TrimSpace x = hp := by
    intro x hx hk
    rcases List.mem_append.1 hx with h | h
    · obtain ⟨_, raw', hr'⟩ := mem_withPort h
      rw [hr', normalizeTarget_twice_eq] at hk
      rw [hr']; exact hk
    · exact hD x h hk
  have hin : hp ∈ (splitTargets raws).1 ++ D := List.mem_append_left _ hmem
  have hlen : (((splitTargets raws).1 ++ D).length == 0) = false := by
    cases hL : (splitTargets raws).1 ++ D with
    | nil => rw [hL] at hin; cases hin
    | cons a l => rfl
  have hany : ((splitTargets raws).1 ++ D).any (fun x => TrimSpace x == hp) = true :=
    List.any_eq_true.2 ⟨hp, hin, by simp [htrim]⟩
  have hmap : (HttpAliveProbe o ((splitTargets raws).1 ++ D)).1.lookup hp
      = tryCandidates o (buildURLCandidates o hp) := by
    have hfold := probe_foldl_own o hp hne hkey _ [] hown
    rw [hany] at hfold
    have h1 : (HttpAliveProbe o ((splitTargets raws).1 ++ D)).1 =
        ((splitTargets raws).1 ++ D).foldl (fun (m : AliveMap) raw =>
          if (TrimSpace raw == "") = true then m else
          match probeTarget o (TrimSpace raw) with
          | some (key, cand) => m.set key cand
          | none => m) [] := by
      simp only [HttpAliveProbe, hlen, Bool.false_eq_true, if_false]
      split <;> rfl
    rw [h1, hfold]
    cases tryCandidates o (buildURLCandidates o hp) <;> rfl
  refine ⟨hne, hkey, hmap, ?_⟩
  intro i hi
  rw [assembleTargets_eq_map, List.get?_eq_getElem?, List.getElem?_map,
    ← List.get?_eq_getElem?, hi]
  simp only [Option.map_some', hmap]

/-- C28 as amended, at the endpoint of the example task: it is its own key,
and the alive map holds under it what the prober accepts for it. -/
theorem normalizeTarget_twice_witness :
    "10.0.0.1:8080" ∈ (splitTargets ["10.0.0.1:8080", "example.internal"]).1 ∧
    normalizeTarget "10.0.0.1:8080" = "10.0.0.1:8080" ∧
    (HttpAliveProbe exHttp
        ((splitTargets ["10.0.0.1:8080", "example.internal"]).1 ++ ["example.internal:443"])).1.lookup
        "10.0.0.1:8080"
      = tryCandidates exHttp (buildURLCandidates exHttp "10.0.0.1:8080") ∧
    tryCandidates exHttp (buildURLCandidates exHttp "10.0.0.1:8080")
      = some "http://10.0.0.1:8080" :=
  have h := (normalizeTarget_twice "10.0.0.1:8080").2.2 ["10.0.0.1:8080", "example.internal"]
    ["example.internal:443"] exHttp "10.0.0.1:8080" (by decide) (by decide) (by decide)
  ⟨by decide, h.2.1, h.2.2.1, by decide⟩

/-! ## C29: the pages of `Result` -/

/-- C29, failing input: five stored results and the request `page =
4611686018427387904` (2 to the 62), `pageSize = 4`. Both parameters parse as
positive machine integers. The product `(page - 1) * pageSize` wraps around to
`-4`, so the start index is not beyond the total, and `LRANGE key -4 -1`
returns the last four entries; no list index `i` has
`(page - 1) * pageSize <= i`. -/
theorem Result_page_overflow :
    Atoi "4611686018427387904" = .ok 4611686018427387904 ∧
    Atoi "4" = .ok 4 ∧
    wrapInt64 ((4611686018427387904 - 1) * 4) = -4 ∧
    (Result exUnmarshal exResults ⟨"t1", some "4611686018427387904", some "4"⟩ {}).code = 200 ∧
    (Result exUnmarshal exResults ⟨"t1", some "4611686018427387904", some "4"⟩ {}).total = 5 ∧
    (Result exUnmarshal exResults ⟨"t1", some "4611686018427387904", some "4"⟩ {}).results
      = [⟨true, [], "b"⟩, ⟨true, [], "c"⟩, ⟨true, [], "d"⟩, ⟨true, [], "e"⟩] :=
  ⟨rfl, rfl, by decide, by decide, by decide, by decide⟩

theorem wrapInt64_of_fits {x : Int} (h1 : -(2 ^ 63) ≤ x) (h2 : x < 2 ^ 63) : wrapInt64 x = x := by
  unfold wrapInt64
  rw [Int.emod_eq_of_lt (by omega) (by omega)]
  omega

/-- The pages of `Result` when the product `page * pageSize` fits a machine
integer: the total is the length of the stored list, and the results are the
parseable entries at the indices from `(page - 1) * pageSize` up to, and not
including, `page * pageSize`, in list order. -/
theorem Result_page_in_range (unmarshal : String → Option ResultEvent) (s : Sys)
    (req : ResultReq) (page pageSize : Int) (xs : List String) (hid : req.taskId ≠ "")
    (hp : Atoi (req.page.getD "1") = .ok page) (hp1 : 1 ≤ page)
    (hs : Atoi (req.pageSize.getD "20") = .ok pageSize) (hs1 : 1 ≤ pageSize)
    (hfit : page * pageSize < 2 ^ 63)
    (hlist : s.redis.lookup ("task:" ++ req.taskId ++ ":result") = some (.list xs)) :
    Result unmarshal s req {} = ⟨200, "", xs.length, page, pageSize,
      ((xs.drop ((page - 1) * pageSize).toNat).take pageSize.toNat).filterMap unmarshal⟩ := by
  have hid' : (req.taskId == "") = false := by simpa using hid
  have hp1' : ¬ page ≤ 0 := by omega
  have hs1' : ¬ pageSize ≤ 0 := by omega
  have hprod : 0 ≤ (page - 1) * pageSize := Int.mul_nonneg (by omega) (by omega)
  have hprod2 : (page - 1) * pageSize + pageSize = page * pageSize := by ring
  have hw1 : wrapInt64 ((page - 1) * pageSize) = (page - 1) * pageSize :=
    wrapInt64_of_fits (by omega) (by omega)
  have hw2 : wrapInt64 ((page - 1) * pageSize + pageSize - 1) = (page - 1) * pageSize + pageSize - 1 :=
    wrapInt64_of_fits (by omega) (by omega)
  simp only [Result, hid', Bool.false_eq_true, if_false, hp, hs, hp1', hs1', withFault,
    Redis.LLen, hlist, hw1, hw2]
  cases xs with
  | nil => simp
  | cons x l =>
    have hne : ((x :: l).length == 0) = false := by simp
    simp only [hne, Bool.false_eq_true, if_false]
    generalize hst : (page - 1) * pageSize = st at *
    by_cases hge : st ≥ ((x :: l).length : Int)
    · simp only [hge, if_true]
      have : (x :: l).drop st.toNat = [] := List.drop_eq_nil_of_le (by omega)
      rw [this]
      simp
    · simp only [hge, if_false, Redis.LRangeIdx, hlist]
      have h1 : ¬ st < 0 := by omega
      have h2 : ¬ st + pageSize - 1 < 0 := by omega
      have h3 : ¬ (st > st + pageSize - 1) := by omega
      simp only [h1, h2, if_false, h3, hge, decide_False, Bool.or_self, Bool.false_eq_true]
      congr 2
      by_cases hbig : st + pageSize - 1 ≥ ((x :: l).length : Int)
      · simp only [hbig, if_true]
        rw [List.take_of_length_le, List.take_of_length_le]
        · simp only [List.length_drop]; omega
        · simp only [List.length_drop]; omega
      · simp only [hbig, if_false]
        congr 1
        omega

end Dast
